import Mathlib

/-!
# mapviz `PointCloud2Plugin`: a shallow embedding

Source: `src/mapviz_plugins/src/pointcloud2_plugin.cpp`.

Conventions of the embedding.

* The plugin object is the record `Plugin`; every member function becomes a
  function on it.  The fields keep the C++ member names.
* A `float` or `double` value is a `Flt`: a finite rational, negative zero, an
  infinity or a NaN.  Every arithmetic operation and conversion rounds to
  nearest, ties to even, in the format of its C++ type (`binary32` for `float`,
  `binary64` for `double`, each expression evaluated in its own type).  The
  members `min_value_` and `max_value_` are `double`s, as their initialisers
  and the spin boxes they are assigned from have it; the features of a sample
  and the local `val` of `CalculateColor` are `float`s, as `PointFeature`
  returns them.
* Undefined behaviour of the C++ (a division by zero, a read past the end of
  `msg->data`, `operator[]` past the end of a vector) is a `Fault`; functions
  that can run into it return `Except Fault _`.
* The collaborators that are not part of this file (the transform lookup of the
  base class, the in-memory bytes of a `float`) are the fields of `Env`.
* Widgets are reduced to the values the code reads from them.  The combo box
  `ui_.color_transformer` is a list of entries with a current index; a change
  of its current index runs the connected slot `ColorTransformerChanged`.
* Locks, `canvas_->update()`, status messages and widget visibility have no
  counterpart: they do not touch the modelled state.
-/

namespace mapviz_plugins

/-! ## Floating-point values -/

/-- A value of an IEEE 754 binary format (a `float` or a `double`): a finite
value other than negative zero, negative zero, an infinity, or a NaN with its
sign and the bits of its mantissa field. -/
inductive Flt
  | fin (q : ℚ)
  | negZero
  | inf (negative : Bool)
  | nan (negative : Bool) (payload : Nat)
  deriving DecidableEq

instance (n : Nat) : OfNat Flt n := ⟨Flt.fin n⟩

instance : Inhabited Flt := ⟨Flt.fin 0⟩

/-- The power `2 ^ k` for an integer `k`. -/
def pow2 (k : Int) : ℚ :=
  if 0 ≤ k then ((2 ^ k.toNat : Nat) : ℚ) else 1 / ((2 ^ (-k).toNat : Nat) : ℚ)

/-- The number `⌊log₂ n⌋` in at most `fuel` halvings. -/
def log2Fuel : Nat → Nat → Nat
  | 0, _ => 0
  | fuel + 1, n => if 2 ≤ n then log2Fuel fuel (n / 2) + 1 else 0

/-- The number `⌊log₂ n⌋` of a natural number `n ≠ 0`. -/
def log2 (n : Nat) : Nat :=
  log2Fuel n n

/-- The exponent of `q ≠ 0`: the integer `e` with `2 ^ e ≤ |q| < 2 ^ (e + 1)`. -/
def ilog2 (q : ℚ) : Int :=
  let e : Int := (log2 q.num.natAbs : Int) - (log2 q.den : Int)
  if pow2 e ≤ |q| then e else e - 1

/-- The integer nearest to `x`, the even one of the two when `x` lies half way. -/
def roundHalfEven (x : ℚ) : Int :=
  let f := ⌊x⌋
  if x - f < 1 / 2 then f
  else if 1 / 2 < x - f then f + 1
  else if f % 2 = 0 then f else f + 1

/-- A binary floating-point format: the number of bits of the significand (the
hidden bit included) and the exponents of the smallest and the largest normal
binade. -/
structure Format where
  precision : Nat
  emin : Int
  emax : Int

/-- The format of a `float`. -/
def binary32 : Format := ⟨24, -126, 127⟩

/-- The format of a `double`. -/
def binary64 : Format := ⟨53, -1022, 1023⟩

/-- The multiple of the spacing of the format around `q` that is nearest to `q`,
ties to even; the spacing is that of the binade of `q`, and that of the
subnormal numbers below the smallest normal binade. -/
def Format.nearest (f : Format) (q : ℚ) : ℚ :=
  if q = 0 then 0
  else
    let k : Int := max (ilog2 q) f.emin - ((f.precision : Int) - 1)
    (roundHalfEven (q / pow2 k) : ℚ) * pow2 k

/-- A zero of the given sign. -/
def Flt.zero (negative : Bool) : Flt :=
  if negative then .negZero else .fin 0

/-- The rounding of the exact result `q` of an operation to the format, to
nearest with ties to even: a result beyond the largest value of the format is an
infinity, and a result that rounds to zero keeps the sign of `q`. -/
def Format.round (f : Format) (q : ℚ) : Flt :=
  let r := f.nearest q
  if pow2 (f.emax + 1) ≤ |r| then .inf (decide (q < 0))
  else if r = 0 then Flt.zero (decide (q < 0))
  else .fin r

/-- The sign bit. -/
def Flt.negative : Flt → Bool
  | .fin q => decide (q < 0)
  | .negZero => true
  | .inf negative => negative
  | .nan negative _ => negative

/-- The value is a NaN. -/
def Flt.isNaN : Flt → Bool
  | .nan _ _ => true
  | _ => false

/-- The value is an infinity. -/
def Flt.isInf : Flt → Bool
  | .inf _ => true
  | _ => false

/-- The number that a finite value stands for (`0` for the other values). -/
def Flt.value : Flt → ℚ
  | .fin q => q
  | _ => 0

/-- The value is finite: neither a NaN nor an infinity. -/
def Flt.isFinite : Flt → Bool
  | .fin _ => true
  | .negZero => true
  | _ => false

/-- The value is a zero. -/
def Flt.isZero : Flt → Bool
  | .fin q => decide (q = 0)
  | .negZero => true
  | _ => false

/-- The place of a value other than a NaN on the extended number line: `-1`,
`0` or `1` for negative infinity, a finite value or positive infinity, and the
number of a finite value. -/
def Flt.place : Flt → Int × ℚ
  | .fin q => (0, q)
  | .negZero => (0, 0)
  | .inf true => (-1, 0)
  | .inf false => (1, 0)
  | .nan _ _ => (0, 0)

/-- The comparison `a < b` of C++: false when an operand is a NaN. -/
def Flt.lt (a b : Flt) : Bool :=
  !a.isNaN && !b.isNaN &&
    (decide (a.place.1 < b.place.1) ||
      (decide (a.place.1 = b.place.1) && decide (a.place.2 < b.place.2)))

/-- The comparison `a <= b` of C++: false when an operand is a NaN. -/
def Flt.le (a b : Flt) : Bool :=
  !a.isNaN && !b.isNaN &&
    (decide (a.place.1 < b.place.1) ||
      (decide (a.place.1 = b.place.1) && decide (a.place.2 ≤ b.place.2)))

instance : LT Flt := ⟨fun a b => Flt.lt a b = true⟩

instance : LE Flt := ⟨fun a b => Flt.le a b = true⟩

instance (a b : Flt) : Decidable (a < b) :=
  inferInstanceAs (Decidable (Flt.lt a b = true))

instance (a b : Flt) : Decidable (a ≤ b) :=
  inferInstanceAs (Decidable (Flt.le a b = true))

/-- The call `std::min(a, b)`: `b` when `b < a`, and `a` otherwise. -/
def Flt.stdMin (a b : Flt) : Flt :=
  if b < a then b else a

/-- The call `std::max(a, b)`: `b` when `a < b`, and `a` otherwise. -/
def Flt.stdMax (a b : Flt) : Flt :=
  if a < b then b else a

/-- The NaN that an operation of the format gives for a NaN operand and for an
invalid operation: the quiet NaN with the sign bit set and no further payload.
IEEE 754 and C++ leave the sign and the payload of such a result open; the
program never looks at them (line 254 turns every NaN into `0.0f`). -/
def Format.defaultNaN (f : Format) : Flt :=
  .nan true (2 ^ (f.precision - 2))

/-- The negation `-a`. -/
def Flt.neg : Flt → Flt
  | .fin q => if q = 0 then .negZero else .fin (-q)
  | .negZero => .fin 0
  | .inf negative => .inf (!negative)
  | .nan negative payload => .nan (!negative) payload

/-- The sum `a + b` in the format `f`. -/
def Flt.add (f : Format) (a b : Flt) : Flt :=
  if a.isNaN ∨ b.isNaN then f.defaultNaN
  else if a.isInf ∧ b.isInf then (if a.negative = b.negative then a else f.defaultNaN)
  else if a.isInf then a
  else if b.isInf then b
  else if a.value + b.value = 0 then Flt.zero (a.negative && b.negative)
  else f.round (a.value + b.value)

/-- The difference `a - b` in the format `f`. -/
def Flt.sub (f : Format) (a b : Flt) : Flt :=
  Flt.add f a b.neg

/-- The product `a * b` in the format `f`. -/
def Flt.mul (f : Format) (a b : Flt) : Flt :=
  let negative := a.negative != b.negative
  if a.isNaN ∨ b.isNaN then f.defaultNaN
  else if a.isInf ∨ b.isInf then
    (if a.isZero ∨ b.isZero then f.defaultNaN else .inf negative)
  else if a.value * b.value = 0 then Flt.zero negative
  else f.round (a.value * b.value)

/-- The quotient `a / b` in the format `f`. -/
def Flt.div (f : Format) (a b : Flt) : Flt :=
  let negative := a.negative != b.negative
  if a.isNaN ∨ b.isNaN then f.defaultNaN
  else if a.isInf then (if b.isInf then f.defaultNaN else .inf negative)
  else if b.isInf then Flt.zero negative
  else if b.isZero then (if a.isZero then f.defaultNaN else .inf negative)
  else if a.value = 0 then Flt.zero negative
  else f.round (a.value / b.value)

/-- The conversion of an integer to the format `f`. -/
def Flt.ofInt (f : Format) (i : Int) : Flt :=
  f.round i

/-- The conversion of a `float` to `double`: the value stays; of a NaN the
payload moves to the top of the wider mantissa field with its quiet bit set,
as the conversion instructions of the common processors do it. -/
def Flt.toDouble : Flt → Flt
  | .nan negative payload =>
    .nan negative ((if payload / 2 ^ 22 % 2 = 1 then payload else payload + 2 ^ 22) * 2 ^ 29)
  | x => x

/-- The conversion of a `double` to `float`: a finite value is rounded; of a
NaN the top bits of the payload stay, with the quiet bit set, as the conversion
instructions of the common processors do it. -/
def Flt.toFloat : Flt → Flt
  | .fin q => binary32.round q
  | .nan negative payload =>
    .nan negative
      (if payload / 2 ^ 51 % 2 = 1 then payload / 2 ^ 29 else payload / 2 ^ 29 + 2 ^ 22)
  | x => x

/-- The value of an IEEE 754 pattern `n` with `mb` mantissa bits, `eb` exponent
bits and the given bias. -/
def ieeeValue (mb eb bias n : Nat) : Flt :=
  let m := n % 2 ^ mb
  let e := n / 2 ^ mb % 2 ^ eb
  let negative : Bool := decide (n / 2 ^ (mb + eb) % 2 = 1)
  let sign : Int := if negative then -1 else 1
  if e = 2 ^ eb - 1 then (if m = 0 then .inf negative else .nan negative m)
  else if e = 0 then
    (if m = 0 then Flt.zero negative else .fin (mkRat (sign * m) (2 ^ (bias + mb - 1))))
  else .fin (mkRat (sign * ((2 ^ mb + m) * 2 ^ (e - (bias + mb)))) (2 ^ (bias + mb - e)))

/-! ## Data model -/

/-- The ways in which the C++ leaves defined behaviour. -/
inductive Fault
  | divByZero
  | readPastEnd
  | badIndex
  deriving DecidableEq, Repr

/-- A `tf::Point`: three `double`s. -/
structure TfPoint where
  x : Flt
  y : Flt
  z : Flt
  deriving DecidableEq

/-- A colour held by one of the colour buttons: an RGB `QColor`, by the
components that `red()`, `green()`, `blue()` and `alpha()` return (each between
`0` and `255`). -/
structure RgbColor where
  red : Int
  green : Int
  blue : Int
  alpha : Int
  deriving DecidableEq

/-- A `QColor` as the plugin builds it: default constructed, from RGB
components, or from HSL components (`QColor::fromHsl`). -/
inductive QColor
  | invalid
  | rgb (r g b a : Int)
  | hsl (h s l a : Int)
  deriving DecidableEq

/-- The `QColor` of a colour button. -/
def RgbColor.color (c : RgbColor) : QColor :=
  QColor.rgb c.red c.green c.blue c.alpha

/-- The struct `FieldInfo` of the plugin header. -/
structure FieldInfo where
  datatype : Nat
  offset : Nat
  deriving DecidableEq

/-- The struct `StampedPoint` of the plugin header. -/
structure StampedPoint where
  point : TfPoint
  transformed_point : TfPoint
  color : QColor
  features : List Flt
  deriving DecidableEq

/-- The struct `Scan` of the plugin header; `new_features` is the
`std::map<std::string, FieldInfo>`, kept as its entries in key order. -/
structure Scan where
  stamp : Nat
  color : QColor
  points : List StampedPoint
  source_frame : String
  transformed : Bool
  new_features : List (String × FieldInfo)
  deriving DecidableEq

/-- A `sensor_msgs::PointField` (the member `count` is never read). -/
structure PointField where
  name : String
  offset : Nat
  datatype : Nat
  deriving DecidableEq

/-- The members of a `sensor_msgs::PointCloud2` that the plugin reads;
`data` is the byte vector, one `Nat` per byte. -/
structure PointCloud2 where
  stamp : Nat
  frame_id : String
  fields : List PointField
  point_step : Nat
  data : List Nat
  deriving DecidableEq

/-- The combo box `ui_.color_transformer`: the entry texts and the current
index (`-1` when there is no current entry). -/
structure QComboBox where
  items : List String
  currentIndex : Int
  deriving DecidableEq

/-- The collaborators outside this file.  `GetTransform frame stamp` is
`MapvizPlugin::GetTransform`, giving the transform as the map `transform * p`;
`floatByte v i` is byte `i` of the object representation of the `float` `v`. -/
structure Env where
  GetTransform : String → Nat → Option (TfPoint → TfPoint)
  floatByte : Flt → Nat → Int

/-- The members of `PointCloud2Plugin` and the widget values it reads. -/
structure Plugin where
  topic_ : String
  min_value_ : Flt
  max_value_ : Flt
  buffer_size_ : Nat
  new_topic_ : Bool
  has_message_ : Bool
  initialized_ : Bool
  num_of_feats_ : Nat
  need_new_list_ : Bool
  need_minmax_ : Bool
  saved_color_transformer_ : String
  max_ : List Flt
  min_ : List Flt
  scans_ : List Scan
  color_transformer : QComboBox
  min_color : RgbColor
  max_color : RgbColor
  use_rainbow : Bool
  unpack_rgb : Bool
  use_automaxmin : Bool
  deriving DecidableEq

/-- A value-initialised `StampedPoint` (what `resize` appends). -/
def StampedPoint.fresh : StampedPoint :=
  { point := ⟨0, 0, 0⟩, transformed_point := ⟨0, 0, 0⟩, color := QColor.invalid,
    features := [] }

/-- The local `Scan scan;` of `PointCloud2Callback` before anything is
assigned to it. -/
def Scan.fresh : Scan :=
  { stamp := 0, color := QColor.invalid, points := [], source_frame := "",
    transformed := false, new_features := [] }

/-- The plugin as the constructor leaves it (lines 67-98). -/
def Plugin.constructed : Plugin :=
  { topic_ := "", min_value_ := 0, max_value_ := 100, buffer_size_ := 1,
    new_topic_ := true, has_message_ := false, initialized_ := false,
    num_of_feats_ := 0, need_new_list_ := true, need_minmax_ := false,
    saved_color_transformer_ := "", max_ := [], min_ := [], scans_ := [],
    color_transformer := { items := ["Flat Color"], currentIndex := 0 },
    min_color := ⟨255, 255, 255, 255⟩, max_color := ⟨0, 0, 0, 255⟩,
    use_rainbow := false, unpack_rgb := false, use_automaxmin := false }

/-! ## Small C++ library operations -/

/-- The truncation of a number toward zero. -/
def truncInt (v : ℚ) : Int :=
  if 0 ≤ v then ⌊v⌋ else ⌈v⌉

/-- The conversion `(int)v` of a floating-point value: truncation toward zero.
The values that the program converts are finite and inside the range of `int`
(`gradientChannel_range`, `hue_range`). -/
def Flt.toInt (v : Flt) : Int :=
  truncInt v.value

/-- The call `v.resize(n)` of a `std::vector`, `d` being the value-initialised
element. -/
def resize {α : Type} (v : List α) (n : Nat) (d : α) : List α :=
  v.take n ++ List.replicate (n - v.length) d

/-- The value `static_cast<unsigned int>(i)` of an `int`. -/
def toUnsigned (i : Int) : Nat :=
  (i % 4294967296).toNat

/-! ## `CalculateColor` (lines 218-279) -/

/-- Lines 226-237: the running extrema of feature `i` take in `val`. -/
def trackExtrema (s : Plugin) (i : Nat) (val : Flt) : Except Fault Plugin :=
  match s.max_[i]? with
  | none => .error .badIndex
  | some mx =>
    let s1 := if val > mx then { s with max_ := s.max_.set i val } else s
    match s1.min_[i]? with
    | none => .error .badIndex
    | some mn => .ok (if val < mn then { s1 with min_ := s1.min_.set i val } else s1)

/-- Lines 250-254: the value scaled by the range and clamped to `[0, 1]`.  The
two differences and the quotient of line 252 are those of `double` (`val` is
converted, `min_value_` and `max_value_` are `double`s), and the quotient is
converted to the `float` `val`. -/
def scaleValue (s : Plugin) (val : Flt) : Flt :=
  let v := if s.max_value_ > s.min_value_
    then Flt.toFloat (Flt.div binary64 (Flt.sub binary64 val.toDouble s.min_value_)
      (Flt.sub binary64 s.max_value_ s.min_value_))
    else val
  Flt.stdMax 0 (Flt.stdMin v 1)

/-- Lines 256-260: with auto-range checked the range becomes the running
extrema of feature `i`. -/
def adoptExtrema (s : Plugin) (i : Nat) : Except Fault Plugin :=
  if s.use_automaxmin then
    match s.max_[i]?, s.min_[i]? with
    | some mx, some mn => .ok { s with max_value_ := mx, min_value_ := mn }
    | _, _ => .error .badIndex
  else .ok s

/-- Line 265: the hue `(int)(val * 255.0)`, a product of `double`s. -/
def hue (val : Flt) : Int :=
  (Flt.mul binary64 val.toDouble 255).toInt

/-- Lines 274-276, one channel:
`(int)(val * max_channel + ((1.0 - val) * min_channel))`.  The first product is
one of `float`s (the `int` is converted to `float`); the difference, the second
product and the sum are those of `double`. -/
def gradientChannel (val : Flt) (max_channel min_channel : Int) : Int :=
  (Flt.add binary64
    (Flt.mul binary32 val (Flt.ofInt binary32 max_channel)).toDouble
    (Flt.mul binary64 (Flt.sub binary64 1 val.toDouble)
      (Flt.ofInt binary64 min_channel))).toInt

/-- Lines 262-278: the colour of a scaled value, by hue or by interpolation
between the two button colours. -/
def shade (s : Plugin) (val : Flt) : QColor :=
  if s.use_rainbow then
    QColor.hsl (hue val) 255 127 255
  else
    QColor.rgb
      (gradientChannel val s.max_color.red s.min_color.red)
      (gradientChannel val s.max_color.green s.min_color.green)
      (gradientChannel val s.max_color.blue s.min_color.blue)
      255

/-- Line 221: the local `color_transformer`, the current index of the combo box
as an `unsigned int`. -/
def colorTransformer (s : Plugin) : Nat :=
  toUnsigned s.color_transformer.currentIndex

/-- Line 222: the local `transformer_index`, `color_transformer - 1` in
`unsigned int` arithmetic. -/
def transformerIndex (s : Plugin) : Nat :=
  (colorTransformer s + 4294967295) % 4294967296

/-- The member function `CalculateColor`: the colour of `point`, and the plugin
with the extrema and the range it may have updated. -/
def CalculateColor (env : Env) (s : Plugin) (point : StampedPoint) :
    Except Fault (Plugin × QColor) :=
  let color_transformer := colorTransformer s
  let transformer_index := transformerIndex s
  if s.num_of_feats_ > 0 ∧ color_transformer > 0 then
    match point.features[transformer_index]? with
    | none => .error .badIndex
    | some val =>
      match (if s.need_minmax_ then trackExtrema s transformer_index val else .ok s) with
      | .error e => .error e
      | .ok s1 =>
        if s1.unpack_rgb then
          .ok (s1, QColor.rgb (env.floatByte val 2) (env.floatByte val 1)
            (env.floatByte val 0) 255)
        else
          match adoptExtrema s1 transformer_index with
          | .error e => .error e
          | .ok s2 => .ok (s2, shade s1 (scaleValue s1 val))
  else
    .ok (s, s.min_color.color)

/-! ## `UpdateColors` (lines 294-309) -/

/-- The inner loop of `UpdateColors`: every point of one scan gets the colour
`CalculateColor` gives it, in order. -/
def colorPoints (env : Env) (s : Plugin) :
    List StampedPoint → Except Fault (Plugin × List StampedPoint)
  | [] => .ok (s, [])
  | p :: ps =>
    match CalculateColor env s p with
    | .error e => .error e
    | .ok (s1, c) =>
      match colorPoints env s1 ps with
      | .error e => .error e
      | .ok (s2, ps1) => .ok (s2, { p with color := c } :: ps1)

/-- The outer loop of `UpdateColors`, over the scans of the buffer. -/
def colorScans (env : Env) (s : Plugin) :
    List Scan → Except Fault (Plugin × List Scan)
  | [] => .ok (s, [])
  | sc :: scs =>
    match colorPoints env s sc.points with
    | .error e => .error e
    | .ok (s1, pts) =>
      match colorScans env s1 scs with
      | .error e => .error e
      | .ok (s2, scs1) => .ok (s2, { sc with points := pts } :: scs1)

/-- The slot `UpdateColors`. -/
def UpdateColors (env : Env) (s : Plugin) : Except Fault Plugin :=
  match colorScans env s s.scans_ with
  | .error e => .error e
  | .ok (s1, scs) => .ok { s1 with scans_ := scs }

/-- The slot `ColorTransformerChanged` (lines 783-788); `UpdateMinMaxWidgets`
only shows and hides widgets. -/
def ColorTransformerChanged (env : Env) (s : Plugin) : Except Fault Plugin :=
  UpdateColors env s

/-! ## The combo box -/

/-- The call `removeItem(index)`: nothing when `index` is out of range;
otherwise the entry goes, and the current index follows its entry (it moves
down by one behind the removed entry, and moves to a neighbour when its own
entry is removed).  The flag tells whether `currentIndexChanged` is emitted. -/
def QComboBox.removeItem (c : QComboBox) (index : Int) : QComboBox × Bool :=
  if index < 0 ∨ (c.items.length : Int) ≤ index then (c, false)
  else
    let items := c.items.eraseIdx index.toNat
    if index < c.currentIndex then
      ({ items := items, currentIndex := c.currentIndex - 1 }, true)
    else if c.currentIndex = index then
      ({ items := items,
         currentIndex := if items.length = 0 then -1
           else min ((items.length : Int) - 1) index }, true)
    else ({ items := items, currentIndex := c.currentIndex }, false)

/-- The call `addItem(text, userData)`: the entry is appended; an empty box
without current entry makes it the current one. -/
def QComboBox.addItem (c : QComboBox) (text : String) : QComboBox × Bool :=
  if c.items.length = 0 ∧ c.currentIndex < 0 then
    ({ items := [text], currentIndex := 0 }, true)
  else ({ items := c.items ++ [text], currentIndex := c.currentIndex }, false)

/-- The call `setCurrentIndex(index)`: an index without entry leaves the box
without current entry. -/
def QComboBox.setCurrentIndex (c : QComboBox) (index : Int) : QComboBox × Bool :=
  let i : Int := if 0 ≤ index ∧ index < (c.items.length : Int) then index else -1
  ({ items := c.items, currentIndex := i }, decide (i ≠ c.currentIndex))

/-- The plugin after a call on the combo box: the box is replaced, and the slot
connected to `currentIndexChanged` runs when the signal is emitted. -/
def comboCall (env : Env) (s : Plugin) (r : QComboBox × Bool) : Except Fault Plugin :=
  if r.2 then ColorTransformerChanged env { s with color_transformer := r.1 }
  else .ok { s with color_transformer := r.1 }

/-! ## Reading the byte buffer -/

/-- The value of a little-endian byte sequence. -/
def leNat : List Nat → Nat
  | [] => 0
  | b :: bs => b % 256 + 256 * leNat bs

/-- The two's complement value of the `w`-bit pattern `n`. -/
def toSigned (w n : Nat) : Int :=
  if n < 2 ^ (w - 1) then (n : Int) else (n : Int) - 2 ^ w

/-- The `w` bytes at position `pos` of the buffer; a fault when they are not
all inside it. -/
def readBytes (data : List Nat) (pos w : Nat) : Except Fault (List Nat) :=
  if pos + w ≤ data.length then .ok ((data.drop pos).take w) else .error .readPastEnd

/-- The read `*reinterpret_cast<const float*>(data + pos)`. -/
def readFloat (data : List Nat) (pos : Nat) : Except Fault Flt :=
  match readBytes data pos 4 with
  | .error e => .error e
  | .ok bs => .ok (ieeeValue 23 8 127 (leNat bs))

/-- The member function `PointFeature` (lines 543-567), `ptr` being the
position in the buffer that `data` points to.  The value read is converted to
the return type `float`. -/
def PointFeature (data : List Nat) (ptr : Nat) (feature_info : FieldInfo) :
    Except Fault Flt :=
  let at_ (w : Nat) (f : Nat → Flt) : Except Fault Flt :=
    match readBytes data (ptr + feature_info.offset) w with
    | .error e => .error e
    | .ok bs => .ok (f (leNat bs))
  match feature_info.datatype with
  | 1 => at_ 1 (fun n => Flt.ofInt binary32 (toSigned 8 n))
  | 2 => at_ 1 (fun n => Flt.ofInt binary32 n)
  | 3 => at_ 2 (fun n => Flt.ofInt binary32 (toSigned 16 n))
  | 4 => at_ 2 (fun n => Flt.ofInt binary32 n)
  | 5 => at_ 4 (fun n => Flt.ofInt binary32 (toSigned 32 n))
  | 6 => at_ 4 (fun n => Flt.ofInt binary32 n)
  | 7 => at_ 4 (ieeeValue 23 8 127)
  | 8 => at_ 8 (fun n => Flt.toFloat (ieeeValue 52 11 1023 n))
  | _ => .ok 0

/-- Lines 521-526: the features of the point at `ptr`, one per entry of
`field_infos`, in that order (`features` is resized to their number and every
slot is assigned). -/
def readFeatures (data : List Nat) (ptr : Nat) :
    List FieldInfo → Except Fault (List Flt)
  | [] => .ok []
  | fi :: fis =>
    match PointFeature data ptr fi with
    | .error e => .error e
    | .ok v =>
      match readFeatures data ptr fis with
      | .error e => .error e
      | .ok vs => .ok (v :: vs)

/-! ## `PointCloud2Callback` (lines 390-541) -/

/-- The function `findChannelIndex` (lines 281-292), as its loop from index
`i` on. -/
def findChannelFrom (channel : String) : List PointField → Int → Int
  | [], _ => -1
  | f :: fs, i => if f.name = channel then i else findChannelFrom channel fs (i + 1)

/-- The function `findChannelIndex`: the index of the first field called
`channel`, or `-1`. -/
def findChannelIndex (cloud : PointCloud2) (channel : String) : Int :=
  findChannelFrom channel cloud.fields 0

/-- The expression `msg->fields[i].offset` for an index that
`findChannelIndex` returned. -/
def fieldOffset (cloud : PointCloud2) (i : Int) : Nat :=
  match cloud.fields[i.toNat]? with
  | some f => f.offset
  | none => 0

/-- The loop of lines 413-416: scans leave at the front while the buffer
holds `buffer_size` of them or more. -/
def popFront (buffer_size : Nat) : List Scan → List Scan
  | [] => []
  | sc :: rest =>
    if buffer_size ≤ (sc :: rest).length then popFront buffer_size rest else sc :: rest

/-- The loop of lines 374-377: scans leave at the front while the buffer
holds more than `buffer_size` of them. -/
def popFrontAbove (buffer_size : Nat) : List Scan → List Scan
  | [] => []
  | sc :: rest =>
    if buffer_size < (sc :: rest).length then popFrontAbove buffer_size rest
    else sc :: rest

/-- Lines 403-418: the local `scan`, which takes over the front scan of a full
buffer, and the buffer after the eviction. -/
def recycle (s : Plugin) : Scan × List Scan :=
  if s.buffer_size_ > 0 then
    (match s.scans_ with
      | sc :: _ => if s.buffer_size_ ≤ s.scans_.length then sc else Scan.fresh
      | [] => Scan.fresh,
     popFront s.buffer_size_ s.scans_)
  else (Scan.fresh, s.scans_)

/-- The call `insert` of a `std::map<std::string, FieldInfo>`: the entry goes to
its place in key order; a key that is present keeps its old value. -/
def mapInsert (k : String) (v : FieldInfo) :
    List (String × FieldInfo) → List (String × FieldInfo)
  | [] => [(k, v)]
  | (k1, v1) :: rest =>
    if k < k1 then (k, v) :: (k1, v1) :: rest
    else if k = k1 then (k1, v1) :: rest
    else (k1, v1) :: mapInsert k v rest

/-- Lines 443-453: every field of the message is inserted into
`scan.new_features`. -/
def insertFields (fields : List PointField) (m : List (String × FieldInfo)) :
    List (String × FieldInfo) :=
  fields.foldl (fun acc f => mapInsert f.name ⟨f.datatype, f.offset⟩ acc) m

/-- The loop of lines 466-470, once per entry of `scan.new_features`. -/
def removeItems (env : Env) : Nat → Plugin → Except Fault Plugin
  | 0, s => .ok s
  | n + 1, s =>
    match comboCall env s (s.color_transformer.removeItem (s.num_of_feats_ : Int)) with
    | .error e => .error e
    | .ok s1 => removeItems env n { s1 with num_of_feats_ := s1.num_of_feats_ - 1 }

/-- The loop of lines 472-488 over the entries of `scan.new_features`; the
integers are the locals `label` and `new_feature_index`. -/
def addItems (env : Env) :
    List (String × FieldInfo) → Int → Int → Plugin → Except Fault (Plugin × Int)
  | [], _, new_feature_index, s => .ok (s, new_feature_index)
  | (field, _) :: rest, label, new_feature_index, s =>
    let hit := decide (field = s.saved_color_transformer_)
    let s0 := if hit then { s with saved_color_transformer_ := "" } else s
    match comboCall env s0 (s0.color_transformer.addItem field) with
    | .error e => .error e
    | .ok s1 =>
      addItems env rest (label + 1) (if hit then label else new_feature_index)
        { s1 with num_of_feats_ := s1.num_of_feats_ + 1 }

/-- Lines 461-491: the entries of the combo box are rebuilt. -/
def rebuildList (env : Env) (s : Plugin) (new_features : List (String × FieldInfo)) :
    Except Fault Plugin :=
  let new_feature_index := s.color_transformer.currentIndex
  match removeItems env new_features.length s with
  | .error e => .error e
  | .ok s1 =>
    match addItems env new_features 1 new_feature_index s1 with
    | .error e => .error e
    | .ok (s2, index) =>
      match comboCall env s2 (s2.color_transformer.setCurrentIndex index) with
      | .error e => .error e
      | .ok s3 => .ok { s3 with need_new_list_ := false }

/-- Lines 441-492: the block that runs when `new_topic_` is set. -/
def newTopic (env : Env) (s : Plugin) (scan : Scan) (msg : PointCloud2) :
    Except Fault (Plugin × Scan) :=
  if s.new_topic_ then
    let scan1 := { scan with new_features := insertFields msg.fields scan.new_features }
    let n := scan1.new_features.length
    let s1 := { s with new_topic_ := false, num_of_feats_ := n,
                       max_ := resize s.max_ n 0, min_ := resize s.min_ n 0 }
    if s1.need_new_list_ then
      match rebuildList env s1 scan1.new_features with
      | .error e => .error e
      | .ok s2 => .ok (s2, scan1)
    else .ok (s1, scan1)
  else .ok (s, scan)

/-- The loop of lines 512-532 over the points from position `ptr` of the
buffer on; `transform` is the transform of the scan when it has one.  The
`float`s `x`, `y`, `z` become the `double`s of the `tf::Point`. -/
def extractPoints (env : Env) (data : List Nat) (point_step xoff yoff zoff : Nat)
    (field_infos : List FieldInfo) (transform : Option (TfPoint → TfPoint)) :
    Plugin → Nat → List StampedPoint → Except Fault (Plugin × List StampedPoint)
  | s, _, [] => .ok (s, [])
  | s, ptr, p :: ps =>
    match readFloat data (ptr + xoff) with
    | .error e => .error e
    | .ok x =>
    match readFloat data (ptr + yoff) with
    | .error e => .error e
    | .ok y =>
    match readFloat data (ptr + zoff) with
    | .error e => .error e
    | .ok z =>
    match readFeatures data ptr field_infos with
    | .error e => .error e
    | .ok feats =>
      let point : TfPoint := ⟨x.toDouble, y.toDouble, z.toDouble⟩
      let p1 : StampedPoint :=
        { point := point, features := feats, color := p.color,
          transformed_point := match transform with
            | some t => t point
            | none => p.transformed_point }
      match CalculateColor env s p1 with
      | .error e => .error e
      | .ok (s1, c) =>
        match extractPoints env data point_step xoff yoff zoff field_infos transform
            s1 (ptr + point_step) ps with
        | .error e => .error e
        | .ok (s2, ps1) => .ok (s2, { p1 with color := c } :: ps1)

/-- Lines 494-533: the points of the message are decoded into `scan.points`
and coloured. -/
def extract (env : Env) (s : Plugin) (scan : Scan) (msg : PointCloud2)
    (xi yi zi : Int) (transform : Option (TfPoint → TfPoint)) :
    Except Fault (Plugin × Scan) :=
  if msg.data.length ≠ 0 then
    if msg.point_step = 0 then .error .divByZero
    else
      let num_points := msg.data.length / msg.point_step
      let field_infos := scan.new_features.map Prod.snd
      match extractPoints env msg.data msg.point_step (fieldOffset msg xi)
          (fieldOffset msg yi) (fieldOffset msg zi) field_infos
          (if scan.transformed then transform else none)
          s 0 (resize scan.points num_points StampedPoint.fresh) with
      | .error e => .error e
      | .ok (s1, pts) => .ok (s1, { scan with points := pts })
  else .ok (s, scan)

/-- Lines 392-396: the first message is noted. -/
def noteMessage (s : Plugin) : Plugin :=
  if s.has_message_ then s
  else { s with initialized_ := true, has_message_ := true }

/-- Lines 420-430: the header of the message and the outcome of the transform
lookup are stored in the local `scan`. -/
def stampScan (scan : Scan) (msg : PointCloud2)
    (transform : Option (TfPoint → TfPoint)) : Scan :=
  { scan with
    stamp := msg.stamp, color := QColor.rgb 255 0 0 255,
    source_frame := msg.frame_id, transformed := transform.isSome }

/-- The subscriber callback `PointCloud2Callback`. -/
def PointCloud2Callback (env : Env) (s : Plugin) (msg : PointCloud2) :
    Except Fault Plugin :=
  let s0 := noteMessage s
  let transform := env.GetTransform msg.frame_id msg.stamp
  let scan := stampScan (recycle s0).1 msg transform
  let s1 := { s0 with scans_ := (recycle s0).2 }
  let xi := findChannelIndex msg "x"
  let yi := findChannelIndex msg "y"
  let zi := findChannelIndex msg "z"
  if xi = -1 ∨ yi = -1 ∨ zi = -1 then .ok s1
  else
    match newTopic env s1 scan msg with
    | .error e => .error e
    | .ok (s2, scan2) =>
      match extract env s2 scan2 msg xi yi zi transform with
      | .error e => .error e
      | .ok (s3, scan3) =>
        .ok { s3 with scans_ := s3.scans_ ++ [scan3], new_topic_ := true }

/-- The deliveries of a sequence of messages, one callback after the other:
the plugin at the end, and the scan each delivery left at the back of the
buffer, in delivery order. -/
def deliver (env : Env) : Plugin → List PointCloud2 → Except Fault (Plugin × List Scan)
  | s, [] => .ok (s, [])
  | s, msg :: msgs =>
    match PointCloud2Callback env s msg with
    | .error e => .error e
    | .ok s1 =>
      match deliver env s1 msgs with
      | .error e => .error e
      | .ok (s2, pushed) => .ok (s2, s1.scans_.getLast?.toList ++ pushed)

/-! ## Further slots -/

/-- The slot `ResetTransformedPointClouds` (lines 209-216). -/
def ResetTransformedPointClouds (s : Plugin) : Plugin :=
  { s with scans_ := s.scans_.map (fun sc => { sc with transformed := false }) }

/-- The slot `BufferSizeChanged` (lines 367-381), `value` being the new value
of the spin box as a `size_t`. -/
def BufferSizeChanged (s : Plugin) (value : Nat) : Plugin :=
  let s1 := { s with buffer_size_ := value }
  if s1.buffer_size_ > 0 then
    { s1 with scans_ := popFrontAbove s1.buffer_size_ s1.scans_ }
  else s1

/-- The loop of lines 661-683 of `Transform`: every scan that is not
transformed gets its transform looked up and, when there is one, applied to
all its points.  Here `env.GetTransform` is the lookup with
`use_latest_transforms_` off, as line 660 sets it for the loop. -/
def transformScans (env : Env) (scans : List Scan) : List Scan :=
  scans.map (fun scan =>
    if scan.transformed then scan
    else
      match env.GetTransform scan.source_frame scan.stamp with
      | some transform =>
        { scan with
          transformed := true,
          points := scan.points.map
            (fun p => { p with transformed_point := transform p.point }) }
      | none => { scan with transformed := false })

/-- The member function `Transform` (lines 653-692).  `COLOR_Z` is the constant
of the plugin header that selects the recolouring after the pass. -/
def Transform (env : Env) (COLOR_Z : Int) (s : Plugin) : Except Fault Plugin :=
  let s1 := { s with scans_ := transformScans env s.scans_ }
  if s1.color_transformer.currentIndex = COLOR_Z then UpdateColors env s1 else .ok s1

/-- The slot `TopicEdited` (lines 324-353), `topic` being the trimmed text of
the topic field. -/
def TopicEdited (s : Plugin) (topic : String) : Plugin :=
  if topic ≠ s.topic_ then
    let s1 := { s with initialized_ := false, scans_ := [], has_message_ := false,
                       topic_ := topic }
    if topic ≠ "" then
      { s1 with new_topic_ := true, need_new_list_ := true, max_ := [], min_ := [] }
    else s1
  else s

/-! ## Notions used by the statements -/

/-- The header a scan keeps of its message: time stamp and source frame. -/
def Scan.header (sc : Scan) : Nat × String :=
  (sc.stamp, sc.source_frame)

/-- The header of a message. -/
def PointCloud2.header (msg : PointCloud2) : Nat × String :=
  (msg.stamp, msg.frame_id)

/-- The message carries the three geometry fields `x`, `y` and `z`. -/
def PointCloud2.hasGeometry (msg : PointCloud2) : Prop :=
  findChannelIndex msg "x" ≠ -1 ∧ findChannelIndex msg "y" ≠ -1 ∧
    findChannelIndex msg "z" ≠ -1

instance (msg : PointCloud2) : Decidable msg.hasGeometry := by
  unfold PointCloud2.hasGeometry
  infer_instance

/-- The plugin `s1` differs from `s` at most in the running extrema and in the
value range. -/
def Plugin.sameButRange (s s1 : Plugin) : Prop :=
  s1 = { s with max_ := s1.max_, min_ := s1.min_,
                min_value_ := s1.min_value_, max_value_ := s1.max_value_ }

/-- The plugin `s1` has the buffer size and the `new_topic_` flag of `s`, and
its buffer holds scans with the same headers in the same order. -/
def Plugin.kept (s s1 : Plugin) : Prop :=
  s1.buffer_size_ = s.buffer_size_ ∧ s1.new_topic_ = s.new_topic_ ∧
    s1.scans_.map Scan.header = s.scans_.map Scan.header

/-- The plugin colours by feature `k` with auto-range on: a feature is
selected, `need_minmax_` and the auto-range box are set, RGB unpacking is off. -/
def Plugin.autoRanging (s : Plugin) (k : Nat) : Prop :=
  0 < s.num_of_feats_ ∧ 0 < colorTransformer s ∧ transformerIndex s = k ∧
    s.need_minmax_ = true ∧ s.use_automaxmin = true ∧ s.unpack_rgb = false

instance (s : Plugin) (k : Nat) : Decidable (s.autoRanging k) := by
  unfold Plugin.autoRanging
  infer_instance

/-- The raw values of feature `k` of a sequence of samples. -/
def rawValues (k : Nat) (pts : List StampedPoint) : List Flt :=
  pts.filterMap (fun p => p.features[k]?)

/-- The colours do not feed on the running extrema: auto-range is off, or RGB
unpacking is on, or the mode is Flat (no feature is selected). -/
def Plugin.fixedRange (s : Plugin) : Prop :=
  s.use_automaxmin = false ∨ s.unpack_rgb = true ∨
    ¬ (0 < s.num_of_feats_ ∧ 0 < colorTransformer s)

instance (s : Plugin) : Decidable s.fixedRange := by
  unfold Plugin.fixedRange
  infer_instance

/-- The plugin `t` agrees with `s` on every member that `CalculateColor` reads,
except for the values (not the number) of the running extrema. -/
def Plugin.sameColoring (s t : Plugin) : Prop :=
  t.num_of_feats_ = s.num_of_feats_ ∧ t.color_transformer = s.color_transformer ∧
  t.need_minmax_ = s.need_minmax_ ∧ t.unpack_rgb = s.unpack_rgb ∧
  t.use_automaxmin = s.use_automaxmin ∧ t.use_rainbow = s.use_rainbow ∧
  t.min_color = s.min_color ∧ t.max_color = s.max_color ∧
  t.min_value_ = s.min_value_ ∧ t.max_value_ = s.max_value_ ∧
  t.max_.length = s.max_.length ∧ t.min_.length = s.min_.length

/-- The number of bytes that `PointFeature` reads for a feature. -/
def FieldInfo.width (fi : FieldInfo) : Nat :=
  match fi.datatype with
  | 1 => 1
  | 2 => 1
  | 3 => 2
  | 4 => 2
  | 5 => 4
  | 6 => 4
  | 7 => 4
  | 8 => 8
  | _ => 0

/-- The bytes the callback reads of point `i` for the field `f`: the bytes of
its datatype, and four bytes when it is one of `x`, `y`, `z`, lie inside the
byte buffer. -/
def PointCloud2.fieldInBounds (msg : PointCloud2) (i : Nat) (f : PointField) : Prop :=
  i * msg.point_step + f.offset + FieldInfo.width ⟨f.datatype, f.offset⟩ ≤ msg.data.length ∧
  (f.name = "x" ∨ f.name = "y" ∨ f.name = "z" →
    i * msg.point_step + f.offset + 4 ≤ msg.data.length)

instance (msg : PointCloud2) (i : Nat) (f : PointField) :
    Decidable (msg.fieldInBounds i f) := by
  unfold PointCloud2.fieldInBounds
  infer_instance

/-- The message is well formed: its byte buffer is empty, or its `point_step`
is not zero and every field of every point lies inside the byte buffer. -/
def PointCloud2.inBounds (msg : PointCloud2) : Prop :=
  msg.data = [] ∨
    (msg.point_step ≠ 0 ∧
      ∀ i, i < msg.data.length / msg.point_step → ∀ f ∈ msg.fields, msg.fieldInBounds i f)

instance (msg : PointCloud2) : Decidable msg.inBounds := by
  unfold PointCloud2.inBounds
  infer_instance

/-- The plugin colours Flat over the schema `fields`: the colour selector is on
index `0`, `new_topic_` is set, the saved colour transformer names none of the
fields, and every buffered scan has the feature map of `fields`. -/
def Plugin.flatOver (s : Plugin) (fields : List PointField) : Prop :=
  s.color_transformer.currentIndex = 0 ∧ s.new_topic_ = true ∧
  (∀ f ∈ fields, f.name ≠ s.saved_color_transformer_) ∧
  ∀ m ∈ s.scans_.map Scan.new_features, m = insertFields fields []

/-- The running extrema `b = (max_, min_)` widen the running extrema `a`: both
vectors keep their lengths, every tracked maximum is the one before or greater,
and every tracked minimum is the one before or smaller. -/
def extremaWiden (a b : List Flt × List Flt) : Prop :=
  b.1.length = a.1.length ∧ b.2.length = a.2.length ∧
  ∀ k : Nat,
    (∀ x, a.1[k]? = some x → ∃ y, b.1[k]? = some y ∧ (y = x ∨ x < y)) ∧
    (∀ x, a.2[k]? = some x → ∃ y, b.2[k]? = some y ∧ (y = x ∨ y < x))

/-- The running extrema of a plugin. -/
def Plugin.extrema (s : Plugin) : List Flt × List Flt :=
  (s.max_, s.min_)

/-- A sequence of calls of `CalculateColor`, each under a configuration of its
own: call `i` is made for the sample of entry `i` on the plugin of entry `i`,
with the running extrema that the call before it left (the given ones for the
first call).  The result lists the running extrema after each call. -/
def colorCalls (env : Env) :
    List Flt × List Flt → List (Plugin × StampedPoint) →
      Except Fault (List (List Flt × List Flt))
  | _, [] => .ok []
  | e, (cfg, p) :: rest =>
    match CalculateColor env { cfg with max_ := e.1, min_ := e.2 } p with
    | .error err => .error err
    | .ok (s1, _) =>
      match colorCalls env s1.extrema rest with
      | .error err => .error err
      | .ok tr => .ok (s1.extrema :: tr)

/-- The sample `p1` is the sample `p` up to its colour. -/
def StampedPoint.recolored (p p1 : StampedPoint) : Prop :=
  p1 = { p with color := p1.color }

/-- The scan `sc1` is the scan `sc` up to the colours of its samples. -/
def Scan.recolored (sc sc1 : Scan) : Prop :=
  sc1 = { sc with points := sc1.points } ∧
    List.Forall₂ StampedPoint.recolored sc.points sc1.points

/-- What a pass of `Transform` is to make of a scan `sc`, in the words of the
specification, `sc1` being the scan in its place after the pass and `same` the
comparison of samples: a scan that was transformed keeps its samples; a scan
that was not and whose lookup succeeds is transformed, and every sample has
the transform of its geometry as transformed geometry; a scan that was not and
whose lookup fails stays untransformed with its samples.  The header and the
feature map of the scan stay in every case. -/
def transformOutcome (env : Env) (same : StampedPoint → StampedPoint → Prop)
    (sc sc1 : Scan) : Prop :=
  sc1.stamp = sc.stamp ∧ sc1.source_frame = sc.source_frame ∧ sc1.color = sc.color ∧
  sc1.new_features = sc.new_features ∧
  (sc.transformed = true →
    sc1.transformed = true ∧ List.Forall₂ same sc.points sc1.points) ∧
  (sc.transformed = false → ∀ tf, env.GetTransform sc.source_frame sc.stamp = some tf →
    sc1.transformed = true ∧
    List.Forall₂ (fun p p1 => same { p with transformed_point := tf p.point } p1)
      sc.points sc1.points) ∧
  (sc.transformed = false → env.GetTransform sc.source_frame sc.stamp = none →
    sc1.transformed = false ∧ List.Forall₂ same sc.points sc1.points)

/-- The components of a button colour lie between `0` and `255`, as those of a
`QColor` do. -/
def RgbColor.inRange (c : RgbColor) : Prop :=
  (0 ≤ c.red ∧ c.red ≤ 255) ∧ (0 ≤ c.green ∧ c.green ≤ 255) ∧ (0 ≤ c.blue ∧ c.blue ≤ 255)

instance (c : RgbColor) : Decidable c.inRange := by
  unfold RgbColor.inRange
  infer_instance

/-- What lines 274-276 make of one channel at the scaled value `t`: `c` is the
truncation of the sum `t * max_channel + (1 - t) * min_channel` as the
arithmetic rounds it (the first product to `float`, the difference, the second
product and the sum to `double`); it lies between `0` and `255`; it is the
truncation of the exact sum or differs from it by one; and it is the channel of
the minimum colour at `t = 0` and that of the maximum colour at `t = 1`. -/
def gradientValue (t : ℚ) (max_channel min_channel c : Int) : Prop :=
  c = truncInt (binary64.nearest (binary32.nearest (t * max_channel) +
        binary64.nearest (binary64.nearest (1 - t) * min_channel))) ∧
  (0 ≤ c ∧ c ≤ 255) ∧
  |c - truncInt (t * max_channel + (1 - t) * min_channel)| ≤ 1 ∧
  (t = 0 → c = min_channel) ∧ (t = 1 → c = max_channel)

/-- From the plugin `s` to the plugin `s1` the running extrema widen, and the
buffered scans keep their feature maps. -/
def Plugin.tracks (s s1 : Plugin) : Prop :=
  extremaWiden s.extrema s1.extrema ∧
    s1.scans_.map Scan.new_features = s.scans_.map Scan.new_features

/-- The callback for `msg` keeps the number of tracked features: when the block
of lines 441-492 runs, the scan it fills has as many feature names as `max_` and
`min_` have entries, so that the `resize` of lines 458-459 changes nothing. -/
def Plugin.keepsCount (s : Plugin) (msg : PointCloud2) : Prop :=
  s.new_topic_ = true → msg.hasGeometry →
    s.max_.length = (insertFields msg.fields (recycle s).1.new_features).length ∧
    s.min_.length = (insertFields msg.fields (recycle s).1.new_features).length

/-- The plugin is inside the schema generation of `fields`: every buffered scan
has the feature map of `fields`, and `max_` and `min_` have one entry per
feature name. -/
def Plugin.inGeneration (s : Plugin) (fields : List PointField) : Prop :=
  (∀ m ∈ s.scans_.map Scan.new_features, m = insertFields fields []) ∧
  s.max_.length = (insertFields fields []).length ∧
  s.min_.length = (insertFields fields []).length

instance (s : Plugin) (fields : List PointField) : Decidable (s.inGeneration fields) := by
  unfold Plugin.inGeneration
  infer_instance

deriving instance DecidableEq for Except

/-! ## Example messages -/

/-- A cloud with the fields `x`, `y`, `z` and one point `(1, 2, 3)`. -/
def PointCloud2.single (stamp : Nat) : PointCloud2 :=
  { stamp := stamp, frame_id := "lidar",
    fields := [⟨"x", 0, 7⟩, ⟨"y", 4, 7⟩, ⟨"z", 8, 7⟩],
    point_step := 12,
    data := [0, 0, 128, 63, 0, 0, 0, 64, 0, 0, 64, 64] }

/-- The cloud of the scenario of the specification: `point_step = 16`, the
fields `x@0`, `y@4`, `z@8`, `intensity@12`, all `float`, and two points
`(1, 2, 3)` with intensity `10.0` and `30.0`. -/
def PointCloud2.intensity (stamp : Nat) : PointCloud2 :=
  { stamp := stamp, frame_id := "lidar",
    fields := [⟨"x", 0, 7⟩, ⟨"y", 4, 7⟩, ⟨"z", 8, 7⟩, ⟨"intensity", 12, 7⟩],
    point_step := 16,
    data := [0, 0, 128, 63, 0, 0, 0, 64, 0, 0, 64, 64, 0, 0, 32, 65,
             0, 0, 128, 63, 0, 0, 0, 64, 0, 0, 64, 64, 0, 0, 240, 65] }

/-- A cloud with the fields `x`, `y`, `z`, then `ring` (a `uint16`), then
`intensity`, and one point `(1, 2, 3)` with ring `5` and intensity `10.0`. -/
def PointCloud2.ringIntensity (stamp : Nat) : PointCloud2 :=
  { stamp := stamp, frame_id := "lidar",
    fields := [⟨"x", 0, 7⟩, ⟨"y", 4, 7⟩, ⟨"z", 8, 7⟩, ⟨"ring", 12, 4⟩,
               ⟨"intensity", 16, 7⟩],
    point_step := 20,
    data := [0, 0, 128, 63, 0, 0, 0, 64, 0, 0, 64, 64, 5, 0, 0, 0, 0, 0, 32, 65] }

/-- A cloud with the fields `x`, `y`, `z` and an empty byte buffer. -/
def PointCloud2.noPoints (stamp : Nat) : PointCloud2 :=
  { stamp := stamp, frame_id := "lidar",
    fields := [⟨"x", 0, 7⟩, ⟨"y", 4, 7⟩, ⟨"z", 8, 7⟩],
    point_step := 12, data := [] }

/-- A cloud without the field `z`. -/
def PointCloud2.noZ (stamp : Nat) : PointCloud2 :=
  { stamp := stamp, frame_id := "lidar",
    fields := [⟨"x", 0, 7⟩, ⟨"y", 4, 7⟩],
    point_step := 8, data := [0, 0, 128, 63, 0, 0, 0, 64] }

/-- A cloud whose buffer of four bytes is too short for its fields `y@4` and
`z@8`. -/
def PointCloud2.tooShort (stamp : Nat) : PointCloud2 :=
  { stamp := stamp, frame_id := "lidar",
    fields := [⟨"x", 0, 7⟩, ⟨"y", 4, 7⟩, ⟨"z", 8, 7⟩],
    point_step := 4, data := [0, 0, 128, 63] }

/-- A cloud with `point_step = 0` and a buffer of twelve bytes. -/
def PointCloud2.zeroStep (stamp : Nat) : PointCloud2 :=
  { stamp := stamp, frame_id := "lidar",
    fields := [⟨"x", 0, 7⟩, ⟨"y", 4, 7⟩, ⟨"z", 8, 7⟩],
    point_step := 0,
    data := [0, 0, 128, 63, 0, 0, 0, 64, 0, 0, 64, 64] }

/-- The number of points of every scan of the buffer, with the stamp of the
scan, in buffer order. -/
def Plugin.pointCounts (s : Plugin) : List (Nat × Nat) :=
  s.scans_.map (fun sc => (sc.stamp, sc.points.length))

/-- The features of every point of every scan of the buffer. -/
def Plugin.features (s : Plugin) : List (List (List Flt)) :=
  s.scans_.map (fun sc => sc.points.map (fun p => p.features))

/-- The colours of every point of every scan of the buffer. -/
def Plugin.colors (s : Plugin) : List (List QColor) :=
  s.scans_.map (fun sc => sc.points.map (fun p => p.color))

/-! ## Example plugins and samples -/

/-- An environment for the examples: every transform lookup succeeds with the
identity, and every byte of a `float` reads `0`. -/
def Env.sample : Env :=
  { GetTransform := fun _ _ => some id, floatByte := fun _ _ => 0 }

/-- A sample whose features are the given values. -/
def StampedPoint.withFeatures (features : List Flt) : StampedPoint :=
  { StampedPoint.fresh with features := features }

/-- A plugin that colours by the first feature of four, with auto-range off,
a value range from `0` to `40`, and the gradient of the constructor. -/
def Plugin.byFirstFeature : Plugin :=
  { Plugin.constructed with
    max_value_ := 40, num_of_feats_ := 4, max_ := [0, 0, 0, 0], min_ := [0, 0, 0, 0],
    need_new_list_ := false,
    color_transformer :=
      { items := ["Flat Color", "intensity", "x", "y", "z"], currentIndex := 1 } }

/-- The plugin `Plugin.byFirstFeature` with both button colours white. -/
def Plugin.whiteGradient : Plugin :=
  { Plugin.byFirstFeature with max_color := ⟨255, 255, 255, 255⟩ }

/-- The plugin `Plugin.byFirstFeature` with auto-range on. -/
def Plugin.autoByFirstFeature : Plugin :=
  { Plugin.byFirstFeature with need_minmax_ := true, use_automaxmin := true }

/-- The plugin after construction, a topic edit, the loading of the saved
colour transformer `intensity`, and the checking of the auto-range box. -/
def Plugin.autoStart : Plugin :=
  { TopicEdited Plugin.constructed "cloud" with
    saved_color_transformer_ := "intensity", need_minmax_ := true,
    use_automaxmin := true }

/-- The plugin after construction and the loading of the saved colour
transformer `intensity`. -/
def Plugin.loaded : Plugin :=
  { Plugin.constructed with saved_color_transformer_ := "intensity" }

/-- The plugin `Plugin.loaded` after the delivery of the cloud of the
scenario: it colours by intensity, with auto-range off and the value range
`[0, 100]` of the constructor, and buffers one scan of two samples. -/
def Plugin.afterIntensity : Plugin :=
  match PointCloud2Callback Env.sample Plugin.loaded (PointCloud2.intensity 1) with
  | .ok s => s
  | .error _ => Plugin.loaded

/-- The plugin `Plugin.afterIntensity` once the auto-range box is checked. -/
def Plugin.afterIntensityAuto : Plugin :=
  { Plugin.afterIntensity with need_minmax_ := true, use_automaxmin := true }

/-- A scan without points that carries the given stamp. -/
def Scan.stamped (stamp : Nat) : Scan :=
  { Scan.fresh with stamp := stamp, source_frame := "lidar" }

/-- The plugin as constructed, with a buffer size of three and three buffered
scans. -/
def Plugin.threeScans : Plugin :=
  { Plugin.constructed with
    buffer_size_ := 3, scans_ := [Scan.stamped 1, Scan.stamped 2, Scan.stamped 3] }

/-- The plugin `Plugin.afterIntensity` once the auto-range box is checked and
the entry `index` of the colour selector is chosen, the recolouring pass of the
slot included. -/
def Plugin.selectedAuto (index : Int) : Plugin :=
  match UpdateColors Env.sample
    { Plugin.afterIntensity with
      need_minmax_ := true, use_automaxmin := true,
      color_transformer :=
        { Plugin.afterIntensity.color_transformer with currentIndex := index } } with
  | .ok s => s
  | .error _ => Plugin.afterIntensity

/-- An environment without any transform. -/
def Env.noTransform : Env :=
  { GetTransform := fun _ _ => none, floatByte := fun _ _ => 0 }

/-- The plugin that received the cloud of the scenario while no transform was
available. -/
def Plugin.untransformed : Plugin :=
  match PointCloud2Callback Env.noTransform Plugin.loaded (PointCloud2.intensity 1) with
  | .ok s => s
  | .error _ => Plugin.loaded

/-- The plugin after construction, the choice of a first topic, the delivery of
a cloud with the fields `x`, `y`, `z`, `ring`, `intensity` on it, and the
choice of a second topic. -/
def Plugin.secondTopic : Plugin :=
  match PointCloud2Callback Env.sample (TopicEdited Plugin.constructed "first")
      (PointCloud2.ringIntensity 1) with
  | .ok s => TopicEdited s "second"
  | .error _ => Plugin.constructed

/-- The plugin `Plugin.secondTopic` when the entry `y` of the first topic (at
position `4`) had been chosen in the colour selector. -/
def Plugin.secondTopicByY : Plugin :=
  { Plugin.secondTopic with
    color_transformer := { Plugin.secondTopic.color_transformer with currentIndex := 4 } }

/-- A cloud with the fields `x`, `y`, `z`, `intensity` and one point
`(1, 2, 1)` with intensity `10.0`. -/
def PointCloud2.lowZ (stamp : Nat) : PointCloud2 :=
  { stamp := stamp, frame_id := "lidar",
    fields := [⟨"x", 0, 7⟩, ⟨"y", 4, 7⟩, ⟨"z", 8, 7⟩, ⟨"intensity", 12, 7⟩],
    point_step := 16,
    data := [0, 0, 128, 63, 0, 0, 0, 64, 0, 0, 128, 63, 0, 0, 32, 65] }

/-- The plugin after construction, a topic edit, the choice of a buffer of three
scans, the loading of the saved colour transformer `z`, and a setting of the
auto-range box that makes the plugin track the extrema. -/
def Plugin.trackingZ : Plugin :=
  { TopicEdited Plugin.constructed "cloud" with
    buffer_size_ := 3, saved_color_transformer_ := "z", need_minmax_ := true }

/-- The plugin `Plugin.trackingZ` after the delivery of the cloud of the
scenario: it tracks the extrema of the feature `z`. -/
def Plugin.trackedOnce : Plugin :=
  match PointCloud2Callback Env.sample Plugin.trackingZ (PointCloud2.intensity 1) with
  | .ok s => s
  | .error _ => Plugin.trackingZ

/-- The plugin `Plugin.afterIntensity` with its value range set to `[0, 40]`
while its buffered samples still carry the colours of the range `[0, 100]`. -/
def Plugin.staleColors : Plugin :=
  { Plugin.afterIntensity with max_value_ := 40 }

/-! # Theorems -/

/-! ## The order of the floating-point values -/

theorem flt_lt_iff (a b : Flt) :
    a < b ↔ a.isNaN = false ∧ b.isNaN = false ∧
      (a.place.1 < b.place.1 ∨ (a.place.1 = b.place.1 ∧ a.place.2 < b.place.2)) := by
  show Flt.lt a b = true ↔ _
  simp [Flt.lt, and_assoc]

theorem flt_le_iff (a b : Flt) :
    a ≤ b ↔ a.isNaN = false ∧ b.isNaN = false ∧
      (a.place.1 < b.place.1 ∨ (a.place.1 = b.place.1 ∧ a.place.2 ≤ b.place.2)) := by
  show Flt.le a b = true ↔ _
  simp [Flt.le, and_assoc]

theorem flt_lt_trans {a b c : Flt} (h1 : a < b) (h2 : b < c) : a < c := by
  rw [flt_lt_iff] at *
  obtain ⟨na, _, h1⟩ := h1
  obtain ⟨_, nc, h2⟩ := h2
  refine ⟨na, nc, ?_⟩
  rcases h1 with h1 | ⟨h1, h1'⟩ <;> rcases h2 with h2 | ⟨h2, h2'⟩
  · exact Or.inl (by omega)
  · exact Or.inl (by omega)
  · exact Or.inl (by omega)
  · exact Or.inr ⟨by omega, lt_trans h1' h2'⟩

theorem flt_le_trans {a b c : Flt} (h1 : a ≤ b) (h2 : b ≤ c) : a ≤ c := by
  rw [flt_le_iff] at *
  obtain ⟨na, _, h1⟩ := h1
  obtain ⟨_, nc, h2⟩ := h2
  refine ⟨na, nc, ?_⟩
  rcases h1 with h1 | ⟨h1, h1'⟩ <;> rcases h2 with h2 | ⟨h2, h2'⟩
  · exact Or.inl (by omega)
  · exact Or.inl (by omega)
  · exact Or.inl (by omega)
  · exact Or.inr ⟨by omega, le_trans h1' h2'⟩

theorem flt_le_refl {a : Flt} (h : a.isNaN = false) : a ≤ a := by
  rw [flt_le_iff]
  exact ⟨h, h, Or.inr ⟨rfl, le_refl _⟩⟩

theorem flt_le_of_lt {a b : Flt} (h : a < b) : a ≤ b := by
  rw [flt_lt_iff] at h
  rw [flt_le_iff]
  obtain ⟨na, nb, h⟩ := h
  refine ⟨na, nb, ?_⟩
  rcases h with h | ⟨h, h'⟩
  · exact Or.inl h
  · exact Or.inr ⟨h, le_of_lt h'⟩

theorem flt_le_of_not_lt {a b : Flt} (ha : a.isNaN = false) (hb : b.isNaN = false)
    (h : ¬ a < b) : b ≤ a := by
  rw [flt_lt_iff] at h
  rw [flt_le_iff]
  refine ⟨hb, ha, ?_⟩
  by_contra hc
  apply h
  refine ⟨ha, hb, ?_⟩
  rcases lt_trichotomy a.place.1 b.place.1 with h1 | h1 | h1
  · exact Or.inl h1
  · right
    refine ⟨h1, ?_⟩
    by_contra h2
    exact hc (Or.inr ⟨h1.symm, not_lt.mp h2⟩)
  · exact absurd (Or.inl h1) hc

theorem flt_not_nan_of_lt {a b : Flt} (h : a < b) : a.isNaN = false ∧ b.isNaN = false := by
  rw [flt_lt_iff] at h
  exact ⟨h.1, h.2.1⟩

/-- Line 254: whatever `val` is (a NaN and the infinities included),
`std::max(0.0f, std::min(val, 1.0f))` is a finite value between `0` and `1`. -/
theorem clamp_fin (v : Flt) :
    ∃ q : ℚ, Flt.stdMax 0 (Flt.stdMin v 1) = Flt.fin q ∧ 0 ≤ q ∧ q ≤ 1 := by
  unfold Flt.stdMax Flt.stdMin
  by_cases h1 : (1 : Flt) < v
  · simp only [h1, if_true]
    refine ⟨1, ?_, by norm_num, by norm_num⟩
    have : (0 : Flt) < 1 := by decide!
    simp only [this, if_true]
    rfl
  · simp only [h1, if_false]
    by_cases h0 : (0 : Flt) < v
    · simp only [h0, if_true]
      cases v with
      | fin q =>
        refine ⟨q, rfl, ?_, ?_⟩
        · rw [flt_lt_iff] at h0
          have h := h0.2.2
          simp only [Flt.place, OfNat.ofNat] at h
          rcases h with h | ⟨_, h⟩
          · exact absurd h (by decide)
          · simp at h
            exact le_of_lt h
        · have h := @flt_le_of_not_lt 1 (Flt.fin q) rfl rfl h1
          rw [flt_le_iff] at h
          have h := h.2.2
          simp only [Flt.place, OfNat.ofNat] at h
          rcases h with h | ⟨_, h⟩
          · exact absurd h (by decide)
          · simp at h
            exact h
      | negZero => exact absurd h0 (by decide!)
      | inf n =>
        cases n
        · exact absurd (by decide! : (1 : Flt) < Flt.inf false) h1
        · exact absurd h0 (by decide!)
      | nan n p =>
        rw [flt_lt_iff] at h0
        simp [Flt.isNaN] at h0
    · simp only [h0, if_false]
      exact ⟨0, rfl, by norm_num, by norm_num⟩
/-! ## Rounding -/

theorem pow2_eq (k : Int) : pow2 k = (2 : ℚ) ^ k := by
  unfold pow2
  by_cases h : 0 ≤ k
  · simp only [h, if_true]
    obtain ⟨n, rfl⟩ := Int.eq_ofNat_of_zero_le h
    simp
  · simp only [h, if_false]
    obtain ⟨n, hn⟩ := Int.exists_eq_neg_ofNat (le_of_lt (not_le.mp h))
    subst hn
    simp

theorem pow2_pos (k : Int) : 0 < pow2 k := by
  rw [pow2_eq]
  positivity

theorem pow2_mono {a b : Int} (h : a ≤ b) : pow2 a ≤ pow2 b := by
  rw [pow2_eq, pow2_eq]
  exact zpow_le_zpow_right₀ (by norm_num) h

theorem pow2_sub (a b : Int) : pow2 (a - b) = pow2 a / pow2 b := by
  rw [pow2_eq, pow2_eq, pow2_eq, zpow_sub₀ (by norm_num)]

theorem log2Fuel_spec :
    ∀ (fuel n : Nat), n ≤ fuel → n ≠ 0 →
      2 ^ log2Fuel fuel n ≤ n ∧ n < 2 ^ (log2Fuel fuel n + 1)
  | 0, n, h, h0 => absurd (Nat.le_zero.mp h) h0
  | fuel + 1, n, h, h0 => by
    unfold log2Fuel
    by_cases h2 : 2 ≤ n
    · simp only [h2, if_true]
      have ih := log2Fuel_spec fuel (n / 2) (by omega) (by omega)
      obtain ⟨i1, i2⟩ := ih
      rw [pow_succ] at i2 ⊢
      rw [pow_succ (2 : Nat) (log2Fuel fuel (n / 2) + 1), pow_succ]
      constructor <;> omega
    · simp only [h2, if_false]
      have : n = 1 := by omega
      subst this
      simp

theorem log2_spec (n : Nat) (h : n ≠ 0) : 2 ^ log2 n ≤ n ∧ n < 2 ^ (log2 n + 1) :=
  log2Fuel_spec n n (Nat.le_refl n) h

/-- The exponent of `q` is not above `q`. -/
theorem pow2_ilog2_le (q : ℚ) (h : q ≠ 0) : pow2 (ilog2 q) ≤ |q| := by
  unfold ilog2
  simp only
  split
  · assumption
  · have hn : q.num.natAbs ≠ 0 := by
      simpa using h
    obtain ⟨n1, _⟩ := log2_spec q.num.natAbs hn
    obtain ⟨_, d2⟩ := log2_spec q.den q.den_nz
    have habs : |q| = (q.num.natAbs : ℚ) / (q.den : ℚ) := by
      conv_lhs => rw [← Rat.num_div_den q]
      rw [abs_div, Nat.abs_cast, ← Int.cast_abs, Int.abs_eq_natAbs]
      rfl
    rw [habs, pow2_eq]
    have e : ((log2 q.num.natAbs : Int) - (log2 q.den : Int) - 1)
        = (log2 q.num.natAbs : Int) - ((log2 q.den + 1 : Nat) : Int) := by
      push_cast
      ring
    rw [e, zpow_sub₀ (by norm_num), zpow_natCast, zpow_natCast]
    have hd : (0 : ℚ) < q.den := by exact_mod_cast q.den_pos
    have n1' : ((2 : ℚ) ^ log2 q.num.natAbs) ≤ (q.num.natAbs : ℚ) := by exact_mod_cast n1
    have d2' : (q.den : ℚ) ≤ (2 : ℚ) ^ (log2 q.den + 1) := by exact_mod_cast le_of_lt d2
    exact div_le_div₀ (by positivity) n1' hd d2'

theorem roundHalfEven_error (x : ℚ) : |(roundHalfEven x : ℚ) - x| ≤ 1 / 2 := by
  unfold roundHalfEven
  have h1 := Int.floor_le x
  have h2 := Int.lt_floor_add_one x
  simp only
  rw [abs_le]
  split
  · constructor <;> linarith
  · split
    · push_cast
      constructor <;> linarith
    · split
      · constructor <;> linarith
      · push_cast
        constructor <;> linarith

theorem roundHalfEven_nonneg (x : ℚ) (h : 0 ≤ x) : 0 ≤ roundHalfEven x := by
  unfold roundHalfEven
  have h1 : 0 ≤ ⌊x⌋ := Int.floor_nonneg.mpr h
  simp only
  split
  · exact h1
  · split
    · omega
    · split <;> omega

/-- The rounding error of a format whose smallest normal binade is not above
`1`: at most `(|q| + 1) / 2 ^ precision`. -/
theorem nearest_error (f : Format) (q : ℚ) (hmin : f.emin ≤ 0) :
    |f.nearest q - q| ≤ (|q| + 1) / 2 ^ f.precision := by
  unfold Format.nearest
  by_cases h0 : q = 0
  · subst h0
    simp
  · simp only [h0, if_false]
    set k : Int := max (ilog2 q) f.emin - ((f.precision : Int) - 1) with hk
    have hp := pow2_pos k
    have he := roundHalfEven_error (q / pow2 k)
    have e1 : (roundHalfEven (q / pow2 k) : ℚ) * pow2 k - q
        = ((roundHalfEven (q / pow2 k) : ℚ) - q / pow2 k) * pow2 k := by
      field_simp
    rw [e1, abs_mul, abs_of_pos hp]
    have hb : pow2 k ≤ (|q| + 1) * 2 / 2 ^ f.precision := by
      have e2 : pow2 k = pow2 (max (ilog2 q) f.emin) * 2 / 2 ^ f.precision := by
        rw [hk, pow2_sub, pow2_eq (↑f.precision - 1), zpow_sub₀ (by norm_num), zpow_natCast]
        field_simp
      rw [e2]
      have e3 : pow2 (max (ilog2 q) f.emin) ≤ |q| + 1 := by
        rcases max_cases (ilog2 q) f.emin with ⟨e, _⟩ | ⟨e, _⟩
        · rw [e]
          have := pow2_ilog2_le q h0
          linarith
        · rw [e]
          have : pow2 f.emin ≤ pow2 0 := pow2_mono hmin
          have e0 : pow2 0 = 1 := by simp [pow2]
          have := abs_nonneg q
          linarith
      have hpos : (0 : ℚ) < 2 ^ f.precision := by positivity
      exact div_le_div_of_nonneg_right (by linarith) (le_of_lt hpos)
    calc |(roundHalfEven (q / pow2 k) : ℚ) - q / pow2 k| * pow2 k
        ≤ 1 / 2 * pow2 k := mul_le_mul_of_nonneg_right he (le_of_lt hp)
      _ ≤ 1 / 2 * ((|q| + 1) * 2 / 2 ^ f.precision) := by
          exact mul_le_mul_of_nonneg_left hb (by norm_num)
      _ = (|q| + 1) / 2 ^ f.precision := by ring

theorem nearest_nonneg (f : Format) (q : ℚ) (h : 0 ≤ q) : 0 ≤ f.nearest q := by
  unfold Format.nearest
  split
  · exact le_refl _
  · simp only
    have hp := pow2_pos (max (ilog2 q) f.emin - ((f.precision : Int) - 1))
    have := roundHalfEven_nonneg (q / pow2 (max (ilog2 q) f.emin - ((f.precision : Int) - 1)))
      (div_nonneg h (le_of_lt hp))
    have h3 : (0 : ℚ) ≤ (roundHalfEven
      (q / pow2 (max (ilog2 q) f.emin - ((f.precision : Int) - 1))) : ℚ) := by exact_mod_cast this
    exact mul_nonneg h3 (le_of_lt hp)

theorem roundHalfEven_int (z : Int) : roundHalfEven (z : ℚ) = z := by
  unfold roundHalfEven
  simp

/-- An integer below `2 ^ precision` in magnitude is a value of the format. -/
theorem nearest_int (f : Format) (i : Int) (hmin : f.emin ≤ 0)
    (h : |i| < 2 ^ f.precision) : f.nearest (i : ℚ) = i := by
  unfold Format.nearest
  by_cases h0 : (i : ℚ) = 0
  · simp [h0]
  · simp only [h0, if_false]
    set k : Int := max (ilog2 (i : ℚ)) f.emin - ((f.precision : Int) - 1) with hk
    have hlog : ilog2 (i : ℚ) < f.precision := by
      have h1 := pow2_ilog2_le (i : ℚ) h0
      have h2 : |(i : ℚ)| < (2 : ℚ) ^ (f.precision : Int) := by
        rw [zpow_natCast, ← Int.cast_abs]
        exact_mod_cast h
      rw [pow2_eq] at h1
      exact (zpow_lt_zpow_iff_right₀ (by norm_num : (1 : ℚ) < 2)).mp (lt_of_le_of_lt h1 h2)
    have hp1 : 1 ≤ f.precision := by
      by_contra hc
      have hp0 : f.precision = 0 := by omega
      rw [hp0] at h
      have hi : i ≠ 0 := by
        intro hi
        exact h0 (by simp [hi])
      have : 0 < |i| := abs_pos.mpr hi
      simp at h
      omega
    have hk0 : k ≤ 0 := by
      have : max (ilog2 (i : ℚ)) f.emin ≤ (f.precision : Int) - 1 :=
        max_le (by omega) (by omega)
      omega
    obtain ⟨n, hn⟩ := Int.exists_eq_neg_ofNat hk0
    have e1 : (i : ℚ) / pow2 k = ((i * 2 ^ n : Int) : ℚ) := by
      rw [hn, pow2_eq, zpow_neg, zpow_natCast]
      push_cast
      field_simp
    rw [e1, roundHalfEven_int, hn, pow2_eq, zpow_neg, zpow_natCast]
    push_cast
    field_simp

theorem isFinite_not_nan {a : Flt} (h : a.isFinite = true) :
    a.isNaN = false ∧ a.isInf = false := by
  cases a <;> simp_all [Flt.isFinite, Flt.isNaN, Flt.isInf]

theorem zero_value (b : Bool) : (Flt.zero b).value = 0 ∧ (Flt.zero b).isFinite = true := by
  cases b <;> exact ⟨rfl, rfl⟩

/-- A rounded result below the largest value of the format is finite, and its
number is the nearest value of the format. -/
theorem round_value (f : Format) (q : ℚ) (h : |f.nearest q| < pow2 (f.emax + 1)) :
    (f.round q).isFinite = true ∧ (f.round q).value = f.nearest q := by
  unfold Format.round
  simp only [not_le.mpr h, if_false]
  split
  · rename_i h0
    rw [h0]
    exact ⟨(zero_value _).2, (zero_value _).1⟩
  · exact ⟨rfl, rfl⟩

theorem add_value (f : Format) (a b : Flt) (ha : a.isFinite = true) (hb : b.isFinite = true)
    (h : |f.nearest (a.value + b.value)| < pow2 (f.emax + 1)) :
    (Flt.add f a b).isFinite = true ∧
      (Flt.add f a b).value = f.nearest (a.value + b.value) := by
  obtain ⟨a1, a2⟩ := isFinite_not_nan ha
  obtain ⟨b1, b2⟩ := isFinite_not_nan hb
  unfold Flt.add
  simp only [a1, b1, a2, b2, Bool.false_eq_true, or_self, and_self, if_false]
  split
  · rename_i h0
    rw [h0]
    exact ⟨(zero_value _).2, by simp [(zero_value _).1, Format.nearest]⟩
  · exact round_value f _ h

theorem mul_value (f : Format) (a b : Flt) (ha : a.isFinite = true) (hb : b.isFinite = true)
    (h : |f.nearest (a.value * b.value)| < pow2 (f.emax + 1)) :
    (Flt.mul f a b).isFinite = true ∧
      (Flt.mul f a b).value = f.nearest (a.value * b.value) := by
  obtain ⟨a1, a2⟩ := isFinite_not_nan ha
  obtain ⟨b1, b2⟩ := isFinite_not_nan hb
  unfold Flt.mul
  simp only [a1, b1, a2, b2, Bool.false_eq_true, or_self, if_false]
  split
  · rename_i h0
    rw [h0]
    exact ⟨(zero_value _).2, by simp [(zero_value _).1, Format.nearest]⟩
  · exact round_value f _ h

theorem neg_value (a : Flt) (ha : a.isFinite = true) :
    a.neg.isFinite = true ∧ a.neg.value = - a.value := by
  cases a with
  | fin q =>
    by_cases h0 : q = 0
    · simp [Flt.neg, h0, Flt.isFinite, Flt.value]
    · simp [Flt.neg, h0, Flt.isFinite, Flt.value]
  | negZero => simp [Flt.neg, Flt.isFinite, Flt.value]
  | inf n => simp [Flt.isFinite] at ha
  | nan n p => simp [Flt.isFinite] at ha

theorem toDouble_finite (a : Flt) (ha : a.isFinite = true) : a.toDouble = a := by
  cases a <;> simp_all [Flt.isFinite, Flt.toDouble]

theorem pow2_large (k : Int) (h : 12 ≤ k) : (4096 : ℚ) ≤ pow2 k := by
  have := pow2_mono h
  have e : pow2 12 = 4096 := by
    rw [pow2_eq]
    norm_num
  linarith

/-- The conversion of an integer below `2 ^ precision` in magnitude is exact. -/
theorem ofInt_value (f : Format) (i : Int) (hmin : f.emin ≤ 0) (hmax : f.precision ≤ f.emax)
    (h : |i| < 2 ^ f.precision) :
    (Flt.ofInt f i).isFinite = true ∧ (Flt.ofInt f i).value = i := by
  unfold Flt.ofInt
  have hn := nearest_int f i hmin h
  have hb : |f.nearest (i : ℚ)| < pow2 (f.emax + 1) := by
    rw [hn, pow2_eq]
    have h2 : |(i : ℚ)| < (2 : ℚ) ^ (f.precision : Int) := by
      rw [zpow_natCast, ← Int.cast_abs]
      exact_mod_cast h
    exact lt_of_lt_of_le h2 (zpow_le_zpow_right₀ (by norm_num) (by omega))
  obtain ⟨r1, r2⟩ := round_value f i hb
  exact ⟨r1, by rw [r2, hn]⟩

/-! ## The arithmetic of the gradient (lines 274-276) -/

theorem truncInt_nonneg (v : ℚ) (h : 0 ≤ v) : truncInt v = ⌊v⌋ := by
  simp [truncInt, h]

/-- One channel of the gradient for a finite `val` between `0` and `1` and
channels of the button colours between `0` and `255`: no operation of lines
274-276 leaves the finite values, and the channel is the truncation of the sum
as `float` and `double` arithmetic rounds it. -/
theorem gradientChannel_eq (t : ℚ) (M m : Int) (ht0 : 0 ≤ t) (ht1 : t ≤ 1)
    (hM0 : 0 ≤ M) (hM1 : M ≤ 255) (hm0 : 0 ≤ m) (hm1 : m ≤ 255) :
    gradientChannel (Flt.fin t) M m
      = truncInt (binary64.nearest (binary32.nearest (t * M) +
          binary64.nearest (binary64.nearest (1 - t) * m))) := by
  have hMq0 : (0 : ℚ) ≤ M := by exact_mod_cast hM0
  have hMq1 : (M : ℚ) ≤ 255 := by exact_mod_cast hM1
  have hmq0 : (0 : ℚ) ≤ m := by exact_mod_cast hm0
  have hmq1 : (m : ℚ) ≤ 255 := by exact_mod_cast hm1
  have p32 : (4096 : ℚ) ≤ pow2 (binary32.emax + 1) := pow2_large _ (by decide)
  have p64 : (4096 : ℚ) ≤ pow2 (binary64.emax + 1) := pow2_large _ (by decide)
  have e24 : ((2 : ℚ) ^ binary32.precision) = 16777216 := by norm_num [binary32]
  have e53 : ((2 : ℚ) ^ binary64.precision) = 9007199254740992 := by norm_num [binary64]
  -- the integer operands
  obtain ⟨fM, vM⟩ := ofInt_value binary32 M (by decide) (by decide)
    (by rw [abs_of_nonneg hM0]; norm_num [binary32]; omega)
  obtain ⟨fm, vm⟩ := ofInt_value binary64 m (by decide) (by decide)
    (by rw [abs_of_nonneg hm0]; norm_num [binary64]; omega)
  -- the first product
  have htM0 : 0 ≤ t * M := mul_nonneg ht0 hMq0
  have htM1 : t * M ≤ 255 := by nlinarith
  have eA := nearest_error binary32 (t * M) (by decide)
  rw [abs_of_nonneg htM0, e24, abs_le] at eA
  have nA := nearest_nonneg binary32 (t * M) htM0
  obtain ⟨fA, vA⟩ := mul_value binary32 (Flt.fin t) (Flt.ofInt binary32 M) rfl fM
    (by rw [vM]; show |binary32.nearest (t * M)| < _; rw [abs_of_nonneg nA]; linarith)
  rw [vM] at vA
  change (Flt.mul binary32 (Flt.fin t) (Flt.ofInt binary32 M)).value
    = binary32.nearest (t * M) at vA
  -- the difference
  have h1t0 : 0 ≤ 1 - t := by linarith
  have eB1 := nearest_error binary64 (1 - t) (by decide)
  rw [abs_of_nonneg h1t0, e53, abs_le] at eB1
  have nB1 := nearest_nonneg binary64 (1 - t) h1t0
  obtain ⟨fN, vN⟩ := neg_value (Flt.fin t) rfl
  have hsub : (Flt.fin 1).value + (Flt.fin t).neg.value = 1 - t := by
    rw [vN]
    show (1 : ℚ) + - t = 1 - t
    ring
  obtain ⟨fB1, vB1⟩ := add_value binary64 (Flt.fin 1) (Flt.fin t).neg rfl fN
    (by rw [hsub, abs_of_nonneg nB1]; linarith)
  rw [hsub] at vB1
  -- the second product
  have hb1m0 : 0 ≤ binary64.nearest (1 - t) * m := mul_nonneg nB1 hmq0
  have hb1m1 : binary64.nearest (1 - t) * m ≤ 256 := by nlinarith
  have eB := nearest_error binary64 (binary64.nearest (1 - t) * m) (by decide)
  rw [abs_of_nonneg hb1m0, e53, abs_le] at eB
  have nB := nearest_nonneg binary64 _ hb1m0
  obtain ⟨fB, vB⟩ := mul_value binary64 _ (Flt.ofInt binary64 m) fB1 fm
    (by rw [vB1, vm, abs_of_nonneg nB]; linarith)
  rw [vB1, vm] at vB
  -- the sum
  have hs0 : 0 ≤ binary32.nearest (t * M) + binary64.nearest (binary64.nearest (1 - t) * m) :=
    add_nonneg nA nB
  have eS := nearest_error binary64
    (binary32.nearest (t * M) + binary64.nearest (binary64.nearest (1 - t) * m)) (by decide)
  rw [abs_of_nonneg hs0, e53, abs_le] at eS
  have nS := nearest_nonneg binary64 _ hs0
  have hA2 := toDouble_finite _ fA
  obtain ⟨_, vS⟩ := add_value binary64
    (Flt.mul binary32 (Flt.fin t) (Flt.ofInt binary32 M))
    (Flt.mul binary64 (Flt.add binary64 (Flt.fin 1) (Flt.fin t).neg) (Flt.ofInt binary64 m))
    fA fB (by rw [vA, vB, abs_of_nonneg nS]; linarith)
  rw [vA, vB] at vS
  unfold gradientChannel Flt.toInt
  have e1 : Flt.sub binary64 1 (Flt.fin t).toDouble
      = Flt.add binary64 (Flt.fin 1) (Flt.fin t).neg := rfl
  rw [e1, hA2, vS]

/-- The sum of lines 274-276 as the arithmetic rounds it lies within `2 ^ -15`
of the exact `t * max_channel + (1 - t) * min_channel`. -/
theorem gradientSum_error (t : ℚ) (M m : Int) (ht0 : 0 ≤ t) (ht1 : t ≤ 1)
    (hM0 : 0 ≤ M) (hM1 : M ≤ 255) (hm0 : 0 ≤ m) (hm1 : m ≤ 255) :
    0 ≤ binary64.nearest (binary32.nearest (t * M) +
        binary64.nearest (binary64.nearest (1 - t) * m)) ∧
    |binary64.nearest (binary32.nearest (t * M) +
        binary64.nearest (binary64.nearest (1 - t) * m)) - (t * M + (1 - t) * m)|
      ≤ 1 / 32768 ∧
    0 ≤ t * M + (1 - t) * m ∧ t * M + (1 - t) * m ≤ 255 := by
  have hMq0 : (0 : ℚ) ≤ M := by exact_mod_cast hM0
  have hMq1 : (M : ℚ) ≤ 255 := by exact_mod_cast hM1
  have hmq0 : (0 : ℚ) ≤ m := by exact_mod_cast hm0
  have hmq1 : (m : ℚ) ≤ 255 := by exact_mod_cast hm1
  have e24 : ((2 : ℚ) ^ binary32.precision) = 16777216 := by norm_num [binary32]
  have e53 : ((2 : ℚ) ^ binary64.precision) = 9007199254740992 := by norm_num [binary64]
  have htM0 : 0 ≤ t * M := mul_nonneg ht0 hMq0
  have htM1 : t * M ≤ 255 := by nlinarith
  have eA := nearest_error binary32 (t * M) (by decide)
  rw [abs_of_nonneg htM0, e24, abs_le] at eA
  have nA := nearest_nonneg binary32 (t * M) htM0
  have h1t0 : 0 ≤ 1 - t := by linarith
  have eB1 := nearest_error binary64 (1 - t) (by decide)
  rw [abs_of_nonneg h1t0, e53, abs_le] at eB1
  have nB1 := nearest_nonneg binary64 (1 - t) h1t0
  have hb1m0 : 0 ≤ binary64.nearest (1 - t) * m := mul_nonneg nB1 hmq0
  have hb1m1 : binary64.nearest (1 - t) * m ≤ 256 := by nlinarith
  have eB := nearest_error binary64 (binary64.nearest (1 - t) * m) (by decide)
  rw [abs_of_nonneg hb1m0, e53, abs_le] at eB
  have nB := nearest_nonneg binary64 _ hb1m0
  have hs0 : 0 ≤ binary32.nearest (t * M) + binary64.nearest (binary64.nearest (1 - t) * m) :=
    add_nonneg nA nB
  have eS := nearest_error binary64
    (binary32.nearest (t * M) + binary64.nearest (binary64.nearest (1 - t) * m)) (by decide)
  rw [abs_of_nonneg hs0, e53, abs_le] at eS
  have nS := nearest_nonneg binary64 _ hs0
  have h1tm0 : 0 ≤ (1 - t) * m := mul_nonneg h1t0 hmq0
  have hexact : t * M + (1 - t) * m ≤ 255 := by nlinarith
  -- the error of the second product against the exact one
  have hd1 : binary64.nearest (1 - t) * m - (1 - t) * m ≤ 255 * (2 / 9007199254740992) := by
    have : binary64.nearest (1 - t) * m - (1 - t) * m
        = (binary64.nearest (1 - t) - (1 - t)) * m := by ring
    rw [this]
    nlinarith [eB1.2]
  have hd2 : -(255 * (2 / 9007199254740992)) ≤ binary64.nearest (1 - t) * m - (1 - t) * m := by
    have : binary64.nearest (1 - t) * m - (1 - t) * m
        = (binary64.nearest (1 - t) - (1 - t)) * m := by ring
    rw [this]
    nlinarith [eB1.1]
  refine ⟨nS, ?_, add_nonneg htM0 h1tm0, hexact⟩
  rw [abs_le]
  constructor <;> linarith [eA.1, eA.2, eB.1, eB.2, eS.1, eS.2]

/-- One channel of the gradient lies between `0` and `255`, and it is the
truncation of the exact `t * max_channel + (1 - t) * min_channel` or differs
from it by one. -/
theorem gradientChannel_range (t : ℚ) (M m : Int) (ht0 : 0 ≤ t) (ht1 : t ≤ 1)
    (hM0 : 0 ≤ M) (hM1 : M ≤ 255) (hm0 : 0 ≤ m) (hm1 : m ≤ 255) :
    0 ≤ gradientChannel (Flt.fin t) M m ∧ gradientChannel (Flt.fin t) M m ≤ 255 ∧
    |gradientChannel (Flt.fin t) M m - truncInt (t * M + (1 - t) * m)| ≤ 1 := by
  rw [gradientChannel_eq t M m ht0 ht1 hM0 hM1 hm0 hm1]
  obtain ⟨h1, h2, h3, h4⟩ := gradientSum_error t M m ht0 ht1 hM0 hM1 hm0 hm1
  rw [truncInt_nonneg _ h1, truncInt_nonneg _ h3]
  rw [abs_le] at h2
  set s := binary64.nearest (binary32.nearest (t * M) +
    binary64.nearest (binary64.nearest (1 - t) * m))
  set e := t * M + (1 - t) * m
  clear_value s e
  obtain ⟨h2a, h2b⟩ := h2
  have f1 := Int.floor_le s
  have f2 := Int.lt_floor_add_one s
  have f3 := Int.floor_le e
  have f4 := Int.lt_floor_add_one e
  refine ⟨Int.floor_nonneg.mpr h1, ?_, ?_⟩
  · have : (⌊s⌋ : ℚ) < 256 := by linarith
    have : ⌊s⌋ < 256 := by exact_mod_cast this
    omega
  · rw [abs_le]
    constructor
    · have : ((⌊e⌋ : ℚ)) < ⌊s⌋ + 2 := by linarith
      have : ⌊e⌋ < ⌊s⌋ + 2 := by exact_mod_cast this
      omega
    · have : ((⌊s⌋ : ℚ)) < ⌊e⌋ + 2 := by linarith
      have : ⌊s⌋ < ⌊e⌋ + 2 := by exact_mod_cast this
      omega

/-- At `t = 0` a channel of the gradient is that of the minimum colour, and at
`t = 1` that of the maximum colour. -/
theorem gradientChannel_ends (M m : Int)
    (hM0 : 0 ≤ M) (hM1 : M ≤ 255) (hm0 : 0 ≤ m) (hm1 : m ≤ 255) :
    gradientChannel (Flt.fin 0) M m = m ∧ gradientChannel (Flt.fin 1) M m = M := by
  have n1 : binary64.nearest 1 = 1 := by
    have := nearest_int binary64 1 (by decide) (by norm_num [binary64])
    simpa using this
  have nm : binary64.nearest (m : ℚ) = m :=
    nearest_int binary64 m (by decide) (by rw [abs_of_nonneg hm0]; norm_num [binary64]; omega)
  have nM32 : binary32.nearest (M : ℚ) = M :=
    nearest_int binary32 M (by decide) (by rw [abs_of_nonneg hM0]; norm_num [binary32]; omega)
  have nM64 : binary64.nearest (M : ℚ) = M :=
    nearest_int binary64 M (by decide) (by rw [abs_of_nonneg hM0]; norm_num [binary64]; omega)
  have z32 : binary32.nearest 0 = 0 := by simp [Format.nearest]
  have z64 : binary64.nearest 0 = 0 := by simp [Format.nearest]
  constructor
  · rw [gradientChannel_eq 0 M m (le_refl _) (by norm_num) hM0 hM1 hm0 hm1]
    simp only [zero_mul, sub_zero, one_mul, zero_add, z32, n1, nm]
    simp [truncInt]
  · rw [gradientChannel_eq 1 M m (by norm_num) (le_refl _) hM0 hM1 hm0 hm1]
    simp only [one_mul, sub_self, zero_mul, add_zero, z64, nM32, nM64]
    simp [truncInt]

/-- The hue of line 265 for a finite `val` between `0` and `1` lies between `0`
and `255`. -/
theorem hue_range (t : ℚ) (ht0 : 0 ≤ t) (ht1 : t ≤ 1) :
    hue (Flt.fin t) = truncInt (binary64.nearest (t * 255)) ∧
    0 ≤ hue (Flt.fin t) ∧ hue (Flt.fin t) ≤ 255 := by
  have p64 : (4096 : ℚ) ≤ pow2 (binary64.emax + 1) := pow2_large _ (by decide)
  have e53 : ((2 : ℚ) ^ binary64.precision) = 9007199254740992 := by norm_num [binary64]
  have h0 : 0 ≤ t * 255 := by linarith
  have eA := nearest_error binary64 (t * 255) (by decide)
  rw [abs_of_nonneg h0, e53, abs_le] at eA
  have nA := nearest_nonneg binary64 (t * 255) h0
  have hv : (Flt.fin t).value * (255 : Flt).value = t * 255 := by
    show t * ((255 : Nat) : ℚ) = t * 255
    norm_num
  obtain ⟨_, vA⟩ := mul_value binary64 (Flt.fin t) 255 rfl rfl
    (by rw [hv, abs_of_nonneg nA]; linarith)
  rw [hv] at vA
  have e : hue (Flt.fin t) = truncInt (binary64.nearest (t * 255)) := by
    unfold hue Flt.toInt
    rw [toDouble_finite (Flt.fin t) rfl, vA]
  rw [e, truncInt_nonneg _ nA]
  refine ⟨rfl, Int.floor_nonneg.mpr nA, ?_⟩
  have f1 := Int.floor_le (binary64.nearest (t * 255))
  have : ((⌊binary64.nearest (t * 255)⌋ : ℤ) : ℚ) < 256 := by linarith [eA.2]
  have : ⌊binary64.nearest (t * 255)⌋ < 256 := by exact_mod_cast this
  omega

/-! ## The scaled value of finite operands (lines 250-254) -/

/-- The rounding error of a format: at most
`(|q| + 2 ^ emin) / 2 ^ precision`. -/
theorem nearest_error_abs (f : Format) (q : ℚ) :
    |f.nearest q - q| ≤ (|q| + pow2 f.emin) / 2 ^ f.precision := by
  unfold Format.nearest
  by_cases h0 : q = 0
  · subst h0
    simp only [if_true, sub_self, abs_zero, zero_add]
    exact div_nonneg (le_of_lt (pow2_pos _)) (by positivity)
  · simp only [h0, if_false]
    set k : Int := max (ilog2 q) f.emin - ((f.precision : Int) - 1) with hk
    have hp := pow2_pos k
    have he := roundHalfEven_error (q / pow2 k)
    have e1 : (roundHalfEven (q / pow2 k) : ℚ) * pow2 k - q
        = ((roundHalfEven (q / pow2 k) : ℚ) - q / pow2 k) * pow2 k := by
      field_simp
    rw [e1, abs_mul, abs_of_pos hp]
    have hb : pow2 k ≤ (|q| + pow2 f.emin) * 2 / 2 ^ f.precision := by
      have e2 : pow2 k = pow2 (max (ilog2 q) f.emin) * 2 / 2 ^ f.precision := by
        rw [hk, pow2_sub, pow2_eq (↑f.precision - 1), zpow_sub₀ (by norm_num), zpow_natCast]
        field_simp
      rw [e2]
      have e3 : pow2 (max (ilog2 q) f.emin) ≤ |q| + pow2 f.emin := by
        rcases max_cases (ilog2 q) f.emin with ⟨e, _⟩ | ⟨e, _⟩
        · rw [e]
          have := pow2_ilog2_le q h0
          have := pow2_pos f.emin
          linarith
        · rw [e]
          have := abs_nonneg q
          linarith
      have hpos : (0 : ℚ) < 2 ^ f.precision := by positivity
      exact div_le_div_of_nonneg_right (by linarith) (le_of_lt hpos)
    calc |(roundHalfEven (q / pow2 k) : ℚ) - q / pow2 k| * pow2 k
        ≤ 1 / 2 * pow2 k := mul_le_mul_of_nonneg_right he (le_of_lt hp)
      _ ≤ 1 / 2 * ((|q| + pow2 f.emin) * 2 / 2 ^ f.precision) := by
          exact mul_le_mul_of_nonneg_left hb (by norm_num)
      _ = (|q| + pow2 f.emin) / 2 ^ f.precision := by ring

theorem roundHalfEven_nonpos (x : ℚ) (h : x ≤ 0) : roundHalfEven x ≤ 0 := by
  unfold roundHalfEven
  have h1 : ⌊x⌋ ≤ 0 := by
    have := Int.floor_le x
    have : (⌊x⌋ : ℚ) ≤ 0 := by linarith
    exact_mod_cast this
  have h2 := Int.lt_floor_add_one x
  have h3 := Int.floor_le x
  simp only
  split
  · exact h1
  · rename_i hlt
    have hne : ⌊x⌋ ≠ 0 := by
      intro h0
      rw [h0] at hlt h3
      simp at hlt h3
      have : x = 0 := le_antisymm h h3
      rw [this] at hlt
      norm_num at hlt
    split
    · omega
    · split <;> omega

theorem nearest_nonpos (f : Format) (q : ℚ) (h : q ≤ 0) : f.nearest q ≤ 0 := by
  unfold Format.nearest
  split
  · exact le_refl _
  · simp only
    have hp := pow2_pos (max (ilog2 q) f.emin - ((f.precision : Int) - 1))
    have := roundHalfEven_nonpos (q / pow2 (max (ilog2 q) f.emin - ((f.precision : Int) - 1)))
      (div_nonpos_of_nonpos_of_nonneg h (le_of_lt hp))
    have h3 : (roundHalfEven
      (q / pow2 (max (ilog2 q) f.emin - ((f.precision : Int) - 1))) : ℚ) ≤ 0 := by
      exact_mod_cast this
    exact mul_nonpos_of_nonpos_of_nonneg h3 (le_of_lt hp)

/-- Line 254 on a finite value. -/
theorem clamp_fin_eq (r : ℚ) :
    Flt.stdMax 0 (Flt.stdMin (Flt.fin r) 1) = Flt.fin (max 0 (min r 1)) := by
  have l1 : ((1 : Flt) < Flt.fin r) ↔ 1 < r := by
    rw [flt_lt_iff]
    simp [Flt.isNaN, Flt.place, OfNat.ofNat]
  have l0 : ∀ v : ℚ, ((0 : Flt) < Flt.fin v) ↔ 0 < v := by
    intro v
    rw [flt_lt_iff]
    simp [Flt.isNaN, Flt.place, OfNat.ofNat]
  unfold Flt.stdMax Flt.stdMin
  by_cases h1 : 1 < r
  · have h1' : (1 : Flt) < Flt.fin r := l1.mpr h1
    have h01 : (0 : Flt) < 1 := by decide!
    simp only [h1', if_true, h01]
    rw [min_eq_right (le_of_lt h1), max_eq_right (by norm_num)]
    rfl
  · have h1' : ¬ (1 : Flt) < Flt.fin r := fun h => h1 (l1.mp h)
    simp only [h1', if_false]
    rw [min_eq_left (not_lt.mp h1)]
    by_cases h0 : 0 < r
    · simp only [(l0 r).mpr h0, if_true]
      rw [max_eq_right (le_of_lt h0)]
    · have h0' : ¬ (0 : Flt) < Flt.fin r := fun h => h0 ((l0 r).mp h)
      simp only [h0', if_false]
      rw [max_eq_left (not_lt.mp h0)]
      rfl

theorem clamp_zero (b : Bool) : Flt.stdMax 0 (Flt.stdMin (Flt.zero b) 1) = Flt.fin 0 := by
  cases b <;> decide!

theorem clamp_inf (b : Bool) :
    Flt.stdMax 0 (Flt.stdMin (Flt.inf b) 1) = Flt.fin (if b then 0 else 1) := by
  cases b <;> decide!

/-- Line 254 on a number rounded to `float`: the clamp of the nearest `float`,
an overflow to an infinity included. -/
theorem clamp_round32 (y : ℚ) :
    Flt.stdMax 0 (Flt.stdMin (binary32.round y) 1)
      = Flt.fin (max 0 (min (binary32.nearest y) 1)) := by
  have p32 : (4096 : ℚ) ≤ pow2 (binary32.emax + 1) := pow2_large _ (by decide)
  unfold Format.round
  simp only
  split
  · rename_i hov
    rw [clamp_inf]
    by_cases hy : y < 0
    · have hn := nearest_nonpos binary32 y (le_of_lt hy)
      simp only [hy, decide_True, if_true]
      rw [min_eq_left (by linarith), max_eq_left hn]
    · have hn := nearest_nonneg binary32 y (not_lt.mp hy)
      rw [abs_of_nonneg hn] at hov
      simp only [hy, decide_False, Bool.false_eq_true, if_false]
      rw [min_eq_right (by linarith), max_eq_right (by norm_num)]
  · split
    · rename_i h0
      rw [clamp_zero, h0]
      simp
    · exact clamp_fin_eq _

/-- Line 254 on a `double` result converted to `float`. -/
theorem clamp_toFloat_round64 (q : ℚ) :
    Flt.stdMax 0 (Flt.stdMin (Flt.toFloat (binary64.round q)) 1)
      = Flt.fin (max 0 (min (binary32.nearest (binary64.nearest q)) 1)) := by
  have p64 : (4096 : ℚ) ≤ pow2 (binary64.emax + 1) := pow2_large _ (by decide)
  have e24 : ((2 : ℚ) ^ binary32.precision) = 16777216 := by norm_num [binary32]
  have em : pow2 binary32.emin ≤ 1 := by
    have := pow2_mono (show binary32.emin ≤ 0 by decide)
    simpa [pow2] using this
  unfold Format.round
  simp only
  split
  · rename_i hov
    have e : Flt.toFloat (Flt.inf (decide (q < 0))) = Flt.inf (decide (q < 0)) := rfl
    rw [e, clamp_inf]
    by_cases hq : q < 0
    · have hn := nearest_nonpos binary64 q (le_of_lt hq)
      have hn2 := nearest_nonpos binary32 _ hn
      simp only [hq, decide_True, if_true]
      rw [min_eq_left (by linarith), max_eq_left hn2]
    · have hn := nearest_nonneg binary64 q (not_lt.mp hq)
      rw [abs_of_nonneg hn] at hov
      have he := nearest_error_abs binary32 (binary64.nearest q)
      rw [abs_of_nonneg hn, e24, abs_le] at he
      simp only [hq, decide_False, Bool.false_eq_true, if_false]
      rw [min_eq_right (by linarith [he.1]), max_eq_right (by norm_num)]
  · split
    · rename_i h0
      have e : Flt.toFloat (Flt.zero (decide (q < 0))) = Flt.zero (decide (q < 0)) := by
        cases decide (q < 0) <;> decide!
      rw [e, clamp_zero, h0]
      simp [Format.nearest]
    · exact clamp_round32 _

theorem fin_lt_fin (a b : ℚ) : (Flt.fin a < Flt.fin b) ↔ a < b := by
  rw [flt_lt_iff]
  simp [Flt.isNaN, Flt.place]

theorem isZero_of_finite {a : Flt} (ha : a.isFinite = true) (h : a.value ≠ 0) :
    a.isZero = false := by
  cases a with
  | fin q => simpa [Flt.isZero, Flt.value] using h
  | negZero => simp [Flt.value] at h
  | inf n => simp [Flt.isFinite] at ha
  | nan n p => simp [Flt.isFinite] at ha

/-- The quotient of finite values by a value other than zero. -/
theorem div_finite (f : Format) (a b : Flt) (ha : a.isFinite = true) (hb : b.isFinite = true)
    (hb0 : b.value ≠ 0) :
    Flt.div f a b = if a.value = 0 then Flt.zero (a.negative != b.negative)
      else f.round (a.value / b.value) := by
  obtain ⟨a1, a2⟩ := isFinite_not_nan ha
  obtain ⟨b1, b2⟩ := isFinite_not_nan hb
  unfold Flt.div
  simp only [a1, b1, a2, b2, isZero_of_finite hb hb0, Bool.false_eq_true, or_self, if_false]

/-- A difference of finite values whose nearest `double` is below the largest
`double`. -/
theorem sub_value (f : Format) (a b : Flt) (ha : a.isFinite = true) (hb : b.isFinite = true)
    (h : |f.nearest (a.value - b.value)| < pow2 (f.emax + 1)) :
    (Flt.sub f a b).isFinite = true ∧
      (Flt.sub f a b).value = f.nearest (a.value - b.value) := by
  obtain ⟨n1, n2⟩ := neg_value b hb
  have e : a.value + b.neg.value = a.value - b.value := by
    rw [n2]
    ring
  unfold Flt.sub
  have := add_value f a b.neg ha n1 (by rw [e]; exact h)
  rw [e] at this
  exact this

/-- The nearest value of a number that is not below the smallest normal number
is positive. -/
theorem nearest_pos (f : Format) (q : ℚ) (hp : 2 ≤ f.precision) (h : pow2 f.emin ≤ q) :
    0 < f.nearest q := by
  have hq : 0 < q := lt_of_lt_of_le (pow2_pos _) h
  have he := nearest_error_abs f q
  rw [abs_of_pos hq, abs_le] at he
  have h4 : (4 : ℚ) ≤ 2 ^ f.precision := by
    have : (2 : ℚ) ^ 2 ≤ 2 ^ f.precision := pow_le_pow_right₀ (by norm_num) hp
    linarith
  have hpos : (0 : ℚ) < 2 ^ f.precision := by positivity
  have : (q + pow2 f.emin) / 2 ^ f.precision ≤ q / 2 := by
    rw [div_le_div_iff₀ hpos (by norm_num)]
    nlinarith
  linarith [he.1]

/-- The scaled value of finite operands of moderate size, in numbers: with
`min_value = a < b = max_value` and a raw value `r`, the clamp to `[0, 1]` of
the `float` nearest to the `double` nearest to the quotient of the `double`s
nearest to `r - a` and to `b - a`. -/
theorem scaleValue_finite (s : Plugin) (r a b : ℚ)
    (hmin : s.min_value_ = Flt.fin a) (hmax : s.max_value_ = Flt.fin b)
    (h1 : |r - a| ≤ pow2 1000) (h2 : pow2 (-1000) ≤ b - a) (h3 : b - a ≤ pow2 1000) :
    scaleValue s (Flt.fin r)
      = Flt.fin (max 0 (min (binary32.nearest (binary64.nearest
          (binary64.nearest (r - a) / binary64.nearest (b - a)))) 1)) := by
  have hab : a < b := by
    have := pow2_pos (-1000)
    linarith
  have hlt : s.max_value_ > s.min_value_ := by
    rw [hmin, hmax]
    exact (fin_lt_fin a b).mpr hab
  have e53 : ((2 : ℚ) ^ binary64.precision) = 9007199254740992 := by norm_num [binary64]
  have em : pow2 binary64.emin ≤ pow2 (-1000) := pow2_mono (by decide)
  have em1 : pow2 (-1000) ≤ 1 := by
    have h := pow2_mono (show (-1000 : Int) ≤ 0 by decide)
    have e0 : pow2 0 = 1 := by simp [pow2]
    rw [e0] at h
    exact h
  have ebig : 2 * pow2 1000 + 1 < pow2 (binary64.emax + 1) := by
    have e1 : pow2 (binary64.emax + 1) = pow2 1000 * pow2 24 := by
      rw [pow2_eq, pow2_eq, pow2_eq, ← zpow_add₀ (by norm_num)]
      rfl
    have e2 : pow2 24 = 16777216 := by
      rw [pow2_eq]
      norm_num
    have e3 : (4096 : ℚ) ≤ pow2 1000 := pow2_large _ (by decide)
    rw [e1, e2]
    linarith
  -- the two differences
  have b1 : |binary64.nearest (r - a)| < pow2 (binary64.emax + 1) := by
    have he := nearest_error_abs binary64 (r - a)
    rw [e53] at he
    have h0 := abs_nonneg (r - a)
    have : |binary64.nearest (r - a)| ≤ |r - a| + |binary64.nearest (r - a) - (r - a)| := by
      have := abs_add (r - a) (binary64.nearest (r - a) - (r - a))
      simpa using this
    have : (|r - a| + pow2 binary64.emin) / 9007199254740992 ≤ |r - a| + 1 := by
      rw [div_le_iff₀ (by norm_num)]
      nlinarith
    linarith
  have hw0 : 0 < b - a := by linarith
  have b2 : |binary64.nearest (b - a)| < pow2 (binary64.emax + 1) := by
    have he := nearest_error_abs binary64 (b - a)
    rw [e53, abs_of_pos hw0, abs_le] at he
    have hn := nearest_nonneg binary64 (b - a) (le_of_lt hw0)
    rw [abs_of_nonneg hn]
    have : (b - a + pow2 binary64.emin) / 9007199254740992 ≤ b - a + 1 := by
      rw [div_le_iff₀ (by norm_num)]
      nlinarith
    linarith [he.2]
  obtain ⟨f1, v1⟩ := sub_value binary64 (Flt.fin r) (Flt.fin a) rfl rfl b1
  obtain ⟨f2, v2⟩ := sub_value binary64 (Flt.fin b) (Flt.fin a) rfl rfl b2
  have hpos : 0 < binary64.nearest (b - a) :=
    nearest_pos binary64 (b - a) (by decide) (le_trans em h2)
  have hd := div_finite binary64 _ _ f1 f2 (by rw [v2]; exact ne_of_gt hpos)
  unfold scaleValue
  simp only [hlt, if_true]
  rw [hmin, hmax]
  have e0 : (Flt.fin r).toDouble = Flt.fin r := rfl
  rw [e0, hd, v1, v2]
  split
  · rename_i hz
    have ez : ∀ n : Bool, Flt.toFloat (Flt.zero n) = Flt.zero n := by
      intro n
      cases n <;> decide!
    change binary64.nearest (r - a) = 0 at hz
    rw [ez, clamp_zero]
    change Flt.fin 0 = Flt.fin (max 0 (min (binary32.nearest (binary64.nearest
      (binary64.nearest (r - a) / binary64.nearest (b - a)))) 1))
    rw [hz]
    simp [Format.nearest]
  · exact clamp_toFloat_round64 _

theorem clamp_lipschitz (x y : ℚ) :
    |max 0 (min x 1) - max 0 (min y 1)| ≤ |x - y| := by
  rw [abs_le]
  have hxy := abs_le.mp (le_refl |x - y|)
  rcases max_cases 0 (min x 1) with ⟨e1, c1⟩ | ⟨e1, c1⟩ <;>
    rcases max_cases 0 (min y 1) with ⟨e2, c2⟩ | ⟨e2, c2⟩ <;>
    rcases min_cases x 1 with ⟨e3, c3⟩ | ⟨e3, c3⟩ <;>
    rcases min_cases y 1 with ⟨e4, c4⟩ | ⟨e4, c4⟩ <;>
    rw [e1, e2] <;> (try rw [e3]) <;> (try rw [e4]) <;> rw [e3] at c1 <;> rw [e4] at c2 <;>
    constructor <;> linarith [hxy.1, hxy.2, abs_nonneg (x - y)]

/-- The quotient of the rounded differences against the exact quotient. -/
theorem quotient_error (u w : ℚ) (h2 : pow2 (-1000) ≤ w) :
    0 < binary64.nearest w ∧
    |binary64.nearest u / binary64.nearest w - u / w|
      ≤ (6 * |u / w| + 1) / 9007199254740992 := by
  have e53 : ((2 : ℚ) ^ binary64.precision) = 9007199254740992 := by norm_num [binary64]
  have hw : 0 < w := lt_of_lt_of_le (pow2_pos _) h2
  have em : pow2 binary64.emin * 2 ≤ pow2 (-1000) := by
    have e : pow2 (-1000) = pow2 binary64.emin * pow2 22 := by
      rw [pow2_eq, pow2_eq, pow2_eq, ← zpow_add₀ (by norm_num)]
      rfl
    have e2 : pow2 22 = 4194304 := by
      rw [pow2_eq]
      norm_num
    rw [e, e2]
    have := pow2_pos binary64.emin
    linarith
  have he1 := nearest_error_abs binary64 u
  have he2 := nearest_error_abs binary64 w
  rw [e53] at he1 he2
  rw [abs_of_pos hw] at he2
  set D1 := binary64.nearest u
  set D2 := binary64.nearest w
  set ε := pow2 binary64.emin
  have hε : 0 < ε := pow2_pos _
  have hD2 : w / 2 ≤ D2 := by
    have := (abs_le.mp he2).1
    have : (w + ε) / 9007199254740992 ≤ w / 2 := by
      rw [div_le_div_iff₀ (by norm_num) (by norm_num)]
      nlinarith
    linarith
  have hD2pos : 0 < D2 := by linarith
  refine ⟨hD2pos, ?_⟩
  have hu0 := abs_nonneg u
  -- the numerator
  have hnum : |D1 * w - u * D2| ≤ (3 * |u| + ε) * w / 9007199254740992 := by
    have e : D1 * w - u * D2 = (D1 - u) * w - u * (D2 - w) := by ring
    rw [e]
    have t1 : |(D1 - u) * w| ≤ (|u| + ε) / 9007199254740992 * w := by
      rw [abs_mul, abs_of_pos hw]
      exact mul_le_mul_of_nonneg_right he1 (le_of_lt hw)
    have t2 : |u * (D2 - w)| ≤ |u| * ((w + ε) / 9007199254740992) := by
      rw [abs_mul]
      exact mul_le_mul_of_nonneg_left he2 hu0
    have t3 : |u| * ((w + ε) / 9007199254740992) ≤ |u| * (2 * w / 9007199254740992) := by
      apply mul_le_mul_of_nonneg_left _ hu0
      rw [div_le_div_iff₀ (by norm_num) (by norm_num)]
      nlinarith
    have := abs_sub ((D1 - u) * w) (u * (D2 - w))
    have e2 : (|u| + ε) / 9007199254740992 * w + |u| * (2 * w / 9007199254740992)
        = (3 * |u| + ε) * w / 9007199254740992 := by ring
    linarith
  have hq : D1 / D2 - u / w = (D1 * w - u * D2) / (D2 * w) := by
    field_simp
    ring
  rw [hq, abs_div, abs_of_pos (mul_pos hD2pos hw), abs_div, abs_of_pos hw]
  rw [div_le_div_iff₀ (mul_pos hD2pos hw) (by norm_num)]
  -- |num| * P ≤ (6 |u| / w + 1) * (D2 * w)
  have hb : (3 * |u| + ε) * w ≤ (6 * (|u| / w) + 1) * (D2 * w) := by
    have e : (6 * (|u| / w) + 1) * (D2 * w) = (6 * |u| + w) * D2 := by
      field_simp
      ring
    rw [e]
    have : (6 * |u| + w) * (w / 2) ≤ (6 * |u| + w) * D2 :=
      mul_le_mul_of_nonneg_left hD2 (by linarith)
    nlinarith
  have hnum2 : |D1 * w - u * D2| * 9007199254740992 ≤ (3 * |u| + ε) * w := by
    have := hnum
    rw [le_div_iff₀ (by norm_num)] at this
    exact this
  linarith

/-- The scaled value of finite operands of moderate size lies within `2 ^ -22`
of `clamp((raw - min_value) / (max_value - min_value), 0, 1)`. -/
theorem scaleValue_near (s : Plugin) (r a b : ℚ)
    (hmin : s.min_value_ = Flt.fin a) (hmax : s.max_value_ = Flt.fin b)
    (h1 : |r - a| ≤ pow2 1000) (h2 : pow2 (-1000) ≤ b - a) (h3 : b - a ≤ pow2 1000) :
    ∃ t : ℚ, scaleValue s (Flt.fin r) = Flt.fin t ∧
      |t - max 0 (min ((r - a) / (b - a)) 1)| ≤ 1 / 4194304 := by
  refine ⟨_, scaleValue_finite s r a b hmin hmax h1 h2 h3, ?_⟩
  have e53 : ((2 : ℚ) ^ binary64.precision) = 9007199254740992 := by norm_num [binary64]
  have e24 : ((2 : ℚ) ^ binary32.precision) = 16777216 := by norm_num [binary32]
  have em64 : pow2 binary64.emin ≤ 1 := by
    have h := pow2_mono (show binary64.emin ≤ 0 by decide)
    have e0 : pow2 0 = 1 := by simp [pow2]
    rw [e0] at h
    exact h
  have em32 : pow2 binary32.emin ≤ 1 := by
    have h := pow2_mono (show binary32.emin ≤ 0 by decide)
    have e0 : pow2 0 = 1 := by simp [pow2]
    rw [e0] at h
    exact h
  obtain ⟨_, hq⟩ := quotient_error (r - a) (b - a) h2
  set x := (r - a) / (b - a)
  set q := binary64.nearest (r - a) / binary64.nearest (b - a)
  have hQ := nearest_error_abs binary64 q
  rw [e53] at hQ
  set Q := binary64.nearest q
  have hT := nearest_error_abs binary32 Q
  rw [e24] at hT
  set T := binary32.nearest Q
  have hx0 := abs_nonneg x
  have hq0 := abs_nonneg q
  have hQ0 := abs_nonneg Q
  have hqx := abs_le.mp hq
  have hQq := abs_le.mp hQ
  have hTQ := abs_le.mp hT
  rcases le_or_lt |x| 2 with hx | hx
  · -- the quotient is of moderate size: the roundings are small
    have hxx := abs_le.mp hx
    have q1 : |q| ≤ 2 + 1 / 1000 := by
      rw [abs_le]
      constructor <;> linarith [hqx.1, hqx.2]
    have qQ : |Q| ≤ 2 + 2 / 1000 := by
      rw [abs_le]
      have := abs_le.mp q1
      constructor <;> linarith [hQq.1, hQq.2]
    have hTx : |T - x| ≤ 1 / 4194304 := by
      rw [abs_le]
      constructor <;> linarith [hqx.1, hqx.2, hQq.1, hQq.2, hTQ.1, hTQ.2]
    exact le_trans (clamp_lipschitz T x) hTx
  · rcases le_or_lt 0 x with hpos | hneg
    · -- far above the range: both clamps are `1`
      rw [abs_of_nonneg hpos] at hx hqx
      have q1 : 1 ≤ q - 1 / 2 := by linarith [hqx.1]
      have hq' : |q| = q := abs_of_nonneg (by linarith)
      rw [hq'] at hQq
      have Q1 : 1 ≤ Q - 1 / 4 := by linarith [hQq.1]
      have hQ' : |Q| = Q := abs_of_nonneg (by linarith)
      rw [hQ'] at hTQ
      have T1 : 1 ≤ T := by linarith [hTQ.1]
      rw [min_eq_right T1, min_eq_right (by linarith : (1 : ℚ) ≤ x)]
      simp
    · -- far below the range: both clamps are `0`
      rw [abs_of_neg hneg] at hx hqx
      have q1 : q ≤ 0 := by linarith [hqx.2]
      have Q1 : Q ≤ 0 := nearest_nonpos binary64 q q1
      have T1 : T ≤ 0 := nearest_nonpos binary32 Q Q1
      rw [min_eq_left (by linarith : T ≤ 1), min_eq_left (by linarith : x ≤ 1),
        max_eq_left T1, max_eq_left (by linarith : x ≤ 0)]
      simp

theorem clamp_nan (n : Bool) (p : Nat) :
    Flt.stdMax 0 (Flt.stdMin (Flt.nan n p) 1) = 0 := by
  have h1 : ¬ (1 : Flt) < Flt.nan n p := by
    rw [flt_lt_iff]
    simp [Flt.isNaN]
  have h0 : ¬ (0 : Flt) < Flt.nan n p := by
    rw [flt_lt_iff]
    simp [Flt.isNaN]
  simp [Flt.stdMax, Flt.stdMin, h1, h0]

/-- A raw value that is a NaN is scaled to `0`, whatever the range. -/
theorem scaleValue_nan (s : Plugin) (raw : Flt) (h : raw.isNaN = true) :
    scaleValue s raw = 0 := by
  cases raw with
  | fin q => simp [Flt.isNaN] at h
  | negZero => simp [Flt.isNaN] at h
  | inf n => simp [Flt.isNaN] at h
  | nan n p =>
    unfold scaleValue
    simp only
    split
    · have e : Flt.toFloat (Flt.div binary64
          (Flt.sub binary64 (Flt.nan n p).toDouble s.min_value_)
          (Flt.sub binary64 s.max_value_ s.min_value_))
          = Flt.nan true (2 ^ 22) := by
        have e1 : Flt.sub binary64 (Flt.nan n p).toDouble s.min_value_
            = binary64.defaultNaN := by
          simp [Flt.sub, Flt.add, Flt.toDouble, Flt.isNaN]
        rw [e1]
        have e2 : ∀ d : Flt, Flt.div binary64 binary64.defaultNaN d = binary64.defaultNaN := by
          intro d
          simp [Flt.div, Format.defaultNaN, Flt.isNaN]
        rw [e2]
        decide!
      rw [e]
      exact clamp_nan _ _
    · exact clamp_nan _ _

/-! ## `CalculateColor` -/

theorem set_getElem?_self {α : Type} (l : List α) (i : Nat) (a : α)
    (h : l[i]? = some a) : l.set i a = l := by
  induction l generalizing i with
  | nil => rfl
  | cons b l ih =>
    cases i with
    | zero => simp at h; simp [h]
    | succ i => simp at h; simp [ih i h]

/-- The closed form of `trackExtrema` when feature `i` has running extrema. -/
theorem trackExtrema_eq (s : Plugin) (i : Nat) (val mx mn : Flt)
    (hmx : s.max_[i]? = some mx) (hmn : s.min_[i]? = some mn) :
    trackExtrema s i val
      = .ok { s with max_ := s.max_.set i (Flt.stdMax mx val),
                     min_ := s.min_.set i (Flt.stdMin mn val) } := by
  unfold trackExtrema Flt.stdMax Flt.stdMin
  rw [hmx]
  by_cases h1 : mx < val
  · by_cases h2 : val < mn
    · simp [h1, h2, hmn]
    · simp [h1, h2, hmn, set_getElem?_self _ _ _ hmn]
  · by_cases h2 : val < mn
    · simp [h1, h2, hmn, set_getElem?_self _ _ _ hmx]
    · simp [h1, h2, hmn, set_getElem?_self _ _ _ hmx, set_getElem?_self _ _ _ hmn]

/-- `CalculateColor` in a feature-based mode with RGB unpacking off, when the
running extrema cover the selected feature wherever they are tracked or
adopted: the call succeeds, and the colour is the shade of the scaled value of
the sample under the range the call starts with. -/
theorem CalculateColor_shade (env : Env) (s : Plugin) (point : StampedPoint) (raw : Flt)
    (hfeats : 0 < s.num_of_feats_) (hmode : 0 < colorTransformer s)
    (hraw : point.features[transformerIndex s]? = some raw)
    (hext : s.need_minmax_ = true ∨ s.use_automaxmin = true →
      transformerIndex s < s.max_.length ∧ transformerIndex s < s.min_.length)
    (hunpack : s.unpack_rgb = false) :
    ∃ s1, CalculateColor env s point = .ok (s1, shade s (scaleValue s raw)) := by
  by_cases hm : s.need_minmax_ = true
  · obtain ⟨hmax, hmin⟩ := hext (Or.inl hm)
    obtain ⟨mx, hmx⟩ : ∃ mx, s.max_[transformerIndex s]? = some mx :=
      ⟨_, List.getElem?_eq_getElem hmax⟩
    obtain ⟨mn, hmn⟩ : ∃ mn, s.min_[transformerIndex s]? = some mn :=
      ⟨_, List.getElem?_eq_getElem hmin⟩
    by_cases ha : s.use_automaxmin = true
    · simp [CalculateColor, hfeats, hmode, hraw, hm, trackExtrema_eq s _ raw mx mn hmx hmn,
        hunpack, adoptExtrema, ha, hmax, hmin, shade, scaleValue]
    · simp [CalculateColor, hfeats, hmode, hraw, hm, trackExtrema_eq s _ raw mx mn hmx hmn,
        hunpack, adoptExtrema, ha, shade, scaleValue]
  · by_cases ha : s.use_automaxmin = true
    · obtain ⟨hmax, hmin⟩ := hext (Or.inr ha)
      obtain ⟨mx, hmx⟩ : ∃ mx, s.max_[transformerIndex s]? = some mx :=
        ⟨_, List.getElem?_eq_getElem hmax⟩
      obtain ⟨mn, hmn⟩ : ∃ mn, s.min_[transformerIndex s]? = some mn :=
        ⟨_, List.getElem?_eq_getElem hmin⟩
      simp [CalculateColor, hfeats, hmode, hraw, hm, hunpack, adoptExtrema, ha, hmx, hmn,
        shade, scaleValue]
    · simp [CalculateColor, hfeats, hmode, hraw, hm, hunpack, adoptExtrema, ha,
        shade, scaleValue]

/-! ## What the colouring leaves alone -/

theorem sameButRange_refl (s : Plugin) : s.sameButRange s := rfl

theorem sameButRange_trans {a b c : Plugin}
    (h1 : a.sameButRange b) (h2 : b.sameButRange c) : a.sameButRange c := by
  unfold Plugin.sameButRange at *
  rw [h1] at h2
  exact h2

theorem sameButRange_scans {s s1 : Plugin} (h : s.sameButRange s1) :
    s1.scans_ = s.scans_ := by
  have h1 : s1 = _ := h
  rw [h1]

theorem sameButRange_kept {s s1 : Plugin} (h : s.sameButRange s1) :
    s.kept s1 := by
  have h1 : s1 = _ := h
  refine ⟨?_, ?_, ?_⟩ <;> rw [h1]

theorem kept_refl (s : Plugin) : s.kept s := ⟨rfl, rfl, rfl⟩

theorem kept_trans {a b c : Plugin} (h1 : a.kept b) (h2 : b.kept c) : a.kept c :=
  ⟨h2.1.trans h1.1, h2.2.1.trans h1.2.1, h2.2.2.trans h1.2.2⟩

theorem trackExtrema_frame {s s1 : Plugin} {i : Nat} {val : Flt}
    (h : trackExtrema s i val = .ok s1) : s.sameButRange s1 := by
  cases hmx : s.max_[i]? with
  | none => simp [trackExtrema, hmx] at h
  | some mx =>
    cases hmn : s.min_[i]? with
    | none =>
      by_cases h1 : val > mx <;> simp [trackExtrema, hmx, hmn, h1] at h
    | some mn =>
      rw [trackExtrema_eq s i val mx mn hmx hmn] at h
      injection h with h
      subst h
      rfl

theorem adoptExtrema_frame {s s1 : Plugin} {i : Nat}
    (h : adoptExtrema s i = .ok s1) : s.sameButRange s1 := by
  unfold adoptExtrema at h
  split at h
  · split at h
    · injection h with h
      subst h
      rfl
    · cases h
  · injection h with h
    subst h
    rfl

theorem CalculateColor_frame {env : Env} {s s1 : Plugin} {p : StampedPoint} {c : QColor}
    (h : CalculateColor env s p = .ok (s1, c)) : s.sameButRange s1 := by
  unfold CalculateColor at h
  simp only at h
  split at h
  · split at h
    · cases h
    · split at h
      · cases h
      · rename_i s2 h2
        have f2 : s.sameButRange s2 := by
          split at h2
          · exact trackExtrema_frame h2
          · injection h2 with h2
            subst h2
            rfl
        split at h
        · injection h with h
          injection h with h3 h4
          subst h3
          exact f2
        · split at h
          · cases h
          · rename_i s3 h3
            injection h with h
            injection h with h5 h6
            subst h5
            exact sameButRange_trans f2 (adoptExtrema_frame h3)
  · injection h with h
    injection h with h1 h2
    subst h1
    rfl

theorem colorPoints_frame {env : Env} :
    ∀ (ps : List StampedPoint) (s s1 : Plugin) (ps1 : List StampedPoint),
      colorPoints env s ps = .ok (s1, ps1) → s.sameButRange s1 ∧ ps1.length = ps.length
  | [], s, s1, ps1, h => by
    simp [colorPoints] at h
    obtain ⟨h1, h2⟩ := h
    subst h1 h2
    exact ⟨sameButRange_refl s, rfl⟩
  | p :: ps, s, s1, ps1, h => by
    cases hc : CalculateColor env s p with
    | error e => simp [colorPoints, hc] at h
    | ok r =>
      obtain ⟨s2, c⟩ := r
      cases hr : colorPoints env s2 ps with
      | error e => simp [colorPoints, hc, hr] at h
      | ok r2 =>
        obtain ⟨s3, ps3⟩ := r2
        simp [colorPoints, hc, hr] at h
        obtain ⟨h1, h2⟩ := h
        subst h1 h2
        have ih := colorPoints_frame ps s2 s3 ps3 hr
        exact ⟨sameButRange_trans (CalculateColor_frame hc) ih.1, by simp [ih.2]⟩

theorem colorScans_frame {env : Env} :
    ∀ (scs : List Scan) (s s1 : Plugin) (scs1 : List Scan),
      colorScans env s scs = .ok (s1, scs1) →
        s.sameButRange s1 ∧ scs1.map Scan.header = scs.map Scan.header
  | [], s, s1, scs1, h => by
    simp [colorScans] at h
    obtain ⟨h1, h2⟩ := h
    subst h1 h2
    exact ⟨sameButRange_refl s, rfl⟩
  | sc :: scs, s, s1, scs1, h => by
    cases hc : colorPoints env s sc.points with
    | error e => simp [colorScans, hc] at h
    | ok r =>
      obtain ⟨s2, pts⟩ := r
      cases hr : colorScans env s2 scs with
      | error e => simp [colorScans, hc, hr] at h
      | ok r2 =>
        obtain ⟨s3, scs3⟩ := r2
        simp [colorScans, hc, hr] at h
        obtain ⟨h1, h2⟩ := h
        subst h1 h2
        have ih := colorScans_frame scs s2 s3 scs3 hr
        exact ⟨sameButRange_trans (colorPoints_frame _ _ _ _ hc).1 ih.1,
          by simp [ih.2, Scan.header]⟩

theorem UpdateColors_kept {env : Env} {s s1 : Plugin}
    (h : UpdateColors env s = .ok s1) : s.kept s1 := by
  unfold UpdateColors at h
  cases hc : colorScans env s s.scans_ with
  | error e => simp [hc] at h
  | ok r =>
    obtain ⟨s2, scs⟩ := r
    simp [hc] at h
    subst h
    have f := colorScans_frame _ _ _ _ hc
    exact ⟨(sameButRange_kept f.1).1, (sameButRange_kept f.1).2.1, f.2⟩

/-- What the rebuilding of the combo box keeps besides `kept`: it touches
neither `need_minmax_` nor any field that `kept` names. -/
theorem comboCall_kept {env : Env} {s s1 : Plugin} {r : QComboBox × Bool}
    (h : comboCall env s r = .ok s1) : s.kept s1 := by
  unfold comboCall at h
  split at h
  · exact UpdateColors_kept (s := { s with color_transformer := r.1 }) h
  · injection h with h
    subst h
    exact kept_refl s

theorem removeItems_kept {env : Env} :
    ∀ (n : Nat) (s s1 : Plugin), removeItems env n s = .ok s1 → s.kept s1
  | 0, s, s1, h => by
    simp [removeItems] at h
    subst h
    exact kept_refl s
  | n + 1, s, s1, h => by
    cases hc : comboCall env s (s.color_transformer.removeItem (s.num_of_feats_ : Int)) with
    | error e => simp [removeItems, hc] at h
    | ok s2 =>
      simp [removeItems, hc] at h
      have ih := removeItems_kept n _ s1 h
      exact kept_trans (comboCall_kept hc) ih

theorem addItems_kept {env : Env} :
    ∀ (fs : List (String × FieldInfo)) (label index : Int) (s s1 : Plugin) (index1 : Int),
      addItems env fs label index s = .ok (s1, index1) → s.kept s1
  | [], label, index, s, s1, index1, h => by
    simp [addItems] at h
    obtain ⟨h1, h2⟩ := h
    subst h1
    exact kept_refl s
  | (field, fi) :: rest, label, index, s, s1, index1, h => by
    unfold addItems at h
    simp only at h
    split at h
    · cases h
    · rename_i s2 hc
      have ih := addItems_kept rest _ _ _ s1 index1 h
      have k1 := comboCall_kept hc
      have k0 : s.kept (if decide (field = s.saved_color_transformer_) = true
          then { s with saved_color_transformer_ := "" } else s) := by
        split
        · exact ⟨rfl, rfl, rfl⟩
        · exact kept_refl s
      exact kept_trans k0 (kept_trans k1 ih)

theorem rebuildList_kept {env : Env} {s s1 : Plugin} {fs : List (String × FieldInfo)}
    (h : rebuildList env s fs = .ok s1) : s.kept s1 ∧ s1.need_new_list_ = false := by
  unfold rebuildList at h
  simp only at h
  split at h
  · cases h
  · rename_i s2 h2
    split at h
    · cases h
    · rename_i s3 index h3
      split at h
      · cases h
      · rename_i s4 h4
        injection h with h
        subst h
        have k4 : s3.kept { s4 with need_new_list_ := false } :=
          kept_trans (comboCall_kept h4) ⟨rfl, rfl, rfl⟩
        exact ⟨kept_trans (removeItems_kept _ _ _ h2)
          (kept_trans (addItems_kept _ _ _ _ _ _ h3) k4), rfl⟩

/-! ## The callback, step by step -/

theorem popFront_eq_drop (bs : Nat) :
    ∀ l : List Scan, popFront bs l = l.drop (l.length + 1 - bs)
  | [] => by simp [popFront]
  | sc :: rest => by
    unfold popFront
    split
    · rename_i hle
      rw [popFront_eq_drop bs rest]
      have e : (sc :: rest).length + 1 - bs = (rest.length + 1 - bs) + 1 := by
        simp at hle ⊢
        omega
      rw [e, List.drop_succ_cons]
    · rename_i hle
      have e : (sc :: rest).length + 1 - bs = 0 := by
        simp at hle ⊢
        omega
      rw [e, List.drop_zero]

theorem recycle_snd (s : Plugin) (hbs : 0 < s.buffer_size_) :
    (recycle s).2 = s.scans_.drop (s.scans_.length + 1 - s.buffer_size_) := by
  simp [recycle, hbs, popFront_eq_drop]

theorem newTopic_spec {env : Env} {s s2 : Plugin} {scan scan2 : Scan} {msg : PointCloud2}
    (h : newTopic env s scan msg = .ok (s2, scan2)) :
    s2.buffer_size_ = s.buffer_size_ ∧
    s2.scans_.map Scan.header = s.scans_.map Scan.header ∧
    scan2 = { scan with new_features := scan2.new_features } ∧
    (s.new_topic_ = true ∨ s.need_new_list_ = false → s2.need_new_list_ = false) ∧
    (s.need_new_list_ = false → s2.scans_ = s.scans_) := by
  unfold newTopic at h
  split at h
  · rename_i hnt
    simp only at h
    split at h
    · rename_i hnl
      split at h
      · cases h
      · rename_i s3 h3
        injection h with h
        injection h with h1 h2
        subst h1 h2
        have k := rebuildList_kept h3
        refine ⟨k.1.1, k.1.2.2, rfl, fun _ => k.2, ?_⟩
        intro hf
        rw [hf] at hnl
        cases hnl
    · rename_i hnl
      injection h with h
      injection h with h1 h2
      subst h1 h2
      refine ⟨rfl, rfl, rfl, fun _ => ?_, fun _ => rfl⟩
      simpa using hnl
  · rename_i hnt
    injection h with h
    injection h with h1 h2
    subst h1 h2
    refine ⟨rfl, rfl, rfl, ?_, fun _ => rfl⟩
    intro h
    rcases h with h | h
    · exact absurd h hnt
    · exact h

theorem extractPoints_frame {env : Env} {data : List Nat} {point_step xoff yoff zoff : Nat}
    {fis : List FieldInfo} {tf : Option (TfPoint → TfPoint)} :
    ∀ (ps : List StampedPoint) (s : Plugin) (ptr : Nat) (s1 : Plugin)
      (ps1 : List StampedPoint),
      extractPoints env data point_step xoff yoff zoff fis tf s ptr ps = .ok (s1, ps1) →
        s.sameButRange s1 ∧ ps1.length = ps.length
  | [], s, ptr, s1, ps1, h => by
    simp [extractPoints] at h
    obtain ⟨h1, h2⟩ := h
    subst h1 h2
    exact ⟨sameButRange_refl s, rfl⟩
  | p :: ps, s, ptr, s1, ps1, h => by
    unfold extractPoints at h
    split at h
    · cases h
    · split at h
      · cases h
      · split at h
        · cases h
        · split at h
          · cases h
          · simp only at h
            split at h
            · cases h
            · rename_i s2 c hc
              split at h
              · cases h
              · rename_i s3 ps3 hr
                injection h with h
                injection h with h1 h2
                subst h1 h2
                have ih := extractPoints_frame ps _ _ _ _ hr
                exact ⟨sameButRange_trans (CalculateColor_frame hc) ih.1, by simp [ih.2]⟩

theorem length_resize {α : Type} (v : List α) (n : Nat) (d : α) :
    (resize v n d).length = n := by
  simp [resize]
  omega

theorem extract_spec {env : Env} {s s3 : Plugin} {scan scan3 : Scan} {msg : PointCloud2}
    {xi yi zi : Int} {tf : Option (TfPoint → TfPoint)}
    (h : extract env s scan msg xi yi zi tf = .ok (s3, scan3)) :
    s.sameButRange s3 ∧ scan3 = { scan with points := scan3.points } ∧
    (msg.data ≠ [] → msg.point_step ≠ 0 ∧
      scan3.points.length = msg.data.length / msg.point_step) ∧
    (msg.data = [] → scan3.points = scan.points) := by
  unfold extract at h
  split at h
  · rename_i hne
    have hd : msg.data ≠ [] := by
      intro h0
      rw [h0] at hne
      exact hne rfl
    split at h
    · cases h
    · rename_i hps
      simp only at h
      split at h
      · cases h
      · rename_i s4 pts hx
        injection h with h
        injection h with h1 h2
        subst h1 h2
        have f := extractPoints_frame _ _ _ _ _ hx
        refine ⟨f.1, rfl, fun _ => ⟨hps, ?_⟩, fun h0 => absurd h0 hd⟩
        simp [f.2, length_resize]
  · rename_i hne
    have hd : msg.data = [] := by
      have : msg.data.length = 0 := by simpa using hne
      exact List.length_eq_zero.mp this
    injection h with h
    injection h with h1 h2
    subst h1 h2
    exact ⟨sameButRange_refl s, rfl, fun h0 => absurd hd h0, fun _ => rfl⟩

theorem recycle_noteMessage (s : Plugin) : recycle (noteMessage s) = recycle s := by
  unfold noteMessage
  split <;> rfl

theorem noteMessage_buffer_size (s : Plugin) :
    (noteMessage s).buffer_size_ = s.buffer_size_ := by
  unfold noteMessage
  split <;> rfl

theorem noteMessage_new_topic (s : Plugin) :
    (noteMessage s).new_topic_ = s.new_topic_ := by
  unfold noteMessage
  split <;> rfl

theorem noteMessage_need_new_list (s : Plugin) :
    (noteMessage s).need_new_list_ = s.need_new_list_ := by
  unfold noteMessage
  split <;> rfl

/-- A message without one of `x`, `y`, `z` ends the callback at line 438, after
the eviction of lines 403-418. -/
theorem callback_without_geometry (env : Env) (s : Plugin) (msg : PointCloud2)
    (hg : ¬ msg.hasGeometry) :
    PointCloud2Callback env s msg
      = .ok { noteMessage s with scans_ := (recycle s).2 } := by
  have h : findChannelIndex msg "x" = -1 ∨ findChannelIndex msg "y" = -1 ∨
      findChannelIndex msg "z" = -1 := by
    unfold PointCloud2.hasGeometry at hg
    by_contra hc
    push_neg at hc
    exact hg hc
  unfold PointCloud2Callback
  simp only [h, if_true, recycle_noteMessage]

/-- A message with `x`, `y`, `z` that the callback processes to the end: the
scan it pushes, and the plugin states between the steps. -/
theorem callback_with_geometry {env : Env} {s s1 : Plugin} {msg : PointCloud2}
    (hg : msg.hasGeometry) (h : PointCloud2Callback env s msg = .ok s1) :
    ∃ s2 scan2 s3 scan3,
      newTopic env { noteMessage s with scans_ := (recycle s).2 }
        (stampScan (recycle s).1 msg (env.GetTransform msg.frame_id msg.stamp)) msg
        = .ok (s2, scan2) ∧
      extract env s2 scan2 msg (findChannelIndex msg "x") (findChannelIndex msg "y")
        (findChannelIndex msg "z") (env.GetTransform msg.frame_id msg.stamp)
        = .ok (s3, scan3) ∧
      s1 = { s3 with scans_ := s3.scans_ ++ [scan3], new_topic_ := true } := by
  have hn : ¬ (findChannelIndex msg "x" = -1 ∨ findChannelIndex msg "y" = -1 ∨
      findChannelIndex msg "z" = -1) := by
    unfold PointCloud2.hasGeometry at hg
    push_neg
    exact hg
  unfold PointCloud2Callback at h
  simp only [hn, if_false, recycle_noteMessage] at h
  split at h
  · cases h
  · rename_i s2 scan2 h2
    split at h
    · cases h
    · rename_i s3 scan3 h3
      injection h with h
      exact ⟨s2, scan2, s3, scan3, h2, h3, h.symm⟩

/-- One delivery of a message with geometry: the buffer after it is the
evicted buffer followed by the new scan. -/
theorem callback_push {env : Env} {s s1 : Plugin} {msg : PointCloud2}
    (hg : msg.hasGeometry) (h : PointCloud2Callback env s msg = .ok s1) :
    ∃ front sc, s1.scans_ = front ++ [sc] ∧
      front.map Scan.header = (recycle s).2.map Scan.header ∧
      sc.header = msg.header ∧
      s1.buffer_size_ = s.buffer_size_ ∧ s1.new_topic_ = true ∧
      (s.new_topic_ = true ∨ s.need_new_list_ = false → s1.need_new_list_ = false) ∧
      (s.need_new_list_ = false ∨ (recycle s).2 = [] → front = (recycle s).2) := by
  obtain ⟨s2, scan2, s3, scan3, h2, h3, h1⟩ := callback_with_geometry hg h
  have n := newTopic_spec h2
  have x := extract_spec h3
  have k3 := sameButRange_kept x.1
  have hs3 : s3.scans_ = s2.scans_ := sameButRange_scans x.1
  have hnl3 : s3.need_new_list_ = s2.need_new_list_ := by
    have e : s3 = _ := x.1
    rw [e]
  subst h1
  refine ⟨s3.scans_, scan3, rfl, ?_, ?_, ?_, rfl, ?_, ?_⟩
  · rw [hs3, n.2.1]
  · rw [x.2.1, n.2.2.1]
    rfl
  · simp only
    rw [k3.1, n.1]
    exact noteMessage_buffer_size s
  · intro hc
    simp only
    rw [hnl3]
    apply n.2.2.2.1
    simpa [noteMessage_new_topic, noteMessage_need_new_list] using hc
  · intro hc
    rw [hs3]
    rcases hc with hc | hc
    · exact n.2.2.2.2 (by simpa [noteMessage_need_new_list] using hc)
    · have e : s2.scans_.map Scan.header = [] := by
        rw [n.2.1]
        simp [hc]
      rw [hc]
      exact List.map_eq_nil_iff.mp e

/-! ## The buffer over a sequence of deliveries -/

theorem drop_append_last {α : Type} (l : List α) (x : α) (k : Nat) (hk : 0 < k) :
    (l ++ [x]).drop ((l ++ [x]).length - k) = l.drop (l.length + 1 - k) ++ [x] := by
  have e : (l ++ [x]).length - k = l.length + 1 - k := by simp
  rw [e, List.drop_append_of_le_length (by omega)]

theorem drop_append_drop {α : Type} (a b : List α) (k : Nat) :
    (a.drop (a.length - k) ++ b).drop ((a.drop (a.length - k) ++ b).length - k)
      = (a ++ b).drop ((a ++ b).length - k) := by
  by_cases h : a.length ≤ k
  · have e : a.length - k = 0 := by omega
    simp [e]
  · have e1 : (a.drop (a.length - k) ++ b).length - k = b.length := by
      simp
      omega
    have e2 : (a ++ b).length - k = (a.length - k) + b.length := by
      simp
      omega
    rw [e1, e2, ← List.drop_drop b.length (a.length - k) (a ++ b),
      List.drop_append_of_le_length (Nat.sub_le _ _)]

theorem drop_append_step {α : Type} (l : List α) (x : α) (rest : List α) (k : Nat)
    (hk : 0 < k) :
    ((l.drop (l.length + 1 - k) ++ [x]) ++ rest).drop
        (((l.drop (l.length + 1 - k) ++ [x]) ++ rest).length - k)
      = (l ++ x :: rest).drop ((l ++ x :: rest).length - k) := by
  rw [← drop_append_last l x k hk, drop_append_drop]
  simp

theorem deliver_buffer {env : Env} :
    ∀ (msgs : List PointCloud2) (s s1 : Plugin) (pushed : List Scan),
      (∀ m ∈ msgs, m.hasGeometry) → 0 < s.buffer_size_ →
      s.scans_.length ≤ s.buffer_size_ →
      deliver env s msgs = .ok (s1, pushed) →
        pushed.length = msgs.length ∧
        pushed.map Scan.header = msgs.map PointCloud2.header ∧
        s1.scans_.map Scan.header
          = (s.scans_.map Scan.header ++ msgs.map PointCloud2.header).drop
              ((s.scans_.map Scan.header ++ msgs.map PointCloud2.header).length
                - s.buffer_size_) ∧
        (s.new_topic_ = true → s.need_new_list_ = false ∨ s.scans_ = [] →
          s1.scans_ = (s.scans_ ++ pushed).drop
            ((s.scans_ ++ pushed).length - s.buffer_size_))
  | [], s, s1, pushed, _, hbs, hlen, h => by
    simp [deliver] at h
    obtain ⟨h1, h2⟩ := h
    subst h1 h2
    have e : s.scans_.length - s.buffer_size_ = 0 := by omega
    simp [e]
  | msg :: msgs, s, s1, pushed, hg, hbs, hlen, h => by
    unfold deliver at h
    split at h
    · cases h
    · rename_i s2 hcb
      split at h
      · cases h
      · rename_i s3 pushed3 hd
        injection h with h
        injection h with h1 h2
        subst h1 h2
        have hgm : msg.hasGeometry := hg msg (List.mem_cons_self _ _)
        obtain ⟨front, sc, hsc, hfront, hhdr, hbs2, hnt2, hnl2, hexact⟩ :=
          callback_push hgm hcb
        have hrec := recycle_snd s hbs
        have hfl : front.length = (s.scans_.drop (s.scans_.length + 1 - s.buffer_size_)).length := by
          have := congrArg List.length hfront
          simpa [hrec] using this
        have hlen2 : s2.scans_.length ≤ s2.buffer_size_ := by
          rw [hsc, hbs2]
          simp [hfl]
          omega
        have ih := deliver_buffer msgs s2 s3 pushed3
          (fun m hm => hg m (List.mem_cons_of_mem _ hm)) (by rw [hbs2]; exact hbs) hlen2 hd
        have hlast : s2.scans_.getLast?.toList = [sc] := by
          rw [hsc, List.getLast?_concat]
          rfl
        rw [hlast]
        refine ⟨by simp [ih.1], by simp [ih.2.1, hhdr], ?_, ?_⟩
        · rw [ih.2.2.1, hbs2, hsc, List.map_append, hfront, hrec, List.map_drop]
          have := drop_append_step (s.scans_.map Scan.header) msg.header
            (msgs.map PointCloud2.header) s.buffer_size_ hbs
          simpa [hhdr] using this
        · intro hnt hinv
          have hfront2 : front = s.scans_.drop (s.scans_.length + 1 - s.buffer_size_) := by
            rw [← hrec]
            apply hexact
            rcases hinv with h1 | h1
            · exact Or.inl h1
            · right
              rw [hrec, h1]
              exact List.drop_nil
          rw [ih.2.2.2 hnt2 (Or.inl (hnl2 (Or.inl hnt))), hbs2, hsc, hfront2]
          have := drop_append_step s.scans_ sc pushed3 s.buffer_size_ hbs
          simpa using this

/-! ## The feature map of a scan -/

theorem keys_mapInsert (k : String) (v : FieldInfo) :
    ∀ (m : List (String × FieldInfo)) (x : String),
      x ∈ (mapInsert k v m).map Prod.fst ↔ x = k ∨ x ∈ m.map Prod.fst
  | [], x => by simp [mapInsert]
  | (k1, v1) :: rest, x => by
    unfold mapInsert
    split
    · simp
    · split
      · rename_i h1 h2
        subst h2
        simp
      · have ih := keys_mapInsert k v rest x
        simp only [List.map_cons, List.mem_cons, ih]
        tauto

theorem sorted_mapInsert (k : String) (v : FieldInfo) :
    ∀ (m : List (String × FieldInfo)),
      (m.map Prod.fst).Pairwise (· < ·) → ((mapInsert k v m).map Prod.fst).Pairwise (· < ·)
  | [], _ => by simp [mapInsert]
  | (k1, v1) :: rest, h => by
    unfold mapInsert
    have h' := h
    simp only [List.map_cons, List.pairwise_cons] at h'
    split
    · rename_i hlt
      simp only [List.map_cons, List.pairwise_cons]
      refine ⟨?_, h'⟩
      intro x hx
      simp only [List.mem_cons] at hx
      rcases hx with hx | hx
      · rw [hx]
        exact hlt
      · exact lt_trans hlt (h'.1 x hx)
    · split
      · exact h
      · rename_i hnlt hne
        simp only [List.map_cons, List.pairwise_cons]
        refine ⟨?_, sorted_mapInsert k v rest h'.2⟩
        intro x hx
        rcases (keys_mapInsert k v rest x).mp hx with hx | hx
        · rw [hx]
          exact lt_of_le_of_ne (not_lt.mp hnlt) (Ne.symm hne)
        · exact h'.1 x hx

theorem mem_mapInsert (k : String) (v : FieldInfo) :
    ∀ (m : List (String × FieldInfo)), (m.map Prod.fst).Pairwise (· < ·) →
      ∀ e, e ∈ mapInsert k v m → e ∈ m ∨ (e = (k, v) ∧ k ∉ m.map Prod.fst)
  | [], _, e, he => by
    simp [mapInsert] at he
    simp [he]
  | (k1, v1) :: rest, h, e, he => by
    have h' := h
    simp only [List.map_cons, List.pairwise_cons] at h'
    unfold mapInsert at he
    split at he
    · rename_i hlt
      simp only [List.mem_cons] at he
      rcases he with he | he | he
      · right
        refine ⟨he, ?_⟩
        simp only [List.map_cons, List.mem_cons, not_or]
        refine ⟨ne_of_lt hlt, ?_⟩
        intro hk
        exact absurd (lt_trans hlt (h'.1 k hk)) (lt_irrefl k)
      · left
        simp [he]
      · left
        simp [he]
    · split at he
      · exact Or.inl he
      · rename_i hnlt hne
        simp only [List.mem_cons] at he
        rcases he with he | he
        · left
          simp [he]
        · rcases mem_mapInsert k v rest h'.2 e he with h1 | h1
          · left
            simp [h1]
          · right
            refine ⟨h1.1, ?_⟩
            simp only [List.map_cons, List.mem_cons, not_or]
            exact ⟨hne, h1.2⟩

theorem insertFields_spec :
    ∀ (fields : List PointField) (m : List (String × FieldInfo)),
      (m.map Prod.fst).Pairwise (· < ·) →
      ((insertFields fields m).map Prod.fst).Pairwise (· < ·) ∧
      (∀ x, x ∈ (insertFields fields m).map Prod.fst ↔
        x ∈ m.map Prod.fst ∨ ∃ f ∈ fields, f.name = x) ∧
      (∀ e, e ∈ insertFields fields m → e ∈ m ∨
        (e.1 ∉ m.map Prod.fst ∧ ∃ f, fields.find? (fun f => f.name = e.1) = some f ∧
          e.2 = ⟨f.datatype, f.offset⟩))
  | [], m, h => by
    have e : insertFields [] m = m := rfl
    rw [e]
    exact ⟨h, fun x => by simp, fun e he => Or.inl he⟩
  | f :: fs, m, h => by
    have hs := sorted_mapInsert f.name ⟨f.datatype, f.offset⟩ m h
    have ih := insertFields_spec fs (mapInsert f.name ⟨f.datatype, f.offset⟩ m) hs
    have e : insertFields (f :: fs) m
        = insertFields fs (mapInsert f.name ⟨f.datatype, f.offset⟩ m) := rfl
    rw [e]
    refine ⟨ih.1, ?_, ?_⟩
    · intro x
      rw [ih.2.1 x, keys_mapInsert]
      simp only [List.mem_cons, exists_eq_or_imp]
      constructor
      · rintro ((h1 | h1) | h1)
        · exact Or.inr (Or.inl h1.symm)
        · exact Or.inl h1
        · exact Or.inr (Or.inr h1)
      · rintro (h1 | h1 | h1)
        · exact Or.inl (Or.inr h1)
        · exact Or.inl (Or.inl h1.symm)
        · exact Or.inr h1
    · intro e he
      rcases ih.2.2 e he with h1 | h1
      · rcases mem_mapInsert _ _ m h e h1 with h2 | h2
        · exact Or.inl h2
        · right
          obtain ⟨h3, h4⟩ := h2
          subst h3
          exact ⟨h4, f, by simp, rfl⟩
      · right
        obtain ⟨h2, g, h3, h4⟩ := h1
        rw [keys_mapInsert] at h2
        push_neg at h2
        refine ⟨h2.2, g, ?_, h4⟩
        rw [List.find?_cons]
        have : ¬ (f.name = e.1) := fun hc => h2.1 hc.symm
        simp [this, h3]

/-! ## The features of the extracted points -/

theorem readFeatures_length {data : List Nat} {ptr : Nat} :
    ∀ (fis : List FieldInfo) (vs : List Flt),
      readFeatures data ptr fis = .ok vs → vs.length = fis.length
  | [], vs, h => by
    simp [readFeatures] at h
    subst h
    rfl
  | fi :: fis, vs, h => by
    unfold readFeatures at h
    split at h
    · cases h
    · split at h
      · cases h
      · rename_i v _ vs1 h1
        injection h with h
        subst h
        simp [readFeatures_length fis vs1 h1]

theorem extractPoints_features {env : Env} {data : List Nat}
    {point_step xoff yoff zoff : Nat}
    {fis : List FieldInfo} {tf : Option (TfPoint → TfPoint)} :
    ∀ (ps : List StampedPoint) (s : Plugin) (ptr : Nat) (s1 : Plugin)
      (ps1 : List StampedPoint),
      extractPoints env data point_step xoff yoff zoff fis tf s ptr ps = .ok (s1, ps1) →
        ∀ (i : Nat) (p : StampedPoint), ps1[i]? = some p →
          readFeatures data (ptr + i * point_step) fis = .ok p.features
  | [], s, ptr, s1, ps1, h => by
    simp [extractPoints] at h
    obtain ⟨h1, h2⟩ := h
    subst h1 h2
    intro i p hp
    simp at hp
  | p0 :: ps, s, ptr, s1, ps1, h => by
    unfold extractPoints at h
    split at h
    · cases h
    · split at h
      · cases h
      · split at h
        · cases h
        · split at h
          · cases h
          · rename_i feats hf
            simp only at h
            split at h
            · cases h
            · rename_i s2 c hc
              split at h
              · cases h
              · rename_i s3 ps3 hr
                injection h with h
                injection h with h1 h2
                subst h1 h2
                have ih := extractPoints_features ps _ _ _ _ hr
                intro i p hp
                cases i with
                | zero =>
                  simp at hp
                  subst hp
                  simpa using hf
                | succ i =>
                  simp at hp
                  have := ih i p hp
                  have e : ptr + (i + 1) * point_step = ptr + point_step + i * point_step := by
                    ring
                  rw [e]
                  exact this

theorem extract_features {env : Env} {s s3 : Plugin} {scan scan3 : Scan} {msg : PointCloud2}
    {xi yi zi : Int} {tf : Option (TfPoint → TfPoint)}
    (h : extract env s scan msg xi yi zi tf = .ok (s3, scan3)) (hd : msg.data ≠ []) :
    ∀ (i : Nat) (p : StampedPoint), scan3.points[i]? = some p →
      readFeatures msg.data (i * msg.point_step) (scan.new_features.map Prod.snd)
        = .ok p.features := by
  unfold extract at h
  have hne : msg.data.length ≠ 0 := fun h0 => hd (List.length_eq_zero.mp h0)
  simp only [hne, ne_eq, not_false_eq_true, if_true] at h
  split at h
  · cases h
  · split at h
    · cases h
    · rename_i s4 pts hx
      injection h with h
      injection h with h1 h2
      subst h1 h2
      intro i p hp
      have := extractPoints_features _ _ _ _ _ hx i p hp
      simpa using this

theorem newTopic_features {env : Env} {s s2 : Plugin} {scan scan2 : Scan} {msg : PointCloud2}
    (h : newTopic env s scan msg = .ok (s2, scan2)) (hnt : s.new_topic_ = true) :
    scan2.new_features = insertFields msg.fields scan.new_features := by
  unfold newTopic at h
  simp only [hnt, if_true] at h
  split at h
  · split at h
    · cases h
    · injection h with h
      injection h with h1 h2
      subst h2
      rfl
  · injection h with h
    injection h with h1 h2
    subst h2
    rfl

theorem recycle_fst_of_room (s : Plugin)
    (hroom : s.buffer_size_ = 0 ∨ s.scans_.length < s.buffer_size_) :
    (recycle s).1 = Scan.fresh := by
  unfold recycle
  split
  · rename_i hpos
    rcases hroom with h | h
    · omega
    · cases hs : s.scans_ with
      | nil => rfl
      | cons sc rest =>
        have hl : (sc :: rest).length < s.buffer_size_ := by
          rw [← hs]
          exact h
        simp only [List.length_cons] at hl
        simp only [List.length_cons]
        rw [if_neg (by omega)]
  · rfl

/-! ## Deliveries that return: Flat colouring of well-formed messages -/

theorem CalculateColor_flat (env : Env) (s : Plugin) (p : StampedPoint)
    (h0 : s.color_transformer.currentIndex = 0) :
    CalculateColor env s p = .ok (s, s.min_color.color) := by
  simp [CalculateColor, colorTransformer, toUnsigned, h0]

theorem colorPoints_flat (env : Env) (s : Plugin)
    (h0 : s.color_transformer.currentIndex = 0) :
    ∀ ps : List StampedPoint, ∃ ps1, colorPoints env s ps = .ok (s, ps1)
  | [] => ⟨[], rfl⟩
  | p :: ps => by
    obtain ⟨ps1, h⟩ := colorPoints_flat env s h0 ps
    exact ⟨{ p with color := s.min_color.color } :: ps1,
      by simp only [colorPoints, CalculateColor_flat env s p h0, h]⟩

theorem colorScans_flat (env : Env) (s : Plugin)
    (h0 : s.color_transformer.currentIndex = 0) :
    ∀ scs : List Scan, ∃ scs1, colorScans env s scs = .ok (s, scs1) ∧
      scs1.map Scan.new_features = scs.map Scan.new_features
  | [] => ⟨[], rfl, rfl⟩
  | sc :: scs => by
    obtain ⟨ps1, hp⟩ := colorPoints_flat env s h0 sc.points
    obtain ⟨scs1, h, hn⟩ := colorScans_flat env s h0 scs
    exact ⟨{ sc with points := ps1 } :: scs1, by simp only [colorScans, hp, h],
      by simp [hn]⟩

theorem comboCall_flat (env : Env) (s : Plugin) (r : QComboBox × Bool)
    (h0 : r.1.currentIndex = 0) :
    ∃ scs, comboCall env s r = .ok { s with color_transformer := r.1, scans_ := scs } ∧
      scs.map Scan.new_features = s.scans_.map Scan.new_features := by
  unfold comboCall
  split
  · obtain ⟨scs1, h, hn⟩ := colorScans_flat env { s with color_transformer := r.1 } h0 s.scans_
    exact ⟨scs1, by simp only [ColorTransformerChanged, UpdateColors, h], hn⟩
  · exact ⟨s.scans_, rfl, rfl⟩

theorem removeItem_flat (c : QComboBox) (k : Nat) (h0 : c.currentIndex = 0) (hk : 1 ≤ k) :
    (c.removeItem (k : Int)).1.currentIndex = 0 := by
  unfold QComboBox.removeItem
  have h1 : ¬ ((k : Int) < c.currentIndex) := by
    rw [h0]
    omega
  have h2 : ¬ (c.currentIndex = (k : Int)) := by
    rw [h0]
    omega
  split
  · exact h0
  · simp only [h1, h2, if_false]
    exact h0

theorem removeItems_flat (env : Env) :
    ∀ (n : Nat) (s : Plugin), s.color_transformer.currentIndex = 0 → n ≤ s.num_of_feats_ →
      ∃ s1, removeItems env n s = .ok s1 ∧ s1.color_transformer.currentIndex = 0 ∧
        s1.saved_color_transformer_ = s.saved_color_transformer_ ∧
        s1.scans_.map Scan.new_features = s.scans_.map Scan.new_features
  | 0, s, h0, _ => ⟨s, rfl, h0, rfl, rfl⟩
  | n + 1, s, h0, hn => by
    have hr := removeItem_flat s.color_transformer s.num_of_feats_ h0 (by omega)
    obtain ⟨scs, hc, hnf⟩ := comboCall_flat env s _ hr
    obtain ⟨s1, h1, h2, h3, h4⟩ := removeItems_flat env n
      { s with
        color_transformer := (s.color_transformer.removeItem (s.num_of_feats_ : Int)).1,
        scans_ := scs, num_of_feats_ := s.num_of_feats_ - 1 }
      hr (by simp only; omega)
    refine ⟨s1, ?_, h2, h3, ?_⟩
    · simp only [removeItems, hc]
      exact h1
    · rw [h4]
      exact hnf

theorem addItem_flat (c : QComboBox) (text : String) (h0 : c.currentIndex = 0) :
    (c.addItem text).1.currentIndex = 0 ∧ (c.addItem text).1.items ≠ [] := by
  unfold QComboBox.addItem
  have h1 : ¬ (c.items.length = 0 ∧ c.currentIndex < 0) := by
    rw [h0]
    simp
  simp only [h1, if_false]
  exact ⟨h0, by simp⟩

theorem addItems_flat (env : Env) :
    ∀ (fs : List (String × FieldInfo)) (label index : Int) (s : Plugin),
      s.color_transformer.currentIndex = 0 →
      (∀ e ∈ fs, e.1 ≠ s.saved_color_transformer_) →
      ∃ s1, addItems env fs label index s = .ok (s1, index) ∧
        s1.color_transformer.currentIndex = 0 ∧
        (fs ≠ [] → s1.color_transformer.items ≠ []) ∧
        s1.saved_color_transformer_ = s.saved_color_transformer_ ∧
        s1.scans_.map Scan.new_features = s.scans_.map Scan.new_features
  | [], label, index, s, h0, _ => ⟨s, rfl, h0, fun h => absurd rfl h, rfl, rfl⟩
  | (field, fi) :: rest, label, index, s, h0, hs => by
    have hne : field ≠ s.saved_color_transformer_ := hs (field, fi) (List.mem_cons_self _ _)
    have ha := addItem_flat s.color_transformer field h0
    obtain ⟨scs, hc, hnf⟩ := comboCall_flat env s (s.color_transformer.addItem field) ha.1
    obtain ⟨s1, h1, h2, h3, h4, h5⟩ := addItems_flat env rest (label + 1) index
      { s with color_transformer := (s.color_transformer.addItem field).1,
               scans_ := scs, num_of_feats_ := s.num_of_feats_ + 1 }
      ha.1 (fun e he => hs e (List.mem_cons_of_mem _ he))
    refine ⟨s1, ?_, h2, ?_, h4, ?_⟩
    · simp only [addItems, hne, decide_False, Bool.false_eq_true, if_false, hc]
      exact h1
    · intro _
      by_cases hr : rest = []
      · subst hr
        simp only [addItems, Except.ok.injEq, Prod.mk.injEq] at h1
        rw [← h1.1]
        exact ha.2
      · exact h3 hr
    · rw [h5]
      exact hnf

theorem rebuildList_flat (env : Env) (s : Plugin) (fs : List (String × FieldInfo))
    (h0 : s.color_transformer.currentIndex = 0) (hn : fs.length ≤ s.num_of_feats_)
    (hne : fs ≠ []) (hs : ∀ e ∈ fs, e.1 ≠ s.saved_color_transformer_) :
    ∃ s1, rebuildList env s fs = .ok s1 ∧ s1.color_transformer.currentIndex = 0 ∧
      s1.saved_color_transformer_ = s.saved_color_transformer_ ∧
      s1.scans_.map Scan.new_features = s.scans_.map Scan.new_features := by
  obtain ⟨s1, h1, h2, h3, h4⟩ := removeItems_flat env fs.length s h0 hn
  obtain ⟨s2, k1, k2, k3, k4, k5⟩ := addItems_flat env fs 1 0 s1 h2
    (fun e he => by rw [h3]; exact hs e he)
  have hset : (s2.color_transformer.setCurrentIndex 0).1.currentIndex = 0 ∧
      (s2.color_transformer.setCurrentIndex 0).2 = false := by
    have hl : (0 : Int) < (s2.color_transformer.items.length : Int) := by
      have := List.length_pos.mpr (k3 hne)
      omega
    simp [QComboBox.setCurrentIndex, hl, k2]
  obtain ⟨scs, hc, hnf⟩ := comboCall_flat env s2 (s2.color_transformer.setCurrentIndex 0)
    hset.1
  refine ⟨{ s2 with color_transformer := (s2.color_transformer.setCurrentIndex 0).1,
                    scans_ := scs, need_new_list_ := false }, ?_, ?_, ?_, ?_⟩
  · simp only [rebuildList, h1, h0, k1, hc]
  · exact hset.1
  · simp only
    rw [k4, h3]
  · simp only
    rw [hnf, k5, h4]

theorem mapInsert_of_mem (k : String) (v : FieldInfo) :
    ∀ (m : List (String × FieldInfo)), (m.map Prod.fst).Pairwise (· < ·) →
      k ∈ m.map Prod.fst → mapInsert k v m = m
  | [], _, hk => by simp at hk
  | (k1, v1) :: rest, h, hk => by
    have h' := h
    simp only [List.map_cons, List.pairwise_cons] at h'
    simp only [List.map_cons, List.mem_cons] at hk
    unfold mapInsert
    split
    · rename_i hlt
      exfalso
      rcases hk with hk | hk
      · exact absurd hlt (by rw [hk]; exact lt_irrefl _)
      · exact absurd (lt_trans hlt (h'.1 k hk)) (lt_irrefl k)
    · split
      · rfl
      · rename_i hnlt hne
        rcases hk with hk | hk
        · exact absurd hk hne
        · rw [mapInsert_of_mem k v rest h'.2 hk]

theorem insertFields_of_keys :
    ∀ (fs : List PointField) (m : List (String × FieldInfo)),
      (m.map Prod.fst).Pairwise (· < ·) → (∀ f ∈ fs, f.name ∈ m.map Prod.fst) →
      insertFields fs m = m
  | [], m, _, _ => rfl
  | f :: fs, m, h, hk => by
    have e : insertFields (f :: fs) m
        = insertFields fs (mapInsert f.name ⟨f.datatype, f.offset⟩ m) := rfl
    rw [e, mapInsert_of_mem _ _ m h (hk f (List.mem_cons_self _ _))]
    exact insertFields_of_keys fs m h (fun g hg => hk g (List.mem_cons_of_mem _ hg))

theorem insertFields_idempotent (fs : List PointField) :
    insertFields fs (insertFields fs []) = insertFields fs [] := by
  have spec := insertFields_spec fs [] List.Pairwise.nil
  apply insertFields_of_keys fs _ spec.1
  intro f hf
  rw [spec.2.1]
  exact Or.inr ⟨f, hf, rfl⟩

theorem findChannelFrom_spec (channel : String) :
    ∀ (fs : List PointField) (i : Int),
      findChannelFrom channel fs i = -1 ∨
        ∃ (j : Nat) (f : PointField), findChannelFrom channel fs i = i + (j : Int) ∧
          fs[j]? = some f ∧ f.name = channel
  | [], i => Or.inl rfl
  | f :: fs, i => by
    unfold findChannelFrom
    split
    · rename_i hn
      exact Or.inr ⟨0, f, by simp, by simp, hn⟩
    · rcases findChannelFrom_spec channel fs (i + 1) with h | ⟨j, g, h1, h2, h3⟩
      · exact Or.inl h
      · refine Or.inr ⟨j + 1, g, ?_, by simpa using h2, h3⟩
        rw [h1]
        push_cast
        ring

theorem geometry_offset (msg : PointCloud2) (channel : String)
    (h : findChannelIndex msg channel ≠ -1) :
    ∃ f ∈ msg.fields, f.name = channel ∧
      fieldOffset msg (findChannelIndex msg channel) = f.offset := by
  rcases findChannelFrom_spec channel msg.fields 0 with h1 | ⟨j, f, h1, h2, h3⟩
  · exact absurd h1 h
  · refine ⟨f, List.getElem?_mem h2, h3, ?_⟩
    unfold fieldOffset findChannelIndex
    rw [h1]
    simp [h2]

theorem readFloat_ok (data : List Nat) (pos : Nat) (h : pos + 4 ≤ data.length) :
    ∃ v, readFloat data pos = .ok v := by
  simp [readFloat, readBytes, h]

theorem PointFeature_ok (data : List Nat) (ptr : Nat) (fi : FieldInfo)
    (h : ptr + fi.offset + fi.width ≤ data.length) :
    ∃ v, PointFeature data ptr fi = .ok v := by
  unfold FieldInfo.width at h
  unfold PointFeature
  split <;> rename_i hd <;> simp only [hd] at h <;> simp [readBytes, h]

theorem readFeatures_ok (data : List Nat) (ptr : Nat) :
    ∀ fis : List FieldInfo, (∀ fi ∈ fis, ptr + fi.offset + fi.width ≤ data.length) →
      ∃ vs, readFeatures data ptr fis = .ok vs
  | [], _ => ⟨[], rfl⟩
  | fi :: fis, h => by
    obtain ⟨v, hv⟩ := PointFeature_ok data ptr fi (h fi (List.mem_cons_self _ _))
    obtain ⟨vs, hvs⟩ := readFeatures_ok data ptr fis
      (fun g hg => h g (List.mem_cons_of_mem _ hg))
    exact ⟨v :: vs, by simp only [readFeatures, hv, hvs]⟩

theorem extractPoints_flat (env : Env) (data : List Nat)
    (point_step xoff yoff zoff : Nat) (fis : List FieldInfo)
    (tf : Option (TfPoint → TfPoint)) (s : Plugin)
    (h0 : s.color_transformer.currentIndex = 0) :
    ∀ (ps : List StampedPoint) (ptr : Nat),
      (∀ j, j < ps.length →
        ptr + j * point_step + xoff + 4 ≤ data.length ∧
        ptr + j * point_step + yoff + 4 ≤ data.length ∧
        ptr + j * point_step + zoff + 4 ≤ data.length ∧
        ∀ fi ∈ fis, ptr + j * point_step + fi.offset + fi.width ≤ data.length) →
      ∃ ps1, extractPoints env data point_step xoff yoff zoff fis tf s ptr ps = .ok (s, ps1)
  | [], ptr, _ => ⟨[], rfl⟩
  | p :: ps, ptr, h => by
    have hj := h 0 (by simp)
    simp only [Nat.zero_mul, Nat.add_zero] at hj
    obtain ⟨x, hx⟩ := readFloat_ok data (ptr + xoff) hj.1
    obtain ⟨y, hy⟩ := readFloat_ok data (ptr + yoff) hj.2.1
    obtain ⟨z, hz⟩ := readFloat_ok data (ptr + zoff) hj.2.2.1
    obtain ⟨vs, hvs⟩ := readFeatures_ok data ptr fis hj.2.2.2
    obtain ⟨ps1, hr⟩ := extractPoints_flat env data point_step xoff yoff zoff fis tf s h0
      ps (ptr + point_step) (by
        intro j hjl
        have := h (j + 1) (by simp; omega)
        have e : ptr + (j + 1) * point_step = ptr + point_step + j * point_step := by ring
        rw [e] at this
        exact this)
    exact ⟨_, by
      simp only [extractPoints, hx, hy, hz, hvs, CalculateColor_flat env s _ h0, hr]
      rfl⟩

theorem extract_flat (env : Env) (s : Plugin) (scan : Scan) (msg : PointCloud2)
    (tf : Option (TfPoint → TfPoint))
    (h0 : s.color_transformer.currentIndex = 0)
    (hg : msg.hasGeometry) (hb : msg.inBounds)
    (hf : ∀ e ∈ scan.new_features, ∃ f ∈ msg.fields, e.2 = ⟨f.datatype, f.offset⟩) :
    ∃ pts, extract env s scan msg (findChannelIndex msg "x") (findChannelIndex msg "y")
        (findChannelIndex msg "z") tf = .ok (s, { scan with points := pts }) := by
  rcases hb with hd | ⟨hps, hb⟩
  · exact ⟨scan.points, by simp [extract, hd]⟩
  · by_cases hd : msg.data.length = 0
    · exact ⟨scan.points, by simp [extract, hd]⟩
    · obtain ⟨fx, hfx, hnx, hox⟩ := geometry_offset msg "x" hg.1
      obtain ⟨fy, hfy, hny, hoy⟩ := geometry_offset msg "y" hg.2.1
      obtain ⟨fz, hfz, hnz, hoz⟩ := geometry_offset msg "z" hg.2.2
      obtain ⟨pts, hx⟩ := extractPoints_flat env msg.data msg.point_step
        (fieldOffset msg (findChannelIndex msg "x"))
        (fieldOffset msg (findChannelIndex msg "y"))
        (fieldOffset msg (findChannelIndex msg "z"))
        (scan.new_features.map Prod.snd) (if scan.transformed then tf else none) s h0
        (resize scan.points (msg.data.length / msg.point_step) StampedPoint.fresh) 0 (by
          intro j hj
          rw [length_resize] at hj
          simp only [Nat.zero_add]
          refine ⟨?_, ?_, ?_, ?_⟩
          · rw [hox]
            exact (hb j hj fx hfx).2 (Or.inl hnx)
          · rw [hoy]
            exact (hb j hj fy hfy).2 (Or.inr (Or.inl hny))
          · rw [hoz]
            exact (hb j hj fz hfz).2 (Or.inr (Or.inr hnz))
          · intro fi hfi
            obtain ⟨e, he, he2⟩ := List.mem_map.mp hfi
            obtain ⟨f, hfm, hfe⟩ := hf e he
            rw [← he2, hfe]
            exact (hb j hj f hfm).1)
      exact ⟨pts, by simp only [extract, hd, ne_eq, not_false_eq_true, if_true, hps,
        if_false, hx]⟩

theorem newTopic_flat (env : Env) (s : Plugin) (scan : Scan) (msg : PointCloud2)
    (h0 : s.color_transformer.currentIndex = 0) (hnt : s.new_topic_ = true)
    (hne : insertFields msg.fields scan.new_features ≠ [])
    (hs : ∀ e ∈ insertFields msg.fields scan.new_features,
      e.1 ≠ s.saved_color_transformer_) :
    ∃ s2, newTopic env s scan msg
        = .ok (s2, { scan with new_features := insertFields msg.fields scan.new_features }) ∧
      s2.color_transformer.currentIndex = 0 ∧
      s2.saved_color_transformer_ = s.saved_color_transformer_ ∧
      s2.scans_.map Scan.new_features = s.scans_.map Scan.new_features := by
  cases hnl : s.need_new_list_ with
  | true =>
    obtain ⟨s2, h1, h2, h3, h4⟩ := rebuildList_flat env
      { s with new_topic_ := false,
               num_of_feats_ := (insertFields msg.fields scan.new_features).length,
               max_ := resize s.max_ (insertFields msg.fields scan.new_features).length 0,
               min_ := resize s.min_ (insertFields msg.fields scan.new_features).length 0 }
      (insertFields msg.fields scan.new_features) h0 (le_refl _) hne hs
    simp only [hnl] at h1
    exact ⟨s2, by simp only [newTopic, hnt, if_true, hnl, h1], h2, h3, h4⟩
  | false =>
    refine ⟨{ s with
        new_topic_ := false, need_new_list_ := false,
        num_of_feats_ := (insertFields msg.fields scan.new_features).length,
        max_ := resize s.max_ (insertFields msg.fields scan.new_features).length 0,
        min_ := resize s.min_ (insertFields msg.fields scan.new_features).length 0 },
      ?_, h0, rfl, rfl⟩
    simp only [newTopic, hnt, if_true, hnl, Bool.false_eq_true, if_false]

theorem recycle_snd_subset (s : Plugin) : ∀ sc ∈ (recycle s).2, sc ∈ s.scans_ := by
  intro sc h
  unfold recycle at h
  split at h
  · simp only [popFront_eq_drop] at h
    exact List.mem_of_mem_drop h
  · exact h

theorem recycle_fst_features (s : Plugin) :
    (recycle s).1.new_features = [] ∨ (recycle s).1 ∈ s.scans_ := by
  unfold recycle
  split
  · cases hs : s.scans_ with
    | nil => exact Or.inl rfl
    | cons sc rest =>
      simp only
      split
      · exact Or.inr (List.mem_cons_self _ _)
      · exact Or.inl rfl
  · exact Or.inl rfl

/-- One delivery to a plugin that colours Flat, of a well-formed message with
geometry: the callback returns, and the plugin still colours Flat over the
schema of the message. -/
theorem callback_returns (env : Env) (s : Plugin) (msg : PointCloud2)
    (hflat : s.flatOver msg.fields) (hg : msg.hasGeometry) (hb : msg.inBounds) :
    ∃ s1, PointCloud2Callback env s msg = .ok s1 ∧ s1.flatOver msg.fields ∧
      s1.buffer_size_ = s.buffer_size_ := by
  obtain ⟨h0, hnt, hsaved, hfeat⟩ := hflat
  have spec := insertFields_spec msg.fields [] List.Pairwise.nil
  -- the feature map of the local scan
  have hscan : insertFields msg.fields (recycle s).1.new_features
      = insertFields msg.fields [] := by
    rcases recycle_fst_features s with h | h
    · rw [h]
    · rw [hfeat _ (List.mem_map_of_mem _ h)]
      exact insertFields_idempotent msg.fields
  have hne : insertFields msg.fields [] ≠ [] := by
    obtain ⟨f, hf, _⟩ := geometry_offset msg "x" hg.1
    intro hc
    have := (spec.2.1 f.name).mpr (Or.inr ⟨f, hf, rfl⟩)
    rw [hc] at this
    simp at this
  have hkeys : ∀ e ∈ insertFields msg.fields [], e.1 ≠ s.saved_color_transformer_ := by
    intro e he
    have hk : e.1 ∈ (insertFields msg.fields []).map Prod.fst := List.mem_map_of_mem _ he
    rw [spec.2.1] at hk
    rcases hk with hk | ⟨f, hf, hfn⟩
    · simp at hk
    · rw [← hfn]
      exact hsaved f hf
  have hvals : ∀ e ∈ insertFields msg.fields [],
      ∃ f ∈ msg.fields, e.2 = ⟨f.datatype, f.offset⟩ := by
    intro e he
    rcases spec.2.2 e he with h | ⟨_, f, hfind, he2⟩
    · simp at h
    · exact ⟨f, List.mem_of_find?_eq_some hfind, he2⟩
  obtain ⟨s2, hn, k0, ksaved, kfeat⟩ := newTopic_flat env
    { noteMessage s with scans_ := (recycle s).2 }
    (stampScan (recycle s).1 msg (env.GetTransform msg.frame_id msg.stamp)) msg
    (by
      simp only
      unfold noteMessage
      split <;> exact h0)
    (by simp only; rw [noteMessage_new_topic]; exact hnt)
    (by
      simp only [stampScan]
      rw [hscan]
      exact hne)
    (by
      simp only [stampScan]
      rw [hscan]
      intro e he
      have : ({ noteMessage s with scans_ := (recycle s).2 } : Plugin).saved_color_transformer_
          = s.saved_color_transformer_ := by
        simp only
        unfold noteMessage
        split <;> rfl
      rw [this]
      exact hkeys e he)
  simp only [stampScan] at hn
  rw [hscan] at hn
  obtain ⟨pts, hx⟩ := extract_flat env s2
    { (stampScan (recycle s).1 msg (env.GetTransform msg.frame_id msg.stamp)) with
      new_features := insertFields msg.fields [] } msg
    (env.GetTransform msg.frame_id msg.stamp) k0 hg hb hvals
  have hcall : PointCloud2Callback env s msg
      = .ok { s2 with
          scans_ := s2.scans_ ++
            [{ (stampScan (recycle s).1 msg (env.GetTransform msg.frame_id msg.stamp)) with
               new_features := insertFields msg.fields [], points := pts }],
          new_topic_ := true } := by
    have hgn : ¬ (findChannelIndex msg "x" = -1 ∨ findChannelIndex msg "y" = -1 ∨
        findChannelIndex msg "z" = -1) := by
      unfold PointCloud2.hasGeometry at hg
      push_neg
      exact hg
    unfold PointCloud2Callback
    simp only [hgn, if_false, recycle_noteMessage]
    simp only [stampScan] at hx ⊢
    rw [hn]
    simp only
    rw [hx]
  refine ⟨_, hcall, ⟨k0, rfl, ?_, ?_⟩, ?_⟩
  · intro f hf
    simp only
    rw [ksaved]
    have : ({ noteMessage s with scans_ := (recycle s).2 } : Plugin).saved_color_transformer_
        = s.saved_color_transformer_ := by
      simp only
      unfold noteMessage
      split <;> rfl
    rw [this]
    exact hsaved f hf
  · intro m hm
    simp only [List.map_append, List.map_cons, List.map_nil, List.mem_append,
      List.mem_singleton] at hm
    rcases hm with hm | hm
    · rw [kfeat] at hm
      simp only at hm
      obtain ⟨sc, hsc, hsm⟩ := List.mem_map.mp hm
      rw [← hsm]
      exact hfeat _ (List.mem_map_of_mem _ (recycle_snd_subset s sc hsc))
    · exact hm
  · have n := newTopic_spec hn
    simp only
    rw [n.1]
    exact noteMessage_buffer_size s

/-- A sequence of deliveries to a plugin that colours Flat: when every message
has the same fields, `x`, `y`, `z` among them, and is well formed, every
callback returns. -/
theorem deliver_returns (env : Env) (fields : List PointField) :
    ∀ (msgs : List PointCloud2) (s : Plugin), s.flatOver fields →
      (∀ m ∈ msgs, m.fields = fields ∧ m.hasGeometry ∧ m.inBounds) →
      ∃ s1 pushed, deliver env s msgs = .ok (s1, pushed)
  | [], s, _, _ => ⟨s, [], rfl⟩
  | msg :: msgs, s, hflat, hm => by
    obtain ⟨hf, hg, hb⟩ := hm msg (List.mem_cons_self _ _)
    subst hf
    obtain ⟨s1, h1, hflat1, _⟩ := callback_returns env s msg hflat hg hb
    obtain ⟨s2, pushed, h2⟩ := deliver_returns env msg.fields msgs s1 hflat1
      (fun m hmm => hm m (List.mem_cons_of_mem _ hmm))
    exact ⟨s2, s1.scans_.getLast?.toList ++ pushed, by simp only [deliver, h1, h2]⟩

/-! ## C1: the buffer is a FIFO of bounded length -/

/-- C1: for a buffer size of at least one and an empty buffer at the start,
after the deliveries of `n` messages that all carry `x`, `y` and `z` the
buffer has length `min n buffer_size` and holds, in arrival order, the scans of
the last `min n buffer_size` messages: their headers are those of these
messages, and (the flag `new_topic_` being set at the start, as it is whenever
a callback begins) they are the very scans that the deliveries pushed.  This
holds of every run of the deliveries that returns; and the run does return
when the plugin colours Flat and the messages share their fields and are well
formed, the faults of the extraction being the only way not to return. -/
theorem C1_fifo_buffer (env : Env) (s : Plugin) (msgs : List PointCloud2)
    (hsize : 1 ≤ s.buffer_size_) (hempty : s.scans_ = [])
    (hgeo : ∀ m ∈ msgs, m.hasGeometry) :
    (∀ s1 pushed, deliver env s msgs = .ok (s1, pushed) →
      s1.scans_.length = min msgs.length s.buffer_size_ ∧
      s1.scans_.map Scan.header
        = (msgs.drop (msgs.length - min msgs.length s.buffer_size_)).map
            PointCloud2.header ∧
      pushed.length = msgs.length ∧
      pushed.map Scan.header = msgs.map PointCloud2.header ∧
      (s.new_topic_ = true →
        s1.scans_ = pushed.drop (msgs.length - min msgs.length s.buffer_size_))) ∧
    (∀ fields, s.flatOver fields → (∀ m ∈ msgs, m.fields = fields ∧ m.inBounds) →
      ∃ s1 pushed, deliver env s msgs = .ok (s1, pushed)) := by
  constructor
  · intro s1 pushed hrun
    have hlen : s.scans_.length ≤ s.buffer_size_ := by simp [hempty]
    obtain ⟨h1, h2, h3, h4⟩ := deliver_buffer msgs s s1 pushed hgeo hsize hlen hrun
    have e : msgs.length - min msgs.length s.buffer_size_
        = msgs.length - s.buffer_size_ := by
      omega
    rw [e]
    have h3' : s1.scans_.map Scan.header
        = (msgs.drop (msgs.length - s.buffer_size_)).map PointCloud2.header := by
      rw [h3, hempty]
      simp [List.map_drop]
    refine ⟨?_, h3', h1, h2, ?_⟩
    · have := congrArg List.length h3'
      simp only [List.length_map, List.length_drop] at this
      rw [this]
      omega
    · intro hnt
      rw [h4 hnt (Or.inr hempty), hempty]
      simp [h1]
  · intro fields hflat hm
    exact deliver_returns env fields msgs s hflat
      (fun m hmm => ⟨(hm m hmm).1, hgeo m hmm, (hm m hmm).2⟩)

/-- Witness of C1: the scenario of the specification.  With a buffer size of
two, the deliveries of `A`, `B`, `C` leave the scans of `B` and `C`, and the
delivery of `D` after them leaves the scans of `C` and `D`. -/
theorem C1_fifo_buffer_witness :
    (∃ s1 pushed,
      deliver Env.sample { Plugin.constructed with buffer_size_ := 2 }
        [PointCloud2.single 1, PointCloud2.single 2, PointCloud2.single 3]
          = .ok (s1, pushed) ∧
      s1.scans_.length = 2 ∧ s1.scans_.map Scan.header = [(2, "lidar"), (3, "lidar")] ∧
      s1.scans_ = pushed.drop 1) ∧
    (∃ s1 pushed,
      deliver Env.sample { Plugin.constructed with buffer_size_ := 2 }
        [PointCloud2.single 1, PointCloud2.single 2, PointCloud2.single 3,
         PointCloud2.single 4] = .ok (s1, pushed) ∧
      s1.scans_.length = 2 ∧ s1.scans_.map Scan.header = [(3, "lidar"), (4, "lidar")] ∧
      s1.scans_ = pushed.drop 2) := by
  have hflat : ({ Plugin.constructed with buffer_size_ := 2 } : Plugin).flatOver
      (PointCloud2.single 0).fields :=
    ⟨rfl, rfl, by decide, by simp [Plugin.constructed]⟩
  constructor
  · have h := C1_fifo_buffer Env.sample { Plugin.constructed with buffer_size_ := 2 }
      [PointCloud2.single 1, PointCloud2.single 2, PointCloud2.single 3]
      (by decide) rfl (by decide)
    obtain ⟨s1, pushed, hrun⟩ := h.2 (PointCloud2.single 0).fields hflat (by decide)
    have hp := h.1 s1 pushed hrun
    exact ⟨s1, pushed, hrun, hp.1, hp.2.1, hp.2.2.2.2 rfl⟩
  · have h := C1_fifo_buffer Env.sample { Plugin.constructed with buffer_size_ := 2 }
      [PointCloud2.single 1, PointCloud2.single 2, PointCloud2.single 3,
       PointCloud2.single 4]
      (by decide) rfl (by decide)
    obtain ⟨s1, pushed, hrun⟩ := h.2 (PointCloud2.single 0).fields hflat (by decide)
    have hp := h.1 s1 pushed hrun
    exact ⟨s1, pushed, hrun, hp.1, hp.2.1, hp.2.2.2.2 rfl⟩

/-! ## C2: the number of points of the pushed scan -/

/-- The pushed scan of a message with geometry and a non-empty byte buffer has
`data.size() / point_step` points, whatever the buffer held; with an empty byte
buffer it has the points of the local `scan`, which are none unless the scan
was taken over from a full buffer. -/
theorem pushed_point_count {env : Env} {s s1 : Plugin} {msg : PointCloud2}
    (hg : msg.hasGeometry) (h : PointCloud2Callback env s msg = .ok s1) :
    ∃ sc, s1.scans_.getLast? = some sc ∧
      (msg.data ≠ [] → msg.point_step ≠ 0 ∧
        sc.points.length = msg.data.length / msg.point_step) ∧
      (msg.data = [] → sc.points = (recycle s).1.points) := by
  obtain ⟨s2, scan2, s3, scan3, h2, h3, h1⟩ := callback_with_geometry hg h
  have n := newTopic_spec h2
  have x := extract_spec h3
  subst h1
  refine ⟨scan3, List.getLast?_concat _, x.2.2.1, ?_⟩
  intro hd
  rw [x.2.2.2 hd, n.2.2.1]
  rfl

/-- C2, at the failing input: with the buffer size `1` of the constructor, the
delivery of a cloud of two points fills the buffer; the delivery of a cloud
with `x`, `y`, `z`, `point_step = 12` and an empty byte buffer then pushes a
scan that carries the stamp of the empty cloud and the two points of the
evicted scan, where `data.size() / point_step` is `0`. -/
theorem C2_stale_points_when_full :
    (PointCloud2Callback Env.sample Plugin.constructed (PointCloud2.intensity 1)).map
        Plugin.pointCounts = .ok [(1, 2)] ∧
    (PointCloud2.noPoints 2).hasGeometry ∧ (PointCloud2.noPoints 2).point_step ≠ 0 ∧
    (PointCloud2.noPoints 2).data.length / (PointCloud2.noPoints 2).point_step = 0 ∧
    (deliver Env.sample Plugin.constructed
        [PointCloud2.intensity 1, PointCloud2.noPoints 2]).map
        (fun r => r.1.pointCounts) = .ok [(2, 2)] := by
  refine ⟨by decide!, by decide, by decide, by decide, by decide!⟩

/-! ## C3: extraction does not validate the message -/

theorem readFloat_ok_bound {data : List Nat} {pos : Nat} {v : Flt}
    (h : readFloat data pos = .ok v) : pos + 4 ≤ data.length := by
  unfold readFloat readBytes at h
  by_contra hc
  simp [hc] at h

theorem extractPoints_past_end (env : Env) (data : List Nat)
    (point_step xoff yoff zoff : Nat)
    (fis : List FieldInfo) (tf : Option (TfPoint → TfPoint)) :
    ∀ (ps : List StampedPoint) (s : Plugin) (ptr i off : Nat),
      i < ps.length → off ∈ [xoff, yoff, zoff] →
      data.length < ptr + i * point_step + off + 4 →
      ∃ e, extractPoints env data point_step xoff yoff zoff fis tf s ptr ps = .error e
  | [], s, ptr, i, off, hi, _, _ => by simp at hi
  | p :: ps, s, ptr, i, off, hi, hoff, hlen => by
    unfold extractPoints
    cases hx : readFloat data (ptr + xoff) with
    | error e => exact ⟨e, rfl⟩
    | ok x =>
      cases hy : readFloat data (ptr + yoff) with
      | error e => exact ⟨e, rfl⟩
      | ok y =>
        cases hz : readFloat data (ptr + zoff) with
        | error e => exact ⟨e, rfl⟩
        | ok z =>
          have bx := readFloat_ok_bound hx
          have bY := readFloat_ok_bound hy
          have bz := readFloat_ok_bound hz
          cases i with
          | zero =>
            exfalso
            simp only [List.mem_cons, List.mem_singleton, List.not_mem_nil, or_false] at hoff
            rcases hoff with h | h | h <;> subst h <;> omega
          | succ j =>
            cases hf : readFeatures data ptr fis with
            | error e => exact ⟨e, rfl⟩
            | ok feats =>
              simp only
              cases hc : CalculateColor env s
                  { point := ⟨x.toDouble, y.toDouble, z.toDouble⟩, features := feats,
                    color := p.color,
                    transformed_point := match tf with
                      | some t => t ⟨x.toDouble, y.toDouble, z.toDouble⟩
                      | none => p.transformed_point } with
              | error e => exact ⟨e, rfl⟩
              | ok r =>
                obtain ⟨s1, c⟩ := r
                have hj : j < ps.length := by
                  simp at hi
                  omega
                have hl : data.length < ptr + point_step + j * point_step + off + 4 := by
                  have e : ptr + (j + 1) * point_step = ptr + point_step + j * point_step := by
                    ring
                  rw [← e]
                  exact hlen
                obtain ⟨e, he⟩ := extractPoints_past_end env data point_step xoff yoff zoff
                  fis tf ps s1 (ptr + point_step) j off hj hoff hl
                exact ⟨e, by simp only [he]⟩

/-- C3, as the code has it: extraction validates neither the stride nor the
offsets.  A message with an empty byte buffer yields no point and no read is
made, whatever its `point_step`; for a message with a non-empty byte buffer, a
`point_step` of zero is divided by, and a buffer too short for the `x`, `y`,
`z` offsets (a read of 4 bytes at `i * point_step + offset` passes its end for
some point `i`) ends in a fault instead of a rejection of the message. -/
theorem C3_no_validation (env : Env) (s : Plugin) (scan : Scan) (msg : PointCloud2)
    (xi yi zi : Int) (tf : Option (TfPoint → TfPoint)) :
    (msg.data = [] → extract env s scan msg xi yi zi tf = .ok (s, scan)) ∧
    (msg.data ≠ [] → msg.point_step = 0 →
      extract env s scan msg xi yi zi tf = .error .divByZero) ∧
    (msg.data ≠ [] → msg.point_step ≠ 0 →
      (∃ i off, i < msg.data.length / msg.point_step ∧
        off ∈ [fieldOffset msg xi, fieldOffset msg yi, fieldOffset msg zi] ∧
        msg.data.length < i * msg.point_step + off + 4) →
      ∃ e, extract env s scan msg xi yi zi tf = .error e) := by
  refine ⟨?_, ?_, ?_⟩
  · intro hd
    simp [extract, hd]
  · intro hd hz
    have hne : msg.data.length ≠ 0 := fun h0 => hd (List.length_eq_zero.mp h0)
    simp [extract, hne, hz]
  · intro hd hz hshort
    obtain ⟨i, off, hi, hoff, hlen⟩ := hshort
    have hne : msg.data.length ≠ 0 := fun h0 => hd (List.length_eq_zero.mp h0)
    obtain ⟨e, he⟩ := extractPoints_past_end env msg.data msg.point_step
      (fieldOffset msg xi) (fieldOffset msg yi) (fieldOffset msg zi)
      (scan.new_features.map Prod.snd) (if scan.transformed then tf else none)
      (resize scan.points (msg.data.length / msg.point_step) StampedPoint.fresh)
      s 0 i off (by rw [length_resize]; exact hi) hoff (by simpa using hlen)
    refine ⟨e, ?_⟩
    unfold extract
    simp only [hne, ne_eq, not_false_eq_true, if_true, hz, if_false, he]

/-- Witness of C3: a cloud with twelve bytes and `point_step = 0` is divided
by, and a cloud of four bytes with `y@4` is read past its end. -/
theorem C3_no_validation_witness :
    extract Env.sample Plugin.constructed Scan.fresh (PointCloud2.zeroStep 1) 0 1 2 none
      = .error .divByZero ∧
    ∃ e, extract Env.sample Plugin.constructed Scan.fresh (PointCloud2.tooShort 1) 0 1 2 none
      = .error e :=
  ⟨(C3_no_validation Env.sample Plugin.constructed Scan.fresh (PointCloud2.zeroStep 1)
      0 1 2 none).2.1 (by decide) rfl,
   (C3_no_validation Env.sample Plugin.constructed Scan.fresh (PointCloud2.tooShort 1)
      0 1 2 none).2.2 (by decide) (by decide) ⟨0, 4, by decide, by decide, by decide⟩⟩

/-- C3 fails as stated: a cloud whose four bytes are too short for `y@4` and
`z@8` is not rejected but read past the end, and a cloud with `point_step = 0`
and twelve bytes is not rejected but divided by; in neither case does the
callback return, so neither yields a scan of zero points. -/
theorem C3_counterexample :
    (PointCloud2.tooShort 1).hasGeometry ∧
    (PointCloud2.tooShort 1).data.length < 0 * (PointCloud2.tooShort 1).point_step + 4 + 4 ∧
    PointCloud2Callback Env.sample Plugin.constructed (PointCloud2.tooShort 1)
      = .error .readPastEnd ∧
    (PointCloud2.zeroStep 1).hasGeometry ∧
    PointCloud2Callback Env.sample Plugin.constructed (PointCloud2.zeroStep 1)
      = .error .divByZero := by
  refine ⟨by decide, by decide, by decide!, by decide, by decide!⟩

/-! ## C4: a message without geometry -/

/-- C4, at the failing input: with the buffer size `1` of the constructor, the
delivery of a cloud with geometry fills the buffer; the delivery of a cloud
without `z` then leaves the buffer empty, the eviction of lines 403-418 having
run before the check of line 436. -/
theorem C4_dropped_message_evicts :
    (PointCloud2Callback Env.sample Plugin.constructed (PointCloud2.intensity 1)).map
        Plugin.pointCounts = .ok [(1, 2)] ∧
    ¬ (PointCloud2.noZ 2).hasGeometry ∧
    (deliver Env.sample Plugin.constructed
        [PointCloud2.intensity 1, PointCloud2.noZ 2]).map
        (fun r => r.1.pointCounts) = .ok [] := by
  refine ⟨by decide!, by decide, by decide!⟩

/-- What the callback does with a message without geometry: below capacity
the buffer is left as it was, and a buffer at capacity loses scans at its
front until it holds `buffer_size - 1` of them. -/
theorem dropped_message_buffer (env : Env) (s : Plugin) (msg : PointCloud2)
    (hg : ¬ msg.hasGeometry) :
    ∃ s1, PointCloud2Callback env s msg = .ok s1 ∧
      (s.buffer_size_ = 0 ∨ s.scans_.length < s.buffer_size_ → s1.scans_ = s.scans_) ∧
      (0 < s.buffer_size_ →
        s1.scans_ = s.scans_.drop (s.scans_.length + 1 - s.buffer_size_)) := by
  refine ⟨_, callback_without_geometry env s msg hg, ?_, ?_⟩
  · intro hroom
    simp only
    rcases hroom with h | h
    · simp [recycle, h]
    · have hpos : 0 < s.buffer_size_ := by omega
      rw [recycle_snd s hpos]
      have e : s.scans_.length + 1 - s.buffer_size_ = 0 := by omega
      rw [e, List.drop_zero]
  · intro hpos
    simp only
    exact recycle_snd s hpos

/-! ## C5: the features of a sample -/

/-- C5, as the code has it: for a message with `x`, `y`, `z` that is delivered
while the buffer has room (so that the local `scan` starts empty), the feature
map of the pushed scan has one entry per distinct field name of the message,
the geometry fields included, in ascending order of the names, each with the
datatype and offset of the first field of that name; and the features of every
sample are the values read for these entries, in that order.  This holds
whenever the callback returns, as it does when the plugin colours Flat and the
message is well formed. -/
theorem C5_features_by_name (env : Env) (s : Plugin) (msg : PointCloud2)
    (hg : msg.hasGeometry) (hnt : s.new_topic_ = true)
    (hroom : s.buffer_size_ = 0 ∨ s.scans_.length < s.buffer_size_) :
    (∀ s1, PointCloud2Callback env s msg = .ok s1 →
      ∃ sc, s1.scans_.getLast? = some sc ∧
        (sc.new_features.map Prod.fst).Pairwise (· < ·) ∧
        (∀ name, name ∈ sc.new_features.map Prod.fst ↔ ∃ f ∈ msg.fields, f.name = name) ∧
        (∀ e ∈ sc.new_features, ∃ f, msg.fields.find? (fun f => f.name = e.1) = some f ∧
          e.2 = ⟨f.datatype, f.offset⟩) ∧
        (∀ (i : Nat) (p : StampedPoint), sc.points[i]? = some p →
          readFeatures msg.data (i * msg.point_step) (sc.new_features.map Prod.snd)
            = .ok p.features ∧
          p.features.length = sc.new_features.length)) ∧
    (s.flatOver msg.fields → msg.inBounds →
      ∃ s1, PointCloud2Callback env s msg = .ok s1) := by
  constructor
  · intro s1 h
    obtain ⟨s2, scan2, s3, scan3, h2, h3, h1⟩ := callback_with_geometry hg h
    have hnt' : ({ noteMessage s with scans_ := (recycle s).2 } : Plugin).new_topic_
        = true := by
      simp only
      rw [noteMessage_new_topic, hnt]
    have hf := newTopic_features h2 hnt'
    rw [recycle_fst_of_room s hroom] at hf
    have hf2 : scan2.new_features = insertFields msg.fields [] := hf
    have x := extract_spec h3
    have hf3 : scan3.new_features = insertFields msg.fields [] := by
      rw [x.2.1]
      exact hf2
    have spec := insertFields_spec msg.fields [] List.Pairwise.nil
    subst h1
    refine ⟨scan3, List.getLast?_concat _, ?_, ?_, ?_, ?_⟩
    · rw [hf3]
      exact spec.1
    · intro name
      rw [hf3, spec.2.1 name]
      simp
    · intro e he
      rw [hf3] at he
      rcases spec.2.2 e he with h0 | h0
      · simp at h0
      · exact h0.2
    · intro i p hp
      by_cases hd : msg.data = []
      · have hpts : scan3.points = [] := by
          rw [x.2.2.2 hd]
          have n := newTopic_spec h2
          rw [n.2.2.1, recycle_fst_of_room s hroom]
          rfl
        rw [hpts] at hp
        simp at hp
      · have hr := extract_features h3 hd i p hp
        rw [hf2, ← hf3] at hr
        refine ⟨hr, ?_⟩
        have := readFeatures_length _ _ hr
        simpa using this
  · intro hflat hb
    obtain ⟨s1, h1, _⟩ := callback_returns env s msg hflat hg hb
    exact ⟨s1, h1⟩

/-- Witness of C5: the cloud with the fields `x`, `y`, `z`, `ring`,
`intensity`, delivered to the plugin as constructed. -/
theorem C5_features_by_name_witness :
    ∃ s1 sc, PointCloud2Callback Env.sample Plugin.constructed (PointCloud2.ringIntensity 1)
        = .ok s1 ∧
      s1.scans_.getLast? = some sc ∧
      (sc.new_features.map Prod.fst).Pairwise (· < ·) ∧
      (∀ name, name ∈ sc.new_features.map Prod.fst ↔
        ∃ f ∈ (PointCloud2.ringIntensity 1).fields, f.name = name) := by
  have h := C5_features_by_name Env.sample Plugin.constructed (PointCloud2.ringIntensity 1)
    (by decide) rfl (Or.inr (by decide))
  obtain ⟨s1, hrun⟩ := h.2 ⟨rfl, rfl, by decide, by simp [Plugin.constructed]⟩ (by decide)
  obtain ⟨sc, h1, h2, h3, _, _⟩ := h.1 s1 hrun
  exact ⟨s1, sc, hrun, h1, h2, h3⟩

/-- C5 fails as stated: the cloud of the scenario has one field besides `x`,
`y`, `z`, and each of its samples gets four features, the three coordinates
among them; and of the cloud with the fields `x`, `y`, `z`, `ring`,
`intensity` the sample gets the features in the order `intensity`, `ring`,
`x`, `y`, `z`, so that feature `0` is not the first remaining field `ring`. -/
theorem C5_counterexample :
    ((PointCloud2.intensity 1).fields.filter
        (fun f => decide (f.name ∉ ["x", "y", "z"]))).map PointField.name = ["intensity"] ∧
    (PointCloud2Callback Env.sample Plugin.constructed (PointCloud2.intensity 1)).map
        Plugin.features = .ok [[[10, 1, 2, 3], [30, 1, 2, 3]]] ∧
    ((PointCloud2.ringIntensity 1).fields.filter
        (fun f => decide (f.name ∉ ["x", "y", "z"]))).map PointField.name
      = ["ring", "intensity"] ∧
    (PointCloud2Callback Env.sample Plugin.constructed (PointCloud2.ringIntensity 1)).map
        Plugin.features = .ok [[[10, 5, 1, 2, 3]]] := by
  refine ⟨by decide, by decide!, by decide, by decide!⟩

/-! ## C7: the range under auto-range -/

theorem autoRanging_of_sameButRange {s s1 : Plugin} {k : Nat}
    (h : s.sameButRange s1) (ha : s.autoRanging k) : s1.autoRanging k := by
  have e : s1 = _ := h
  unfold Plugin.autoRanging colorTransformer transformerIndex colorTransformer at *
  rw [e]
  exact ha

/-- One call of `CalculateColor` under auto-range: the running extrema of the
feature take in the raw value, and the range becomes the running extrema. -/
theorem CalculateColor_autoRanging (env : Env) (s : Plugin) (p : StampedPoint)
    (k : Nat) (val mx mn : Flt) (ha : s.autoRanging k)
    (hval : p.features[k]? = some val)
    (hmx : s.max_[k]? = some mx) (hmn : s.min_[k]? = some mn) :
    CalculateColor env s p
      = .ok ({ s with max_ := s.max_.set k (Flt.stdMax mx val),
                      min_ := s.min_.set k (Flt.stdMin mn val),
                      max_value_ := Flt.stdMax mx val, min_value_ := Flt.stdMin mn val },
             shade s (scaleValue s val)) := by
  obtain ⟨h1, h2, h3, h4, h5, h6⟩ := ha
  have hk1 : k < s.max_.length := (List.getElem?_eq_some.mp hmx).1
  have hk2 : k < s.min_.length := (List.getElem?_eq_some.mp hmn).1
  unfold CalculateColor
  simp only [h1, h2, h3, and_self, if_true, hval, h4, trackExtrema_eq s k val mx mn hmx hmn,
    h6, adoptExtrema, h5]
  simp [hk1, hk2, shade, scaleValue]

theorem colorPoints_autoRanging (env : Env) (k : Nat) :
    ∀ (pts : List StampedPoint) (s : Plugin) (mx mn : Flt),
      s.autoRanging k → s.max_[k]? = some mx → s.min_[k]? = some mn →
      (∀ p ∈ pts, k < p.features.length) →
      ∃ s1 pts1, colorPoints env s pts = .ok (s1, pts1) ∧
        s1.max_[k]? = some ((rawValues k pts).foldl Flt.stdMax mx) ∧
        s1.min_[k]? = some ((rawValues k pts).foldl Flt.stdMin mn) ∧
        (pts ≠ [] → s1.max_value_ = (rawValues k pts).foldl Flt.stdMax mx ∧
          s1.min_value_ = (rawValues k pts).foldl Flt.stdMin mn)
  | [], s, mx, mn, _, hmx, hmn, _ => by
    exact ⟨s, [], rfl, by simpa [rawValues] using hmx, by simpa [rawValues] using hmn,
      fun h => absurd rfl h⟩
  | p :: pts, s, mx, mn, ha, hmx, hmn, hf => by
    have hk : k < p.features.length := hf p (List.mem_cons_self _ _)
    have hval : p.features[k]? = some p.features[k] := List.getElem?_eq_getElem hk
    have hk1 : k < s.max_.length := (List.getElem?_eq_some.mp hmx).1
    have hk2 : k < s.min_.length := (List.getElem?_eq_some.mp hmn).1
    have hc := CalculateColor_autoRanging env s p k _ mx mn ha hval hmx hmn
    have ha2 := autoRanging_of_sameButRange (CalculateColor_frame hc) ha
    obtain ⟨s1, pts1, hr, h1, h2, h3⟩ := colorPoints_autoRanging env k pts _
      (Flt.stdMax mx p.features[k]) (Flt.stdMin mn p.features[k]) ha2
      (by simp [hk1]) (by simp [hk2])
      (fun q hq => hf q (List.mem_cons_of_mem _ hq))
    have hraw : rawValues k (p :: pts) = p.features[k] :: rawValues k pts := by
      simp [rawValues, hval]
    refine ⟨s1, { p with color := shade s (scaleValue s p.features[k]) } :: pts1,
      ?_, ?_, ?_, ?_⟩
    · simp only [colorPoints, hc, hr]
    · rw [hraw]
      exact h1
    · rw [hraw]
      exact h2
    · intro _
      rw [hraw]
      by_cases hp : pts = []
      · subst hp
        simp [colorPoints] at hr
        obtain ⟨e1, _⟩ := hr
        subst e1
        simp [rawValues]
      · exact h3 hp

theorem stdMax_not_nan {a b : Flt} (ha : a.isNaN = false) (hb : b.isNaN = false) :
    (Flt.stdMax a b).isNaN = false := by
  unfold Flt.stdMax
  split <;> assumption

theorem stdMin_not_nan {a b : Flt} (ha : a.isNaN = false) (hb : b.isNaN = false) :
    (Flt.stdMin a b).isNaN = false := by
  unfold Flt.stdMin
  split <;> assumption

theorem le_stdMax_left {a b : Flt} (ha : a.isNaN = false) : a ≤ Flt.stdMax a b := by
  unfold Flt.stdMax
  split
  · rename_i h
    exact flt_le_of_lt h
  · exact flt_le_refl ha

theorem le_stdMax_right {a b : Flt} (ha : a.isNaN = false) (hb : b.isNaN = false) :
    b ≤ Flt.stdMax a b := by
  unfold Flt.stdMax
  split
  · exact flt_le_refl hb
  · rename_i h
    exact flt_le_of_not_lt ha hb h

theorem stdMin_le_left {a b : Flt} (ha : a.isNaN = false) : Flt.stdMin a b ≤ a := by
  unfold Flt.stdMin
  split
  · rename_i h
    exact flt_le_of_lt h
  · exact flt_le_refl ha

theorem stdMin_le_right {a b : Flt} (ha : a.isNaN = false) (hb : b.isNaN = false) :
    Flt.stdMin a b ≤ b := by
  unfold Flt.stdMin
  split
  · exact flt_le_refl hb
  · rename_i h
    exact flt_le_of_not_lt hb ha h

/-- Among values none of which is a NaN, the fold of `std::max` is the greatest
of the start value and the values. -/
theorem foldl_max_isGreatest :
    ∀ (vals : List Flt) (m : Flt), m.isNaN = false → (∀ v ∈ vals, v.isNaN = false) →
      IsGreatest {v | v = m ∨ v ∈ vals} (vals.foldl Flt.stdMax m)
  | [], m, hm, _ => by
    constructor
    · simp
    · intro v hv
      simp at hv
      subst hv
      exact flt_le_refl hm
  | a :: vals, m, hm, hv => by
    have ha : a.isNaN = false := hv a (List.mem_cons_self _ _)
    have ih := foldl_max_isGreatest vals (Flt.stdMax m a) (stdMax_not_nan hm ha)
      (fun v h => hv v (List.mem_cons_of_mem _ h))
    simp only [List.foldl_cons]
    constructor
    · rcases ih.1 with h | h
      · by_cases hlt : m < a
        · right
          rw [h]
          simp [Flt.stdMax, hlt]
        · left
          rw [h]
          simp [Flt.stdMax, hlt]
      · right
        exact List.mem_cons_of_mem _ h
    · intro v hv
      rcases hv with hv | hv
      · subst hv
        exact flt_le_trans (le_stdMax_left hm) (ih.2 (Or.inl rfl))
      · rcases List.mem_cons.mp hv with hv | hv
        · subst hv
          exact flt_le_trans (le_stdMax_right hm ha) (ih.2 (Or.inl rfl))
        · exact ih.2 (Or.inr hv)

/-- Among values none of which is a NaN, the fold of `std::min` is the least of
the start value and the values. -/
theorem foldl_min_isLeast :
    ∀ (vals : List Flt) (m : Flt), m.isNaN = false → (∀ v ∈ vals, v.isNaN = false) →
      IsLeast {v | v = m ∨ v ∈ vals} (vals.foldl Flt.stdMin m)
  | [], m, hm, _ => by
    constructor
    · simp
    · intro v hv
      simp at hv
      subst hv
      exact flt_le_refl hm
  | a :: vals, m, hm, hv => by
    have ha : a.isNaN = false := hv a (List.mem_cons_self _ _)
    have ih := foldl_min_isLeast vals (Flt.stdMin m a) (stdMin_not_nan hm ha)
      (fun v h => hv v (List.mem_cons_of_mem _ h))
    simp only [List.foldl_cons]
    constructor
    · rcases ih.1 with h | h
      · by_cases hlt : a < m
        · right
          rw [h]
          simp [Flt.stdMin, hlt]
        · left
          rw [h]
          simp [Flt.stdMin, hlt]
      · right
        exact List.mem_cons_of_mem _ h
    · intro v hv
      rcases hv with hv | hv
      · subst hv
        exact flt_le_trans (ih.2 (Or.inl rfl)) (stdMin_le_left hm)
      · rcases List.mem_cons.mp hv with hv | hv
        · subst hv
          exact flt_le_trans (ih.2 (Or.inl rfl)) (stdMin_le_right hm ha)
        · exact ih.2 (Or.inr hv)

/-- The comparisons skip a NaN: the fold of `std::max` over values is the fold
over those of them that are not NaN. -/
theorem foldl_stdMax_skips_nan :
    ∀ (vals : List Flt) (m : Flt),
      vals.foldl Flt.stdMax m = (vals.filter (fun v => !v.isNaN)).foldl Flt.stdMax m
  | [], _ => rfl
  | a :: vals, m => by
    cases hn : a.isNaN
    · simp only [List.foldl_cons, List.filter_cons, hn, Bool.not_false, if_true]
      exact foldl_stdMax_skips_nan vals _
    · have e : Flt.stdMax m a = m := by
        unfold Flt.stdMax
        have : ¬ m < a := by
          intro h
          rw [(flt_not_nan_of_lt h).2] at hn
          cases hn
        simp [this]
      simp only [List.foldl_cons, List.filter_cons, hn, Bool.not_true, Bool.false_eq_true,
        if_false, e]
      exact foldl_stdMax_skips_nan vals _

theorem foldl_stdMin_skips_nan :
    ∀ (vals : List Flt) (m : Flt),
      vals.foldl Flt.stdMin m = (vals.filter (fun v => !v.isNaN)).foldl Flt.stdMin m
  | [], _ => rfl
  | a :: vals, m => by
    cases hn : a.isNaN
    · simp only [List.foldl_cons, List.filter_cons, hn, Bool.not_false, if_true]
      exact foldl_stdMin_skips_nan vals _
    · have e : Flt.stdMin m a = m := by
        unfold Flt.stdMin
        have : ¬ a < m := by
          intro h
          rw [(flt_not_nan_of_lt h).1] at hn
          cases hn
        simp [this]
      simp only [List.foldl_cons, List.filter_cons, hn, Bool.not_true, Bool.false_eq_true,
        if_false, e]
      exact foldl_stdMin_skips_nan vals _

/-- The vectors `max_` and `min_` after a reset: `TopicEdited` clears them, and
the resize of lines 458-459 fills them with zeros. -/
theorem extrema_after_reset (s : Plugin) (topic : String) (n : Nat)
    (h1 : topic ≠ s.topic_) (h2 : topic ≠ "") :
    resize (TopicEdited s topic).max_ n 0 = List.replicate n 0 ∧
    resize (TopicEdited s topic).min_ n 0 = List.replicate n 0 := by
  simp [TopicEdited, h1, h2, resize]

/-- C7, as the code has it: with auto-range on, in a feature-based mode with
RGB unpacking off, after `CalculateColor` has coloured a non-empty sequence of
samples by feature `k`, starting with the running extrema of `k` at the value
`0` that a reset gives them, `min_value_` is the smallest and `max_value_` the
largest among `0` and the raw values of feature `k` of those samples, in the
order `<=` of C++ on the floating-point values, the infinities included; a
raw value that is a NaN is skipped, as no comparison with it holds. -/
theorem C7_range_includes_zero (env : Env) (s : Plugin) (k : Nat)
    (pts : List StampedPoint)
    (hauto : s.autoRanging k)
    (hmax : s.max_[k]? = some 0) (hmin : s.min_[k]? = some 0)
    (hne : pts ≠ []) (hfeat : ∀ p ∈ pts, k < p.features.length) :
    ∃ s1 pts1, colorPoints env s pts = .ok (s1, pts1) ∧
      IsLeast {v | v = 0 ∨ (v ∈ rawValues k pts ∧ v.isNaN = false)} s1.min_value_ ∧
      IsGreatest {v | v = 0 ∨ (v ∈ rawValues k pts ∧ v.isNaN = false)} s1.max_value_ := by
  obtain ⟨s1, pts1, hr, _, _, h3⟩ :=
    colorPoints_autoRanging env k pts s 0 0 hauto hmax hmin hfeat
  have hset : {v : Flt | v = 0 ∨ (v ∈ rawValues k pts ∧ v.isNaN = false)}
      = {v : Flt | v = 0 ∨ v ∈ (rawValues k pts).filter (fun v => !v.isNaN)} := by
    ext v
    simp [List.mem_filter]
  have hf : ∀ v ∈ (rawValues k pts).filter (fun v => !v.isNaN), v.isNaN = false := by
    intro v hv
    simpa using (List.mem_filter.mp hv).2
  rw [hset]
  refine ⟨s1, pts1, hr, ?_, ?_⟩
  · rw [(h3 hne).2, foldl_stdMin_skips_nan]
    exact foldl_min_isLeast _ 0 rfl hf
  · rw [(h3 hne).1, foldl_stdMax_skips_nan]
    exact foldl_max_isGreatest _ 0 rfl hf

/-- Witness of C7: two samples with intensity `10` and `30`. -/
theorem C7_range_includes_zero_witness :
    ∃ s1 pts1, colorPoints Env.sample Plugin.autoByFirstFeature
        [StampedPoint.withFeatures [10, 1, 2, 3], StampedPoint.withFeatures [30, 1, 2, 3]]
        = .ok (s1, pts1) ∧
      IsLeast {v | v = 0 ∨ (v ∈ rawValues 0
        [StampedPoint.withFeatures [10, 1, 2, 3], StampedPoint.withFeatures [30, 1, 2, 3]] ∧
        v.isNaN = false)} s1.min_value_ ∧
      IsGreatest {v | v = 0 ∨ (v ∈ rawValues 0
        [StampedPoint.withFeatures [10, 1, 2, 3], StampedPoint.withFeatures [30, 1, 2, 3]] ∧
        v.isNaN = false)} s1.max_value_ :=
  C7_range_includes_zero Env.sample Plugin.autoByFirstFeature 0
    [StampedPoint.withFeatures [10, 1, 2, 3], StampedPoint.withFeatures [30, 1, 2, 3]]
    (by decide) (by decide!) (by decide!) (by decide) (by decide)

/-- C7 fails as stated: with auto-range on and the extrema freshly reset, two
samples with intensity `10` and `30` leave `min_value_` at `0`, not at the
smallest observed value `10`; so does the delivery of the cloud of the
scenario to a plugin that has just been given its topic. -/
theorem C7_counterexample :
    Plugin.autoByFirstFeature.autoRanging 0 ∧
    rawValues 0 [StampedPoint.withFeatures [10, 1, 2, 3],
      StampedPoint.withFeatures [30, 1, 2, 3]] = [10, 30] ∧
    (colorPoints Env.sample Plugin.autoByFirstFeature
        [StampedPoint.withFeatures [10, 1, 2, 3], StampedPoint.withFeatures [30, 1, 2, 3]]).map
      (fun r => (r.1.min_value_, r.1.max_value_)) = .ok (0, 30) ∧
    (PointCloud2Callback Env.sample Plugin.autoStart (PointCloud2.intensity 1)).map
      (fun s1 => (s1.features, s1.color_transformer.currentIndex, s1.min_value_,
        s1.max_value_))
      = .ok ([[[10, 1, 2, 3], [30, 1, 2, 3]]], 1, 0, 30) := by
  refine ⟨by decide, by decide!, by decide!, by decide!⟩

/-! ## C8: recolouring twice -/

theorem sameColoring_refl (s : Plugin) : s.sameColoring s :=
  ⟨rfl, rfl, rfl, rfl, rfl, rfl, rfl, rfl, rfl, rfl, rfl, rfl⟩

theorem fixedRange_of_sameColoring {s t : Plugin} (h : s.sameColoring t)
    (hf : s.fixedRange) : t.fixedRange := by
  obtain ⟨e1, e2, e3, e4, e5, e6, e7, e8, e9, e10, e11, e12⟩ := h
  unfold Plugin.fixedRange colorTransformer at *
  rw [e1, e2, e4, e5]
  exact hf

theorem shade_congr {s t : Plugin} (h : s.sameColoring t) (v : Flt) :
    shade t (scaleValue t v) = shade s (scaleValue s v) := by
  obtain ⟨e1, e2, e3, e4, e5, e6, e7, e8, e9, e10, e11, e12⟩ := h
  simp only [shade, scaleValue, e6, e7, e8, e9, e10]

/-- With a fixed range, a call of `CalculateColor` that succeeds keeps every
member it reads but the values of the running extrema, and it succeeds with the
same colour from every plugin that colours alike, on every sample with the
same features. -/
theorem CalculateColor_fixedRange {env : Env} {s s1 t : Plugin} {p q : StampedPoint}
    {c : QColor} (hf : s.fixedRange) (hst : s.sameColoring t)
    (hq : q.features = p.features) (h : CalculateColor env s p = .ok (s1, c)) :
    s.sameColoring s1 ∧ ∃ t1, CalculateColor env t q = .ok (t1, c) ∧ s1.sameColoring t1 := by
  have hst' := hst
  obtain ⟨e1, e2, e3, e4, e5, e6, e7, e8, e9, e10, e11, e12⟩ := hst
  have ect : colorTransformer t = colorTransformer s := by
    unfold colorTransformer
    rw [e2]
  have eti : transformerIndex t = transformerIndex s := by
    unfold transformerIndex
    rw [ect]
  by_cases hfm : 0 < s.num_of_feats_ ∧ 0 < colorTransformer s
  · cases hv : p.features[transformerIndex s]? with
    | none => simp [CalculateColor, hfm, hv] at h
    | some val =>
      by_cases hm : s.need_minmax_ = true
      · cases hmx : s.max_[transformerIndex s]? with
        | none => simp [CalculateColor, hfm, hv, hm, trackExtrema, hmx] at h
        | some mx =>
          cases hmn : s.min_[transformerIndex s]? with
          | none =>
            by_cases h1 : val > mx <;>
              simp [CalculateColor, hfm, hv, hm, trackExtrema, hmx, hmn, h1] at h
          | some mn =>
            have hk1 : transformerIndex s < t.max_.length := by
              rw [e11]
              exact (List.getElem?_eq_some.mp hmx).1
            have hk2 : transformerIndex s < t.min_.length := by
              rw [e12]
              exact (List.getElem?_eq_some.mp hmn).1
            have htx := trackExtrema_eq t (transformerIndex s) val _ _
              (List.getElem?_eq_getElem hk1) (List.getElem?_eq_getElem hk2)
            have hsx := trackExtrema_eq s (transformerIndex s) val mx mn hmx hmn
            by_cases hu : s.unpack_rgb = true
            · simp only [CalculateColor, hfm, and_self, if_true, hv, hm, hsx, hu,
                Except.ok.injEq, Prod.mk.injEq] at h
              obtain ⟨h1, h2⟩ := h
              subst h1 h2
              refine ⟨by simp [Plugin.sameColoring, hm, hu], ?_⟩
              refine ⟨{ t with
                max_ := t.max_.set (transformerIndex s) (Flt.stdMax t.max_[transformerIndex s] val),
                min_ := t.min_.set (transformerIndex s) (Flt.stdMin t.min_[transformerIndex s] val) },
                ?_, ?_⟩
              · simp only [CalculateColor, ect, eti, e1, hfm, and_self, if_true, hq, hv, e3, hm,
                  htx, e4, hu]
              · simp [Plugin.sameColoring, e1, e2, e3, e4, e5, e6, e7, e8, e9, e10, e11, e12,
                  hm, hu]
            · have ha : s.use_automaxmin = false := by
                rcases hf with h1 | h1 | h1
                · exact h1
                · exact absurd h1 hu
                · exact absurd hfm h1
              simp only [CalculateColor, hfm, and_self, if_true, hv, hm, hsx, hu,
                adoptExtrema, ha, Bool.false_eq_true, if_false,
                Except.ok.injEq, Prod.mk.injEq] at h
              obtain ⟨h1, h2⟩ := h
              subst h1 h2
              refine ⟨by simp [Plugin.sameColoring, hm, hu, ha], ?_⟩
              refine ⟨{ t with
                max_ := t.max_.set (transformerIndex s) (Flt.stdMax t.max_[transformerIndex s] val),
                min_ := t.min_.set (transformerIndex s) (Flt.stdMin t.min_[transformerIndex s] val) },
                ?_, ?_⟩
              · simp only [CalculateColor, ect, eti, e1, hfm, and_self, if_true, hq, hv, e3, hm,
                  htx, e4, hu, adoptExtrema, e5, ha, Bool.false_eq_true, if_false,
                  Except.ok.injEq, Prod.mk.injEq, true_and]
                simp only [shade, scaleValue, e6, e7, e8, e9, e10]
              · simp [Plugin.sameColoring, e1, e2, e3, e4, e5, e6, e7, e8, e9, e10, e11, e12,
                  hm, hu, ha]
      · by_cases hu : s.unpack_rgb = true
        · simp only [CalculateColor, hfm, and_self, if_true, hv, hm, hu,
            Bool.false_eq_true, if_false, Except.ok.injEq, Prod.mk.injEq] at h
          obtain ⟨h1, h2⟩ := h
          subst h1 h2
          refine ⟨sameColoring_refl s, t, ?_, hst'⟩
          simp only [CalculateColor, ect, eti, e1, hfm, and_self, if_true, hq, hv, e3, hm,
            e4, hu, Bool.false_eq_true, if_false]
        · have ha : s.use_automaxmin = false := by
            rcases hf with h1 | h1 | h1
            · exact h1
            · exact absurd h1 hu
            · exact absurd hfm h1
          simp only [CalculateColor, hfm, and_self, if_true, hv, hm, hu,
            adoptExtrema, ha, Bool.false_eq_true, if_false,
            Except.ok.injEq, Prod.mk.injEq] at h
          obtain ⟨h1, h2⟩ := h
          subst h1 h2
          refine ⟨sameColoring_refl s, t, ?_, hst'⟩
          simp only [CalculateColor, ect, eti, e1, hfm, and_self, if_true, hq, hv, e3, hm,
            e4, hu, adoptExtrema, e5, ha, Bool.false_eq_true, if_false,
            Except.ok.injEq, Prod.mk.injEq, true_and]
          simp only [shade, scaleValue, e6, e7, e8, e9, e10]
  · simp only [CalculateColor, hfm, if_false, Except.ok.injEq, Prod.mk.injEq] at h
    obtain ⟨h1, h2⟩ := h
    subst h1 h2
    refine ⟨sameColoring_refl s, t, ?_, hst'⟩
    simp only [CalculateColor, ect, e1, hfm, if_false, e7]

theorem sameColoring_trans {a b c : Plugin} (h1 : a.sameColoring b)
    (h2 : b.sameColoring c) : a.sameColoring c := by
  obtain ⟨a1, a2, a3, a4, a5, a6, a7, a8, a9, a10, a11, a12⟩ := h1
  obtain ⟨b1, b2, b3, b4, b5, b6, b7, b8, b9, b10, b11, b12⟩ := h2
  exact ⟨b1.trans a1, b2.trans a2, b3.trans a3, b4.trans a4, b5.trans a5, b6.trans a6,
    b7.trans a7, b8.trans a8, b9.trans a9, b10.trans a10, b11.trans a11, b12.trans a12⟩

theorem colorPoints_fixedRange {env : Env} :
    ∀ (ps : List StampedPoint) (s s1 t : Plugin) (ps1 : List StampedPoint),
      s.fixedRange → s.sameColoring t → colorPoints env s ps = .ok (s1, ps1) →
      s.sameColoring s1 ∧
        ∃ t1, colorPoints env t ps1 = .ok (t1, ps1) ∧ s1.sameColoring t1
  | [], s, s1, t, ps1, _, hst, h => by
    simp [colorPoints] at h
    obtain ⟨h1, h2⟩ := h
    subst h1 h2
    exact ⟨sameColoring_refl s, t, rfl, hst⟩
  | p :: ps, s, s1, t, ps1, hf, hst, h => by
    cases hc : CalculateColor env s p with
    | error e => simp [colorPoints, hc] at h
    | ok r =>
      obtain ⟨s2, c⟩ := r
      cases hr : colorPoints env s2 ps with
      | error e => simp [colorPoints, hc, hr] at h
      | ok r2 =>
        obtain ⟨s3, ps3⟩ := r2
        simp [colorPoints, hc, hr] at h
        obtain ⟨h1, h2⟩ := h
        subst h1 h2
        obtain ⟨k1, t2, ht2, k2⟩ :=
          @CalculateColor_fixedRange env s s2 t p { p with color := c } c hf hst rfl hc
        obtain ⟨k3, t3, ht3, k4⟩ := colorPoints_fixedRange ps s2 s3 t2 ps3
          (fixedRange_of_sameColoring k1 hf) k2 hr
        refine ⟨sameColoring_trans k1 k3, t3, ?_, k4⟩
        simp only [colorPoints, ht2, ht3]

theorem colorScans_fixedRange {env : Env} :
    ∀ (scs : List Scan) (s s1 t : Plugin) (scs1 : List Scan),
      s.fixedRange → s.sameColoring t → colorScans env s scs = .ok (s1, scs1) →
      s.sameColoring s1 ∧
        ∃ t1, colorScans env t scs1 = .ok (t1, scs1) ∧ s1.sameColoring t1
  | [], s, s1, t, scs1, _, hst, h => by
    simp [colorScans] at h
    obtain ⟨h1, h2⟩ := h
    subst h1 h2
    exact ⟨sameColoring_refl s, t, rfl, hst⟩
  | sc :: scs, s, s1, t, scs1, hf, hst, h => by
    cases hc : colorPoints env s sc.points with
    | error e => simp [colorScans, hc] at h
    | ok r =>
      obtain ⟨s2, pts⟩ := r
      cases hr : colorScans env s2 scs with
      | error e => simp [colorScans, hc, hr] at h
      | ok r2 =>
        obtain ⟨s3, scs3⟩ := r2
        simp [colorScans, hc, hr] at h
        obtain ⟨h1, h2⟩ := h
        subst h1 h2
        obtain ⟨k1, t2, ht2, k2⟩ := colorPoints_fixedRange sc.points s s2 t pts hf hst hc
        obtain ⟨k3, t3, ht3, k4⟩ := colorScans_fixedRange scs s2 s3 t2 scs3
          (fixedRange_of_sameColoring k1 hf) k2 hr
        refine ⟨sameColoring_trans k1 k3, t3, ?_, k4⟩
        simp only [colorScans, ht2, ht3]

/-- C8, as the code has it: when the colours do not feed on the running extrema
(auto-range off, or RGB unpacking on, or Flat mode), a second recolouring pass
right after a first one succeeds and leaves every buffered scan, and so the
colour of every buffered sample, as the first pass left it. -/
theorem C8_recolor_twice_fixed_range (env : Env) (s s1 : Plugin)
    (hfixed : s.fixedRange) (hfirst : UpdateColors env s = .ok s1) :
    ∃ s2, UpdateColors env s1 = .ok s2 ∧ s2.scans_ = s1.scans_ := by
  unfold UpdateColors at hfirst
  cases hc : colorScans env s s.scans_ with
  | error e => simp [hc] at hfirst
  | ok r =>
    obtain ⟨s', scs⟩ := r
    simp [hc] at hfirst
    subst hfirst
    have hst : s.sameColoring { s' with scans_ := scs } := by
      obtain ⟨k1, _⟩ := colorScans_fixedRange s.scans_ s s' s scs hfixed
        (sameColoring_refl s) hc
      exact k1
    obtain ⟨_, t1, ht1, _⟩ := colorScans_fixedRange s.scans_ s s' _ scs hfixed hst hc
    refine ⟨{ t1 with scans_ := scs }, ?_, rfl⟩
    simp only [UpdateColors, ht1]

/-- Witness of C8: the plugin that buffers the cloud of the scenario and
colours it by intensity with auto-range off. -/
theorem C8_recolor_twice_fixed_range_witness :
    Plugin.afterIntensity.fixedRange ∧
    ∃ s1 s2, UpdateColors Env.sample Plugin.afterIntensity = .ok s1 ∧
      UpdateColors Env.sample s1 = .ok s2 ∧ s2.scans_ = s1.scans_ := by
  refine ⟨by decide!, ?_⟩
  cases hrun : UpdateColors Env.sample Plugin.afterIntensity with
  | error e =>
    have hok : (UpdateColors Env.sample Plugin.afterIntensity).toBool = true := by decide!
    rw [hrun] at hok
    cases hok
  | ok s1 =>
    obtain ⟨s2, h2, h3⟩ := C8_recolor_twice_fixed_range Env.sample Plugin.afterIntensity s1
      (by decide!) hrun
    exact ⟨s1, s2, rfl, h2, h3⟩

/-- C8 fails as stated: the plugin buffers the two samples of the scenario
(intensity `10` and `30`) coloured by intensity over the range `[0, 100]`; once
the auto-range box is checked, a first recolouring pass gives the first sample
the colour of `10 / 100` (the `float` `0.1f`, channel `229`), and a second pass
right after it the colour of `10 / 30` (the `float` nearest to `1/3`, channel
`169`). -/
theorem C8_counterexample :
    PointCloud2Callback Env.sample Plugin.loaded (PointCloud2.intensity 1)
      = .ok Plugin.afterIntensity ∧
    Plugin.afterIntensity.features = [[[10, 1, 2, 3], [30, 1, 2, 3]]] ∧
    (UpdateColors Env.sample Plugin.afterIntensityAuto).map Plugin.colors
      = .ok [[QColor.rgb 229 229 229 255, QColor.rgb 0 0 0 255]] ∧
    ((UpdateColors Env.sample Plugin.afterIntensityAuto).bind
        (UpdateColors Env.sample)).map Plugin.colors
      = .ok [[QColor.rgb 169 169 169 255, QColor.rgb 0 0 0 255]] := by
  refine ⟨by decide!, by decide!, by decide!, by decide!⟩

/-! ## C6: the scaled value -/

/-- C6, as the code has it: in a feature-based mode with auto-range off and RGB
unpacking off, `CalculateColor` raises no error, changes nothing in the plugin,
and shades the sample by a finite value `t` between `0` and `1`.  When
`max_value > min_value`, `t` is `std::max(0.0f, std::min(q, 1.0f))` for the
`float` `q` nearest to the quotient of `raw - min_value` by
`max_value - min_value`, the differences and the quotient being those of
`double` arithmetic; otherwise (`max_value <= min_value`, or one of them a
NaN) it is `std::max(0.0f, std::min(raw, 1.0f))`.  A raw NaN is shaded by `0`
in both cases.  For finite `raw`, `min_value` and `max_value` with
`|raw - min_value| <= 2 ^ 1000` and `2 ^ -1000 <= max_value - min_value <= 2 ^ 1000`,
`t` is the clamp of the `float` nearest to the `double` nearest to the quotient
of the `double`s nearest to the two differences, and it lies within `2 ^ -22` of
`clamp((raw - min_value) / (max_value - min_value), 0, 1)`. -/
theorem C6_normalized_value (env : Env) (s : Plugin) (point : StampedPoint) (raw : Flt)
    (hfeats : 0 < s.num_of_feats_) (hmode : 0 < colorTransformer s)
    (hraw : point.features[transformerIndex s]? = some raw)
    (hauto : s.use_automaxmin = false) (hminmax : s.need_minmax_ = false)
    (hunpack : s.unpack_rgb = false) :
    (∃ t : ℚ, 0 ≤ t ∧ t ≤ 1 ∧ scaleValue s raw = Flt.fin t ∧
      CalculateColor env s point = .ok (s, shade s (Flt.fin t))) ∧
    (s.min_value_ < s.max_value_ →
      scaleValue s raw = Flt.stdMax 0 (Flt.stdMin
        (Flt.toFloat (Flt.div binary64 (Flt.sub binary64 raw.toDouble s.min_value_)
          (Flt.sub binary64 s.max_value_ s.min_value_))) 1)) ∧
    (¬ s.min_value_ < s.max_value_ →
      scaleValue s raw = Flt.stdMax 0 (Flt.stdMin raw 1)) ∧
    (raw.isNaN = true → scaleValue s raw = 0) ∧
    (∀ r a b : ℚ, raw = Flt.fin r → s.min_value_ = Flt.fin a → s.max_value_ = Flt.fin b →
      |r - a| ≤ pow2 1000 → pow2 (-1000) ≤ b - a → b - a ≤ pow2 1000 →
      ∃ t : ℚ, scaleValue s raw = Flt.fin t ∧
        t = max 0 (min (binary32.nearest (binary64.nearest
          (binary64.nearest (r - a) / binary64.nearest (b - a)))) 1) ∧
        |t - max 0 (min ((r - a) / (b - a)) 1)| ≤ 1 / 4194304) := by
  have hc : CalculateColor env s point = .ok (s, shade s (scaleValue s raw)) := by
    simp [CalculateColor, hfeats, hmode, hraw, hauto, hminmax, hunpack, adoptExtrema]
  refine ⟨?_, ?_, ?_, scaleValue_nan s raw, ?_⟩
  · obtain ⟨t, h1, h2, h3⟩ := clamp_fin (if s.max_value_ > s.min_value_
      then Flt.toFloat (Flt.div binary64 (Flt.sub binary64 raw.toDouble s.min_value_)
        (Flt.sub binary64 s.max_value_ s.min_value_))
      else raw)
    have e : scaleValue s raw = Flt.fin t := h1
    exact ⟨t, h2, h3, e, by rw [hc, e]⟩
  · intro h
    have h' : s.max_value_ > s.min_value_ := h
    simp only [scaleValue, h', if_true]
  · intro h
    have h' : ¬ s.max_value_ > s.min_value_ := h
    simp only [scaleValue, h', if_false]
  · intro r a b hr ha hb h1 h2 h3
    subst hr
    obtain ⟨t, e1, e2⟩ := scaleValue_near s r a b ha hb h1 h2 h3
    refine ⟨t, e1, ?_, e2⟩
    have e3 := scaleValue_finite s r a b ha hb h1 h2 h3
    rw [e1] at e3
    injection e3

/-- Witness of C6: the scenario of the specification.  Two samples with
intensity `10` and `30`, coloured by intensity with the range `[0, 40]`, are
shaded by `1/4` and `3/4`, which are `float`s. -/
theorem C6_normalized_value_witness :
    (Plugin.byFirstFeature.min_value_ < Plugin.byFirstFeature.max_value_) ∧
    scaleValue Plugin.byFirstFeature 10 = Flt.fin (1 / 4) ∧
    scaleValue Plugin.byFirstFeature 30 = Flt.fin (3 / 4) ∧
    (∃ t : ℚ, 0 ≤ t ∧ t ≤ 1 ∧ scaleValue Plugin.byFirstFeature 10 = Flt.fin t ∧
      CalculateColor Env.sample Plugin.byFirstFeature (StampedPoint.withFeatures [10, 1, 2, 3])
        = .ok (Plugin.byFirstFeature, shade Plugin.byFirstFeature (Flt.fin t))) ∧
    (∃ t : ℚ, scaleValue Plugin.byFirstFeature 8 = Flt.fin t ∧
      t = max 0 (min (binary32.nearest (binary64.nearest
        (binary64.nearest (8 - 0) / binary64.nearest (40 - 0)))) 1) ∧
      |t - max 0 (min ((8 - 0) / (40 - 0)) 1)| ≤ 1 / 4194304) := by
  have hlt : Plugin.byFirstFeature.min_value_ < Plugin.byFirstFeature.max_value_ := by decide!
  have h := C6_normalized_value Env.sample Plugin.byFirstFeature
    (StampedPoint.withFeatures [10, 1, 2, 3]) 10 (by decide) (by decide) (by decide!)
    rfl rfl rfl
  have h30 := (C6_normalized_value Env.sample Plugin.byFirstFeature
    (StampedPoint.withFeatures [30, 1, 2, 3]) 30 (by decide) (by decide) (by decide!)
    rfl rfl rfl).2.1 hlt
  have h8 := (C6_normalized_value Env.sample Plugin.byFirstFeature
    (StampedPoint.withFeatures [8, 1, 2, 3]) 8 (by decide) (by decide) (by decide!)
    rfl rfl rfl).2.2.2.2 8 0 40 (by decide!) (by decide!) (by decide!) (by decide!)
    (by decide!) (by decide!)
  refine ⟨hlt, ?_, ?_, h.1, h8⟩
  · rw [h.2.1 hlt]
    decide!
  · rw [h30]
    decide!

/-- C6 fails as stated: with the range `[0, 40]` a sample of raw value `8` is
not shaded by `clamp((8 - 0) / (40 - 0), 0, 1) = 1/5` but by the `float`
nearest to it, `13421773 / 67108864`; with the gradient of the constructor its
colour has the channels `203`, where `1/5` would give
`(1 - 1/5) * 255 = 204`. -/
theorem C6_counterexample :
    Plugin.byFirstFeature.min_value_ = 0 ∧ Plugin.byFirstFeature.max_value_ = 40 ∧
    Plugin.byFirstFeature.use_automaxmin = false ∧
    Plugin.byFirstFeature.unpack_rgb = false ∧
    max 0 (min (((8 : ℚ) - 0) / (40 - 0)) 1) = 1 / 5 ∧
    scaleValue Plugin.byFirstFeature 8 = Flt.fin (13421773 / 67108864) ∧
    (13421773 / 67108864 : ℚ) ≠ 1 / 5 ∧
    CalculateColor Env.sample Plugin.byFirstFeature (StampedPoint.withFeatures [8, 1, 2, 3])
      = .ok (Plugin.byFirstFeature, QColor.rgb 203 203 203 255) ∧
    truncInt ((1 / 5 : ℚ) * 0 + (1 - 1 / 5) * 255) = 204 := by
  refine ⟨rfl, rfl, rfl, rfl, by norm_num, by decide!, by norm_num, by decide!, by decide!⟩

/-- The scenario of C6 from the bytes of the message: the cloud with
`point_step = 16` and the intensities `10.0` and `30.0`, delivered to a plugin
that colours by intensity over the range `[0, 40]`, yields two samples whose
colours are the shades of `1/4` and `3/4`. -/
theorem scenario_intensity_from_bytes :
    (PointCloud2Callback Env.sample { Plugin.loaded with max_value_ := 40 }
        (PointCloud2.intensity 1)).map (fun s => s.color_transformer)
      = .ok ⟨["Flat Color", "intensity", "x", "y", "z"], 1⟩ ∧
    (PointCloud2Callback Env.sample { Plugin.loaded with max_value_ := 40 }
        (PointCloud2.intensity 1)).map Plugin.features
      = .ok [[[10, 1, 2, 3], [30, 1, 2, 3]]] ∧
    (PointCloud2Callback Env.sample { Plugin.loaded with max_value_ := 40 }
        (PointCloud2.intensity 1)).map Plugin.colors
      = .ok [[shade Plugin.byFirstFeature (Flt.fin (1 / 4)),
              shade Plugin.byFirstFeature (Flt.fin (3 / 4))]] ∧
    shade Plugin.byFirstFeature (Flt.fin (1 / 4)) = QColor.rgb 191 191 191 255 ∧
    shade Plugin.byFirstFeature (Flt.fin (3 / 4)) = QColor.rgb 63 63 63 255 := by
  refine ⟨by decide!, by decide!, by decide!, by decide!, by decide!⟩

/-! ## C9: the gradient -/

theorem gradientValue_of_channel (t : ℚ) (M m : Int) (ht0 : 0 ≤ t) (ht1 : t ≤ 1)
    (hM : 0 ≤ M ∧ M ≤ 255) (hm : 0 ≤ m ∧ m ≤ 255) :
    gradientValue t M m (gradientChannel (Flt.fin t) M m) := by
  obtain ⟨r1, r2, r3⟩ := gradientChannel_range t M m ht0 ht1 hM.1 hM.2 hm.1 hm.2
  refine ⟨gradientChannel_eq t M m ht0 ht1 hM.1 hM.2 hm.1 hm.2, ⟨r1, r2⟩, r3, ?_, ?_⟩
  · intro h
    rw [h]
    exact (gradientChannel_ends M m hM.1 hM.2 hm.1 hm.2).1
  · intro h
    rw [h]
    exact (gradientChannel_ends M m hM.1 hM.2 hm.1 hm.2).2

/-- C9, as the code has it: in gradient mode (a feature is selected, rainbow and
RGB unpacking are off; when the extrema are tracked or adopted they cover the
feature) `CalculateColor` returns, for the scaled value `t` of the sample, a
finite value in `[0, 1]`, a colour of opacity `255` each of whose channels is
the truncation of `t * max_channel + (1 - t) * min_channel` as `float` and
`double` arithmetic rounds that sum: it is the truncation of the exact sum or
one off, it is the channel of the minimum colour for `t = 0`, and that of the
maximum colour for `t = 1`. -/
theorem C9_gradient (env : Env) (s : Plugin) (point : StampedPoint) (raw : Flt)
    (hfeats : 0 < s.num_of_feats_) (hmode : 0 < colorTransformer s)
    (hraw : point.features[transformerIndex s]? = some raw)
    (hext : s.need_minmax_ = true ∨ s.use_automaxmin = true →
      transformerIndex s < s.max_.length ∧ transformerIndex s < s.min_.length)
    (hrainbow : s.use_rainbow = false) (hunpack : s.unpack_rgb = false)
    (hmax : s.max_color.inRange) (hmin : s.min_color.inRange) :
    ∃ (t : ℚ) (s1 : Plugin) (r g b : Int),
      scaleValue s raw = Flt.fin t ∧ 0 ≤ t ∧ t ≤ 1 ∧
      CalculateColor env s point = .ok (s1, QColor.rgb r g b 255) ∧
      gradientValue t s.max_color.red s.min_color.red r ∧
      gradientValue t s.max_color.green s.min_color.green g ∧
      gradientValue t s.max_color.blue s.min_color.blue b := by
  obtain ⟨s1, hc⟩ := CalculateColor_shade env s point raw hfeats hmode hraw hext hunpack
  obtain ⟨t, h1, h2, h3⟩ := clamp_fin (if s.max_value_ > s.min_value_
    then Flt.toFloat (Flt.div binary64 (Flt.sub binary64 raw.toDouble s.min_value_)
      (Flt.sub binary64 s.max_value_ s.min_value_))
    else raw)
  have e : scaleValue s raw = Flt.fin t := h1
  refine ⟨t, s1, _, _, _, e, h2, h3, ?_,
    gradientValue_of_channel t _ _ h2 h3 hmax.1 hmin.1,
    gradientValue_of_channel t _ _ h2 h3 hmax.2.1 hmin.2.1,
    gradientValue_of_channel t _ _ h2 h3 hmax.2.2 hmin.2.2⟩
  rw [hc, e]
  simp [shade, hrainbow]

/-- Witness of C9: with the gradient of the constructor (white to black) and
the range `[0, 40]`, a sample of raw value `8`; and the colours of the raw
values `0` and `40`, which are the minimum and the maximum colour. -/
theorem C9_gradient_witness :
    (∃ (t : ℚ) (s1 : Plugin) (r g b : Int),
      scaleValue Plugin.byFirstFeature 8 = Flt.fin t ∧ 0 ≤ t ∧ t ≤ 1 ∧
      CalculateColor Env.sample Plugin.byFirstFeature (StampedPoint.withFeatures [8, 1, 2, 3])
        = .ok (s1, QColor.rgb r g b 255) ∧
      gradientValue t Plugin.byFirstFeature.max_color.red
        Plugin.byFirstFeature.min_color.red r ∧
      gradientValue t Plugin.byFirstFeature.max_color.green
        Plugin.byFirstFeature.min_color.green g ∧
      gradientValue t Plugin.byFirstFeature.max_color.blue
        Plugin.byFirstFeature.min_color.blue b) ∧
    CalculateColor Env.sample Plugin.byFirstFeature (StampedPoint.withFeatures [0, 1, 2, 3])
      = .ok (Plugin.byFirstFeature, QColor.rgb 255 255 255 255) ∧
    CalculateColor Env.sample Plugin.byFirstFeature (StampedPoint.withFeatures [40, 1, 2, 3])
      = .ok (Plugin.byFirstFeature, QColor.rgb 0 0 0 255) :=
  ⟨C9_gradient Env.sample Plugin.byFirstFeature (StampedPoint.withFeatures [8, 1, 2, 3])
      8 (by decide) (by decide) (by decide!) (by decide) rfl rfl (by decide) (by decide),
   by decide!, by decide!⟩

/-- C9 fails as stated: with both button colours white and the range `[0, 40]`,
a sample of raw value `8` is scaled to the `float` `t = 13421773 / 67108864`,
and each channel is `254`, where the truncation of
`t * 255 + (1 - t) * 255 = 255` is `255`: the `float` product `t * 255` rounds
to `51`, and the sum with `(1 - t) * 255` stays below `255`. -/
theorem C9_counterexample :
    Plugin.whiteGradient.use_rainbow = false ∧ Plugin.whiteGradient.unpack_rgb = false ∧
    Plugin.whiteGradient.max_color = ⟨255, 255, 255, 255⟩ ∧
    Plugin.whiteGradient.min_color = ⟨255, 255, 255, 255⟩ ∧
    scaleValue Plugin.whiteGradient 8 = Flt.fin (13421773 / 67108864) ∧
    CalculateColor Env.sample Plugin.whiteGradient (StampedPoint.withFeatures [8, 1, 2, 3])
      = .ok (Plugin.whiteGradient, QColor.rgb 254 254 254 255) ∧
    truncInt ((13421773 / 67108864 : ℚ) * 255 + (1 - 13421773 / 67108864) * 255) = 255 ∧
    Flt.mul binary32 (Flt.fin (13421773 / 67108864)) (Flt.ofInt binary32 255) = Flt.fin 51 := by
  refine ⟨rfl, rfl, rfl, rfl, by decide!, by decide!, by decide!, by decide!⟩

/-! ## C10: the flat colour -/

/-- C10: with the colour selector on Flat (index `0`), `CalculateColor` returns
the colour of the minimum-colour button for every sample, whatever its
features (an empty feature sequence included) and whatever the settings of
auto-range, rainbow, unpacking and the value range, and it returns the plugin
unchanged, the running extrema and the value range with it. -/
theorem C10_flat_color (env : Env) (s : Plugin) (point : StampedPoint)
    (hflat : s.color_transformer.currentIndex = 0) :
    CalculateColor env s point = .ok (s, s.min_color.color) := by
  simp [CalculateColor, colorTransformer, toUnsigned, hflat]

/-- Witness of C10: the plugin as constructed and a sample without features. -/
theorem C10_flat_color_witness :
    Plugin.constructed.color_transformer.currentIndex = 0 ∧
    CalculateColor Env.sample Plugin.constructed StampedPoint.fresh
      = .ok (Plugin.constructed, QColor.rgb 255 255 255 255) :=
  ⟨rfl, C10_flat_color Env.sample Plugin.constructed StampedPoint.fresh rfl⟩

/-! ## C13: a change of the buffer size -/

theorem popFrontAbove_eq_drop (n : Nat) :
    ∀ l : List Scan, popFrontAbove n l = l.drop (l.length - n)
  | [] => by simp [popFrontAbove]
  | sc :: rest => by
    unfold popFrontAbove
    split
    · rename_i hlt
      rw [popFrontAbove_eq_drop n rest]
      have e : (sc :: rest).length - n = (rest.length - n) + 1 := by
        simp at hlt ⊢
        omega
      rw [e, List.drop_succ_cons]
    · rename_i hlt
      have e : (sc :: rest).length - n = 0 := by
        simp at hlt ⊢
        omega
      rw [e, List.drop_zero]

/-- C13: for every buffer `b` and every new capacity `n >= 1`, after
`BufferSizeChanged(n)` the buffer is `b` without its first
`|b| - min(|b|, n)` scans, so the last `min(|b|, n)` scans of `b` in their
order and as they were: nothing leaves when `|b| <= n`, and exactly the
`|b| - n` oldest scans leave when `|b| > n`. -/
theorem C13_resize_keeps_last (s : Plugin) (n : Nat) (hn : 1 ≤ n) :
    (BufferSizeChanged s n).scans_
      = s.scans_.drop (s.scans_.length - min s.scans_.length n) ∧
    (BufferSizeChanged s n).scans_.length = min s.scans_.length n ∧
    (s.scans_.length ≤ n → (BufferSizeChanged s n).scans_ = s.scans_) ∧
    (n < s.scans_.length →
      (BufferSizeChanged s n).scans_ = s.scans_.drop (s.scans_.length - n) ∧
      (BufferSizeChanged s n).scans_.length = n) ∧
    (BufferSizeChanged s n).buffer_size_ = n := by
  have hpos : 0 < n := hn
  have h : (BufferSizeChanged s n).scans_ = s.scans_.drop (s.scans_.length - n) := by
    simp [BufferSizeChanged, hpos, popFrontAbove_eq_drop]
  have hb : (BufferSizeChanged s n).buffer_size_ = n := by
    simp [BufferSizeChanged, hpos]
  have e : s.scans_.length - min s.scans_.length n = s.scans_.length - n := by omega
  refine ⟨by rw [e]; exact h, ?_, ?_, ?_, hb⟩
  · rw [h, List.length_drop]
    omega
  · intro hle
    rw [h]
    have e0 : s.scans_.length - n = 0 := by omega
    rw [e0, List.drop_zero]
  · intro hlt
    refine ⟨h, ?_⟩
    rw [h, List.length_drop]
    omega

/-- Witness of C13: a buffer of three scans and the new capacity two. -/
theorem C13_resize_keeps_last_witness :
    (BufferSizeChanged Plugin.threeScans 2).scans_ = [Scan.stamped 2, Scan.stamped 3] ∧
    (BufferSizeChanged Plugin.threeScans 2).scans_.length = 2 :=
  ⟨(C13_resize_keeps_last Plugin.threeScans 2 (by decide)).1,
   (C13_resize_keeps_last Plugin.threeScans 2 (by decide)).2.1⟩

/-! ## C11: the running extrema only widen -/

theorem extremaWiden_refl (a : List Flt × List Flt) : extremaWiden a a :=
  ⟨rfl, rfl, fun _ => ⟨fun x hx => ⟨x, hx, Or.inl rfl⟩, fun x hx => ⟨x, hx, Or.inl rfl⟩⟩⟩

theorem extremaWiden_trans {a b c : List Flt × List Flt}
    (h1 : extremaWiden a b) (h2 : extremaWiden b c) : extremaWiden a c := by
  refine ⟨h2.1.trans h1.1, h2.2.1.trans h1.2.1, fun k => ⟨?_, ?_⟩⟩
  · intro x hx
    obtain ⟨y, hy, hxy⟩ := (h1.2.2 k).1 x hx
    obtain ⟨z, hz, hyz⟩ := (h2.2.2 k).1 y hy
    refine ⟨z, hz, ?_⟩
    rcases hxy with e1 | l1 <;> rcases hyz with e2 | l2
    · exact Or.inl (e2.trans e1)
    · exact Or.inr (e1 ▸ l2)
    · exact Or.inr (e2 ▸ l1)
    · exact Or.inr (flt_lt_trans l1 l2)
  · intro x hx
    obtain ⟨y, hy, hxy⟩ := (h1.2.2 k).2 x hx
    obtain ⟨z, hz, hyz⟩ := (h2.2.2 k).2 y hy
    refine ⟨z, hz, ?_⟩
    rcases hxy with e1 | l1 <;> rcases hyz with e2 | l2
    · exact Or.inl (e2.trans e1)
    · exact Or.inr (e1 ▸ l2)
    · exact Or.inr (e2 ▸ l1)
    · exact Or.inr (flt_lt_trans l2 l1)

theorem trackExtrema_widens {s s1 : Plugin} {i : Nat} {val : Flt}
    (h : trackExtrema s i val = .ok s1) : extremaWiden s.extrema s1.extrema := by
  cases hmx : s.max_[i]? with
  | none => simp [trackExtrema, hmx] at h
  | some mx =>
    cases hmn : s.min_[i]? with
    | none =>
      by_cases h1 : val > mx <;> simp [trackExtrema, hmx, hmn, h1] at h
    | some mn =>
      rw [trackExtrema_eq s i val mx mn hmx hmn] at h
      injection h with h
      subst h
      refine ⟨by simp [Plugin.extrema], by simp [Plugin.extrema], fun k => ⟨?_, ?_⟩⟩
      · intro x hx
        simp only [Plugin.extrema] at hx ⊢
        by_cases hk : i = k
        · subst hk
          rw [hmx] at hx
          injection hx with hx
          subst hx
          have hi : i < s.max_.length := (List.getElem?_eq_some.mp hmx).1
          refine ⟨Flt.stdMax mx val, by simp [hi], ?_⟩
          unfold Flt.stdMax
          split
          · rename_i hlt
            exact Or.inr hlt
          · exact Or.inl rfl
        · exact ⟨x, by rw [List.getElem?_set_ne hk]; exact hx, Or.inl rfl⟩
      · intro x hx
        simp only [Plugin.extrema] at hx ⊢
        by_cases hk : i = k
        · subst hk
          rw [hmn] at hx
          injection hx with hx
          subst hx
          have hi : i < s.min_.length := (List.getElem?_eq_some.mp hmn).1
          refine ⟨Flt.stdMin mn val, by simp [hi], ?_⟩
          unfold Flt.stdMin
          split
          · rename_i hlt
            exact Or.inr hlt
          · exact Or.inl rfl
        · exact ⟨x, by rw [List.getElem?_set_ne hk]; exact hx, Or.inl rfl⟩

theorem adoptExtrema_extrema {s s1 : Plugin} {i : Nat}
    (h : adoptExtrema s i = .ok s1) : s1.extrema = s.extrema := by
  unfold adoptExtrema at h
  split at h
  · split at h
    · injection h with h
      subst h
      rfl
    · cases h
  · injection h with h
    subst h
    rfl

/-- One call of `CalculateColor` widens the running extrema. -/
theorem CalculateColor_widens {env : Env} {s s1 : Plugin} {p : StampedPoint} {c : QColor}
    (h : CalculateColor env s p = .ok (s1, c)) : extremaWiden s.extrema s1.extrema := by
  unfold CalculateColor at h
  simp only at h
  split at h
  · split at h
    · cases h
    · split at h
      · cases h
      · rename_i s2 h2
        have f2 : extremaWiden s.extrema s2.extrema := by
          split at h2
          · exact trackExtrema_widens h2
          · injection h2 with h2
            subst h2
            exact extremaWiden_refl _
        split at h
        · injection h with h
          injection h with h3 h4
          subst h3
          exact f2
        · split at h
          · cases h
          · rename_i s3 h3
            injection h with h
            injection h with h5 h6
            subst h5
            rw [adoptExtrema_extrema h3]
            exact f2
  · injection h with h
    injection h with h1 h2
    subst h1
    exact extremaWiden_refl _

theorem colorCalls_chain {env : Env} :
    ∀ (calls : List (Plugin × StampedPoint)) (e : List Flt × List Flt)
      (tr : List (List Flt × List Flt)),
      colorCalls env e calls = .ok tr → List.Chain extremaWiden e tr
  | [], e, tr, h => by
    simp [colorCalls] at h
    subst h
    exact List.Chain.nil
  | (cfg, p) :: rest, e, tr, h => by
    unfold colorCalls at h
    split at h
    · cases h
    · rename_i s1 c hc
      split at h
      · cases h
      · rename_i tr1 hr
        injection h with h
        subst h
        have w := CalculateColor_widens hc
        exact List.Chain.cons w (colorCalls_chain rest _ tr1 hr)

theorem tracks_refl (s : Plugin) : s.tracks s :=
  ⟨extremaWiden_refl _, rfl⟩

theorem tracks_trans {a b c : Plugin} (h1 : a.tracks b) (h2 : b.tracks c) : a.tracks c :=
  ⟨extremaWiden_trans h1.1 h2.1, h2.2.trans h1.2⟩

theorem colorPoints_widens {env : Env} :
    ∀ (ps : List StampedPoint) (s s1 : Plugin) (ps1 : List StampedPoint),
      colorPoints env s ps = .ok (s1, ps1) → extremaWiden s.extrema s1.extrema
  | [], s, s1, ps1, h => by
    simp [colorPoints] at h
    obtain ⟨h1, h2⟩ := h
    subst h1 h2
    exact extremaWiden_refl _
  | p :: ps, s, s1, ps1, h => by
    cases hc : CalculateColor env s p with
    | error e => simp [colorPoints, hc] at h
    | ok r =>
      obtain ⟨s2, c⟩ := r
      cases hr : colorPoints env s2 ps with
      | error e => simp [colorPoints, hc, hr] at h
      | ok r2 =>
        obtain ⟨s3, ps3⟩ := r2
        simp [colorPoints, hc, hr] at h
        obtain ⟨h1, h2⟩ := h
        subst h1 h2
        exact extremaWiden_trans (CalculateColor_widens hc) (colorPoints_widens ps s2 s3 ps3 hr)

theorem colorScans_widens {env : Env} :
    ∀ (scs : List Scan) (s s1 : Plugin) (scs1 : List Scan),
      colorScans env s scs = .ok (s1, scs1) →
        extremaWiden s.extrema s1.extrema ∧
          scs1.map Scan.new_features = scs.map Scan.new_features
  | [], s, s1, scs1, h => by
    simp [colorScans] at h
    obtain ⟨h1, h2⟩ := h
    subst h1 h2
    exact ⟨extremaWiden_refl _, rfl⟩
  | sc :: scs, s, s1, scs1, h => by
    cases hc : colorPoints env s sc.points with
    | error e => simp [colorScans, hc] at h
    | ok r =>
      obtain ⟨s2, pts⟩ := r
      cases hr : colorScans env s2 scs with
      | error e => simp [colorScans, hc, hr] at h
      | ok r2 =>
        obtain ⟨s3, scs3⟩ := r2
        simp [colorScans, hc, hr] at h
        obtain ⟨h1, h2⟩ := h
        subst h1 h2
        have ih := colorScans_widens scs s2 s3 scs3 hr
        exact ⟨extremaWiden_trans (colorPoints_widens _ _ _ _ hc) ih.1, by simp [ih.2]⟩

/-- A recolouring pass widens the running extrema. -/
theorem UpdateColors_tracks {env : Env} {s s1 : Plugin}
    (h : UpdateColors env s = .ok s1) : s.tracks s1 := by
  unfold UpdateColors at h
  cases hc : colorScans env s s.scans_ with
  | error e => simp [hc] at h
  | ok r =>
    obtain ⟨s2, scs⟩ := r
    simp [hc] at h
    subst h
    have f := colorScans_widens _ _ _ _ hc
    exact ⟨f.1, f.2⟩

theorem comboCall_tracks {env : Env} {s s1 : Plugin} {r : QComboBox × Bool}
    (h : comboCall env s r = .ok s1) : s.tracks s1 := by
  unfold comboCall at h
  split at h
  · exact UpdateColors_tracks (s := { s with color_transformer := r.1 }) h
  · injection h with h
    subst h
    exact tracks_refl s

theorem removeItems_tracks {env : Env} :
    ∀ (n : Nat) (s s1 : Plugin), removeItems env n s = .ok s1 → s.tracks s1
  | 0, s, s1, h => by
    simp [removeItems] at h
    subst h
    exact tracks_refl s
  | n + 1, s, s1, h => by
    cases hc : comboCall env s (s.color_transformer.removeItem (s.num_of_feats_ : Int)) with
    | error e => simp [removeItems, hc] at h
    | ok s2 =>
      simp [removeItems, hc] at h
      have ih := removeItems_tracks n _ s1 h
      exact tracks_trans (comboCall_tracks hc) ih

theorem addItems_tracks {env : Env} :
    ∀ (fs : List (String × FieldInfo)) (label index : Int) (s s1 : Plugin) (index1 : Int),
      addItems env fs label index s = .ok (s1, index1) → s.tracks s1
  | [], label, index, s, s1, index1, h => by
    simp [addItems] at h
    obtain ⟨h1, h2⟩ := h
    subst h1
    exact tracks_refl s
  | (field, fi) :: rest, label, index, s, s1, index1, h => by
    unfold addItems at h
    simp only at h
    split at h
    · cases h
    · rename_i s2 hc
      have ih := addItems_tracks rest _ _ _ s1 index1 h
      have k1 := comboCall_tracks hc
      have k0 : s.tracks (if decide (field = s.saved_color_transformer_) = true
          then { s with saved_color_transformer_ := "" } else s) := by
        split
        · exact ⟨extremaWiden_refl _, rfl⟩
        · exact tracks_refl s
      exact tracks_trans k0 (tracks_trans k1 ih)

theorem rebuildList_tracks {env : Env} {s s1 : Plugin} {fs : List (String × FieldInfo)}
    (h : rebuildList env s fs = .ok s1) : s.tracks s1 := by
  unfold rebuildList at h
  simp only at h
  split at h
  · cases h
  · rename_i s2 h2
    split at h
    · cases h
    · rename_i s3 index h3
      split at h
      · cases h
      · rename_i s4 h4
        injection h with h
        subst h
        have k4 : s3.tracks { s4 with need_new_list_ := false } :=
          tracks_trans (comboCall_tracks h4) ⟨extremaWiden_refl _, rfl⟩
        exact tracks_trans (removeItems_tracks _ _ _ h2)
          (tracks_trans (addItems_tracks _ _ _ _ _ _ h3) k4)

theorem resize_length_self {α : Type} (v : List α) (d : α) : resize v v.length d = v := by
  simp [resize]

/-- The block of lines 441-492 widens the running extrema when its `resize`
finds `max_` and `min_` at the number of feature names of the scan. -/
theorem newTopic_tracks {env : Env} {s s2 : Plugin} {scan scan2 : Scan} {msg : PointCloud2}
    (h : newTopic env s scan msg = .ok (s2, scan2))
    (hcount : s.new_topic_ = true →
      s.max_.length = (insertFields msg.fields scan.new_features).length ∧
      s.min_.length = (insertFields msg.fields scan.new_features).length) :
    s.tracks s2 := by
  unfold newTopic at h
  split at h
  · rename_i hnt
    obtain ⟨c1, c2⟩ := hcount hnt
    have hr1 : resize s.max_ (insertFields msg.fields scan.new_features).length 0 = s.max_ := by
      rw [← c1]
      exact resize_length_self _ _
    have hr2 : resize s.min_ (insertFields msg.fields scan.new_features).length 0 = s.min_ := by
      rw [← c2]
      exact resize_length_self _ _
    simp only [hr1, hr2] at h
    split at h
    · split at h
      · cases h
      · rename_i s3 h3
        injection h with h
        injection h with h1 h2
        subst h1
        have k := rebuildList_tracks h3
        exact ⟨k.1, k.2⟩
    · injection h with h
      injection h with h1 h2
      subst h1
      exact ⟨extremaWiden_refl _, rfl⟩
  · injection h with h
    injection h with h1 h2
    subst h1
    exact tracks_refl s

theorem extractPoints_widens {env : Env} {data : List Nat} {point_step xoff yoff zoff : Nat}
    {fis : List FieldInfo} {tf : Option (TfPoint → TfPoint)} :
    ∀ (ps : List StampedPoint) (s : Plugin) (ptr : Nat) (s1 : Plugin)
      (ps1 : List StampedPoint),
      extractPoints env data point_step xoff yoff zoff fis tf s ptr ps = .ok (s1, ps1) →
        extremaWiden s.extrema s1.extrema
  | [], s, ptr, s1, ps1, h => by
    simp [extractPoints] at h
    obtain ⟨h1, h2⟩ := h
    subst h1 h2
    exact extremaWiden_refl _
  | p :: ps, s, ptr, s1, ps1, h => by
    unfold extractPoints at h
    split at h
    · cases h
    · split at h
      · cases h
      · split at h
        · cases h
        · split at h
          · cases h
          · simp only at h
            split at h
            · cases h
            · rename_i s2 c hc
              split at h
              · cases h
              · rename_i s3 ps3 hr
                injection h with h
                injection h with h1 h2
                subst h1
                exact extremaWiden_trans (CalculateColor_widens hc)
                  (extractPoints_widens ps s2 _ s3 ps3 hr)

theorem extract_widens {env : Env} {s s3 : Plugin} {scan scan3 : Scan} {msg : PointCloud2}
    {xi yi zi : Int} {tf : Option (TfPoint → TfPoint)}
    (h : extract env s scan msg xi yi zi tf = .ok (s3, scan3)) :
    extremaWiden s.extrema s3.extrema := by
  unfold extract at h
  split at h
  · split at h
    · cases h
    · simp only at h
      split at h
      · cases h
      · rename_i s1 pts hx
        injection h with h
        injection h with h1 h2
        subst h1
        exact extractPoints_widens _ _ _ _ _ hx
  · injection h with h
    injection h with h1 h2
    subst h1
    exact extremaWiden_refl _

/-- A callback that keeps the number of tracked features widens the running
extrema; the scans it leaves in the buffer from before keep their feature
maps, and the scan it pushes has the fields of the message inserted into the
feature map of the scan it started from. -/
theorem callback_widens {env : Env} {s s1 : Plugin} {msg : PointCloud2}
    (h : PointCloud2Callback env s msg = .ok s1) (hcount : s.keepsCount msg) :
    extremaWiden s.extrema s1.extrema ∧
    ∀ m ∈ s1.scans_.map Scan.new_features,
      m ∈ s.scans_.map Scan.new_features ∨
        (s.new_topic_ = true ∧ m = insertFields msg.fields (recycle s).1.new_features) ∨
        (s.new_topic_ = false ∧ m = (recycle s).1.new_features) := by
  have hext : (noteMessage s).extrema = s.extrema := by
    unfold noteMessage
    split <;> rfl
  have hsub : ∀ m ∈ (recycle s).2.map Scan.new_features, m ∈ s.scans_.map Scan.new_features := by
    intro m hm
    obtain ⟨sc, hsc, e⟩ := List.mem_map.mp hm
    exact List.mem_map.mpr ⟨sc, recycle_snd_subset s sc hsc, e⟩
  by_cases hg : msg.hasGeometry
  · obtain ⟨s2, scan2, s3, scan3, h2, h3, e1⟩ := callback_with_geometry hg h
    have t2 := newTopic_tracks h2 (by
      intro hnt
      simp only at hnt
      rw [noteMessage_new_topic] at hnt
      have hc := hcount hnt hg
      have hmx : (noteMessage s).max_ = s.max_ := by
        unfold noteMessage
        split <;> rfl
      have hmn : (noteMessage s).min_ = s.min_ := by
        unfold noteMessage
        split <;> rfl
      simp only [stampScan]
      rw [hmx, hmn]
      exact hc)
    have t3 := extract_widens h3
    have x3 := extract_spec h3
    have sc3 : s3.scans_ = s2.scans_ := sameButRange_scans x3.1
    subst e1
    refine ⟨?_, ?_⟩
    · have : extremaWiden s.extrema s3.extrema := by
        rw [← hext]
        exact extremaWiden_trans t2.1 t3
      exact this
    · intro m hm
      simp only [List.map_append, List.map_cons, List.map_nil, List.mem_append,
        List.mem_singleton] at hm
      rcases hm with hm | hm
      · left
        rw [sc3, t2.2] at hm
        exact hsub m hm
      · right
        have e3 : scan3.new_features = scan2.new_features := by
          rw [x3.2.1]
        rw [hm, e3]
        by_cases hnt : s.new_topic_ = true
        · left
          refine ⟨hnt, ?_⟩
          have hf := newTopic_features h2 (by
            show (noteMessage s).new_topic_ = true
            rw [noteMessage_new_topic]
            exact hnt)
          exact hf
        · right
          have hnf : s.new_topic_ = false := by
            cases hv : s.new_topic_
            · rfl
            · exact absurd hv hnt
          refine ⟨hnf, ?_⟩
          have a1 : (noteMessage s).new_topic_ = false := by
            rw [noteMessage_new_topic]
            exact hnf
          unfold newTopic at h2
          simp only [a1, Bool.false_eq_true, if_false] at h2
          injection h2 with h2
          injection h2 with _ e2
          rw [← e2]
          rfl
  · rw [callback_without_geometry env s msg hg] at h
    injection h with h
    subst h
    refine ⟨?_, ?_⟩
    · show extremaWiden s.extrema (noteMessage s).extrema
      rw [hext]
      exact extremaWiden_refl _
    · intro m hm
      exact Or.inl (hsub m hm)

/-- A pass of `Transform` widens the running extrema. -/
theorem Transform_widens {env : Env} {COLOR_Z : Int} {s s1 : Plugin}
    (h : Transform env COLOR_Z s = .ok s1) : extremaWiden s.extrema s1.extrema := by
  unfold Transform at h
  simp only at h
  split at h
  · exact (UpdateColors_tracks (s := { s with scans_ := transformScans env s.scans_ }) h).1
  · injection h with h
    subst h
    exact extremaWiden_refl _

/-- Inside a schema generation a callback for a message with the fields of the
generation keeps the number of tracked features. -/
theorem keepsCount_of_inGeneration {s : Plugin} {msg : PointCloud2}
    (hgen : s.inGeneration msg.fields) :
    s.keepsCount msg ∧
      insertFields msg.fields (recycle s).1.new_features = insertFields msg.fields [] := by
  have hscan : insertFields msg.fields (recycle s).1.new_features
      = insertFields msg.fields [] := by
    rcases recycle_fst_features s with h | h
    · rw [h]
    · rw [hgen.1 _ (List.mem_map_of_mem _ h)]
      exact insertFields_idempotent msg.fields
  refine ⟨?_, hscan⟩
  intro _ _
  rw [hscan]
  exact hgen.2

/-- Deliveries inside a schema generation: when every message has the fields
of the generation, the plugin stays inside the generation and the running
extrema at the end widen those at the start. -/
theorem deliver_widens (env : Env) (fields : List PointField) :
    ∀ (msgs : List PointCloud2) (s s1 : Plugin) (pushed : List Scan),
      s.inGeneration fields → s.new_topic_ = true → (∀ m ∈ msgs, m.fields = fields) →
      deliver env s msgs = .ok (s1, pushed) →
      s1.inGeneration fields ∧ extremaWiden s.extrema s1.extrema
  | [], s, s1, pushed, hgen, _, _, h => by
    simp [deliver] at h
    obtain ⟨h1, _⟩ := h
    subst h1
    exact ⟨hgen, extremaWiden_refl _⟩
  | msg :: msgs, s, s1, pushed, hgen, hnt, hm, h => by
    have hf : msg.fields = fields := hm msg (List.mem_cons_self _ _)
    subst hf
    unfold deliver at h
    split at h
    · cases h
    · rename_i s2 h2
      split at h
      · cases h
      · rename_i s3 pushed3 h3
        injection h with h
        injection h with e1 e2
        subst e1
        obtain ⟨hk, hscan⟩ := keepsCount_of_inGeneration hgen
        obtain ⟨w, hfeat⟩ := callback_widens h2 hk
        have hgen2 : s2.inGeneration msg.fields := by
          refine ⟨?_, ?_, ?_⟩
          · intro m hmem
            rcases hfeat m hmem with k | ⟨_, k⟩ | ⟨k, _⟩
            · exact hgen.1 m k
            · rw [k, hscan]
            · rw [hnt] at k
              cases k
          · have := w.1
            simp only [Plugin.extrema] at this
            rw [this]
            exact hgen.2.1
          · have := w.2.1
            simp only [Plugin.extrema] at this
            rw [this]
            exact hgen.2.2
        have hnt2 : s2.new_topic_ = true := by
          by_cases hg : msg.hasGeometry
          · obtain ⟨_, _, _, _, _, _, e⟩ := callback_with_geometry hg h2
            rw [e]
          · rw [callback_without_geometry env s msg hg] at h2
            injection h2 with h2
            rw [← h2]
            simp only
            rw [noteMessage_new_topic]
            exact hnt
        obtain ⟨g3, w3⟩ := deliver_widens env msg.fields msgs s2 s3 pushed3 hgen2 hnt2
          (fun m hmm => hm m (List.mem_cons_of_mem _ hmm)) h3
        exact ⟨g3, extremaWiden_trans w w3⟩

/-- C11, as the code has it: every call of `CalculateColor`, on any sample and
under any configuration, leaves the tracked maximum of every feature `k` at
least as large and its tracked minimum at most as large as it found them; so
do every sequence of calls each of which starts from the extrema the call
before left, a recolouring pass, a pass of `Transform`, and a callback that
keeps the number of tracked features.  Inside a schema generation, that is
while every delivered record has the same fields, every callback keeps that
number, and the running extrema only widen from delivery to delivery. -/
theorem C11_extrema_monotone (env : Env) :
    (∀ (s s1 : Plugin) (p : StampedPoint) (c : QColor),
      CalculateColor env s p = .ok (s1, c) → extremaWiden s.extrema s1.extrema) ∧
    (∀ (calls : List (Plugin × StampedPoint)) (e : List Flt × List Flt)
      (tr : List (List Flt × List Flt)),
      colorCalls env e calls = .ok tr → List.Chain extremaWiden e tr) ∧
    (∀ (s s1 : Plugin), UpdateColors env s = .ok s1 → extremaWiden s.extrema s1.extrema) ∧
    (∀ (COLOR_Z : Int) (s s1 : Plugin),
      Transform env COLOR_Z s = .ok s1 → extremaWiden s.extrema s1.extrema) ∧
    (∀ (s s1 : Plugin) (msg : PointCloud2), s.keepsCount msg →
      PointCloud2Callback env s msg = .ok s1 → extremaWiden s.extrema s1.extrema) ∧
    (∀ (fields : List PointField) (msgs : List PointCloud2) (s s1 : Plugin)
      (pushed : List Scan),
      s.inGeneration fields → s.new_topic_ = true → (∀ m ∈ msgs, m.fields = fields) →
      deliver env s msgs = .ok (s1, pushed) →
      s1.inGeneration fields ∧ extremaWiden s.extrema s1.extrema) :=
  ⟨fun _ _ _ _ h => CalculateColor_widens h,
   fun calls e tr h => colorCalls_chain calls e tr h,
   fun _ _ h => (UpdateColors_tracks h).1,
   fun _ _ _ h => Transform_widens h,
   fun _ _ _ hk h => (callback_widens h hk).1,
   fun fields msgs s s1 pushed hg hn hm h => deliver_widens env fields msgs s s1 pushed hg hn hm h⟩

/-- Witness of C11: the plugin that tracks the extrema of `z` and has received
the cloud of the scenario receives two more clouds with the same fields, with
`z = 1` and `z = 3`; and three calls for samples with intensity `10`, `30` and
`20`, the first two with auto-range on and the third with the range fixed but
the extrema still tracked. -/
theorem C11_extrema_monotone_witness :
    (Plugin.trackedOnce.inGeneration (PointCloud2.intensity 1).fields ∧
      Plugin.trackedOnce.new_topic_ = true ∧
      Plugin.trackedOnce.extrema = ([0, 0, 0, 3], [0, 0, 0, 0]) ∧
      ∃ s1 pushed, deliver Env.sample Plugin.trackedOnce
          [PointCloud2.lowZ 2, PointCloud2.intensity 3] = .ok (s1, pushed) ∧
        s1.inGeneration (PointCloud2.intensity 1).fields ∧
        extremaWiden Plugin.trackedOnce.extrema s1.extrema) ∧
    (colorCalls Env.sample ([0, 0, 0, 0], [0, 0, 0, 0])
        [(Plugin.autoByFirstFeature, StampedPoint.withFeatures [10, 1, 2, 3]),
         (Plugin.autoByFirstFeature, StampedPoint.withFeatures [30, 1, 2, 3]),
         ({ Plugin.autoByFirstFeature with use_automaxmin := false },
           StampedPoint.withFeatures [20, 1, 2, 3])]
      = .ok [([10, 0, 0, 0], [0, 0, 0, 0]), ([30, 0, 0, 0], [0, 0, 0, 0]),
             ([30, 0, 0, 0], [0, 0, 0, 0])] ∧
    List.Chain extremaWiden ([0, 0, 0, 0], [0, 0, 0, 0])
      [([10, 0, 0, 0], [0, 0, 0, 0]), ([30, 0, 0, 0], [0, 0, 0, 0]),
       ([30, 0, 0, 0], [0, 0, 0, 0])]) := by
  have hgen : Plugin.trackedOnce.inGeneration (PointCloud2.intensity 1).fields := by decide!
  have hnt : Plugin.trackedOnce.new_topic_ = true := by decide!
  have hrun : colorCalls Env.sample ([0, 0, 0, 0], [0, 0, 0, 0])
        [(Plugin.autoByFirstFeature, StampedPoint.withFeatures [10, 1, 2, 3]),
         (Plugin.autoByFirstFeature, StampedPoint.withFeatures [30, 1, 2, 3]),
         ({ Plugin.autoByFirstFeature with use_automaxmin := false },
           StampedPoint.withFeatures [20, 1, 2, 3])]
      = .ok [([10, 0, 0, 0], [0, 0, 0, 0]), ([30, 0, 0, 0], [0, 0, 0, 0]),
             ([30, 0, 0, 0], [0, 0, 0, 0])] := by decide!
  refine ⟨⟨hgen, hnt, by decide!, ?_⟩, hrun, (C11_extrema_monotone Env.sample).2.1 _ _ _ hrun⟩
  cases hd : deliver Env.sample Plugin.trackedOnce
      [PointCloud2.lowZ 2, PointCloud2.intensity 3] with
  | error e =>
    have hok : (deliver Env.sample Plugin.trackedOnce
      [PointCloud2.lowZ 2, PointCloud2.intensity 3]).toBool = true := by decide!
    rw [hd] at hok
    cases hok
  | ok r =>
    obtain ⟨s1, pushed⟩ := r
    obtain ⟨g, w⟩ := (C11_extrema_monotone Env.sample).2.2.2.2.2
      (PointCloud2.intensity 1).fields [PointCloud2.lowZ 2, PointCloud2.intensity 3]
      Plugin.trackedOnce s1 pushed hgen hnt (by decide) hd
    exact ⟨s1, pushed, rfl, g, w⟩

/-- C11 fails as stated: without any topic change, the plugin that tracks the
extrema of the feature at index `3` receives a cloud with four fields (`z = 3`),
a cloud with the three fields `x`, `y`, `z` and no points, and a cloud with four
fields again (`z = 1`).  The `resize` of lines 458-459, which runs in every
callback, cuts `max_` to three entries and then extends it with `0`: the
tracked maximum of feature `3` is `3` after the call of `CalculateColor` in the
first callback and `1` after the next call, the one in the third callback. -/
theorem C11_counterexample :
    (deliver Env.sample Plugin.trackingZ [PointCloud2.intensity 1]).map
        (fun r => (r.1.topic_, r.1.color_transformer.currentIndex, r.1.max_, r.1.min_))
      = .ok ("cloud", 4, [0, 0, 0, 3], [0, 0, 0, 0]) ∧
    (deliver Env.sample Plugin.trackingZ [PointCloud2.intensity 1, PointCloud2.noPoints 2]).map
        (fun r => (r.1.topic_, r.1.color_transformer.currentIndex, r.1.max_, r.1.min_))
      = .ok ("cloud", 4, [0, 0, 0], [0, 0, 0]) ∧
    (deliver Env.sample Plugin.trackingZ
        [PointCloud2.intensity 1, PointCloud2.noPoints 2, PointCloud2.lowZ 3]).map
        (fun r => (r.1.topic_, r.1.color_transformer.currentIndex, r.1.max_, r.1.min_))
      = .ok ("cloud", 4, [0, 0, 0, 1], [0, 0, 0, 0]) ∧
    (deliver Env.sample Plugin.trackingZ
        [PointCloud2.intensity 1, PointCloud2.noPoints 2, PointCloud2.lowZ 3]).map
        (fun r => r.1.features)
      = .ok [[[10, 1, 2, 3], [30, 1, 2, 3]], [], [[10, 1, 2, 1]]] ∧
    ¬ extremaWiden ([0, 0, 0, 3], [0, 0, 0, 0]) ([0, 0, 0, 1], [0, 0, 0, 0]) := by
  refine ⟨by decide!, by decide!, by decide!, by decide!, ?_⟩
  intro h
  obtain ⟨y, hy, hxy⟩ := (h.2.2 3).1 3 rfl
  have e : y = 1 := by
    have : ([0, 0, 0, 1] : List Flt)[3]? = some 1 := rfl
    simp only at hy
    rw [this] at hy
    injection hy with hy
    exact hy.symm
  subst e
  rcases hxy with h1 | h1
  · exact absurd h1 (by decide!)
  · exact absurd h1 (by decide!)

/-! ## C12: a pass of `Transform` -/

theorem forall₂_compose {α : Type} {R S T : α → α → Prop}
    (hT : ∀ a b c, R a b → S b c → T a c) :
    ∀ (l1 l2 l3 : List α), List.Forall₂ R l1 l2 → List.Forall₂ S l2 l3 →
      List.Forall₂ T l1 l3
  | [], _, _, h1, h2 => by
    cases h1
    cases h2
    exact List.Forall₂.nil
  | _ :: l1, _, _, h1, h2 => by
    cases h1 with
    | cons hab h1' =>
      cases h2 with
      | cons hbc h2' =>
        exact List.Forall₂.cons (hT _ _ _ hab hbc) (forall₂_compose hT l1 _ _ h1' h2')

theorem forall₂_map_right {α : Type} (f : α → α) :
    ∀ l : List α, List.Forall₂ (fun p p1 => f p = p1) l (l.map f)
  | [] => List.Forall₂.nil
  | _ :: l => List.Forall₂.cons rfl (forall₂_map_right f l)

theorem forall₂_eq_refl {α : Type} : ∀ l : List α, List.Forall₂ Eq l l
  | [] => List.Forall₂.nil
  | _ :: l => List.Forall₂.cons rfl (forall₂_eq_refl l)

/-- The loop of `Transform` does to every scan what the specification says,
and leaves every other part of a scan and of its samples as it was. -/
theorem transformScans_outcome (env : Env) :
    ∀ scans : List Scan,
      List.Forall₂ (transformOutcome env Eq) scans (transformScans env scans)
  | [] => List.Forall₂.nil
  | sc :: scans => by
    have ih : List.Forall₂ (transformOutcome env Eq) scans (transformScans env scans) :=
      transformScans_outcome env scans
    unfold transformScans at ih ⊢
    rw [List.map_cons]
    refine List.Forall₂.cons ?_ ih
    cases ht : sc.transformed with
    | true =>
      simp only [if_true]
      refine ⟨rfl, rfl, rfl, rfl, fun _ => ⟨ht, forall₂_eq_refl _⟩, ?_, ?_⟩
      · intro h
        rw [ht] at h
        cases h
      · intro h
        rw [ht] at h
        cases h
    | false =>
      simp only [Bool.false_eq_true, if_false]
      cases hl : env.GetTransform sc.source_frame sc.stamp with
      | none =>
        refine ⟨rfl, rfl, rfl, rfl, ?_, ?_, fun _ _ => ⟨rfl, forall₂_eq_refl _⟩⟩
        · intro h
          rw [ht] at h
          cases h
        · intro _ tf h
          rw [hl] at h
          cases h
      | some transform =>
        refine ⟨rfl, rfl, rfl, rfl, ?_, ?_, ?_⟩
        · intro h
          rw [ht] at h
          cases h
        · intro _ tf h
          rw [hl] at h
          injection h with h
          subst h
          exact ⟨rfl, forall₂_map_right _ _⟩
        · intro _ h
          rw [hl] at h
          cases h

theorem colorPoints_recolored {env : Env} :
    ∀ (ps : List StampedPoint) (s s1 : Plugin) (ps1 : List StampedPoint),
      colorPoints env s ps = .ok (s1, ps1) →
        List.Forall₂ StampedPoint.recolored ps ps1
  | [], s, s1, ps1, h => by
    simp [colorPoints] at h
    obtain ⟨_, h2⟩ := h
    subst h2
    exact List.Forall₂.nil
  | p :: ps, s, s1, ps1, h => by
    cases hc : CalculateColor env s p with
    | error e => simp [colorPoints, hc] at h
    | ok r =>
      obtain ⟨s2, c⟩ := r
      cases hr : colorPoints env s2 ps with
      | error e => simp [colorPoints, hc, hr] at h
      | ok r2 =>
        obtain ⟨s3, ps3⟩ := r2
        simp [colorPoints, hc, hr] at h
        obtain ⟨_, h2⟩ := h
        subst h2
        exact List.Forall₂.cons rfl (colorPoints_recolored ps s2 s3 ps3 hr)

theorem colorScans_recolored {env : Env} :
    ∀ (scs : List Scan) (s s1 : Plugin) (scs1 : List Scan),
      colorScans env s scs = .ok (s1, scs1) → List.Forall₂ Scan.recolored scs scs1
  | [], s, s1, scs1, h => by
    simp [colorScans] at h
    obtain ⟨_, h2⟩ := h
    subst h2
    exact List.Forall₂.nil
  | sc :: scs, s, s1, scs1, h => by
    cases hc : colorPoints env s sc.points with
    | error e => simp [colorScans, hc] at h
    | ok r =>
      obtain ⟨s2, pts⟩ := r
      cases hr : colorScans env s2 scs with
      | error e => simp [colorScans, hc, hr] at h
      | ok r2 =>
        obtain ⟨s3, scs3⟩ := r2
        simp [colorScans, hc, hr] at h
        obtain ⟨_, h2⟩ := h
        subst h2
        exact List.Forall₂.cons ⟨rfl, colorPoints_recolored _ _ _ _ hc⟩
          (colorScans_recolored scs s2 s3 scs3 hr)

/-- A recolouring pass leaves every buffered scan as it was up to the colours
of its samples. -/
theorem UpdateColors_recolored {env : Env} {s s1 : Plugin}
    (h : UpdateColors env s = .ok s1) : List.Forall₂ Scan.recolored s.scans_ s1.scans_ := by
  unfold UpdateColors at h
  cases hc : colorScans env s s.scans_ with
  | error e => simp [hc] at h
  | ok r =>
    obtain ⟨s2, scs⟩ := r
    simp [hc] at h
    subst h
    exact colorScans_recolored _ _ _ _ hc

theorem transformOutcome_recolored {env : Env} {sc sc1 sc2 : Scan}
    (h1 : transformOutcome env Eq sc sc1) (h2 : sc1.recolored sc2) :
    transformOutcome env StampedPoint.recolored sc sc2 := by
  obtain ⟨a1, a2, a3, a4, a5, a6, a7⟩ := h1
  obtain ⟨e, hp⟩ := h2
  have b1 : sc2.stamp = sc1.stamp := by rw [e]
  have b2 : sc2.source_frame = sc1.source_frame := by rw [e]
  have b3 : sc2.color = sc1.color := by rw [e]
  have b4 : sc2.new_features = sc1.new_features := by rw [e]
  have b5 : sc2.transformed = sc1.transformed := by rw [e]
  refine ⟨b1.trans a1, b2.trans a2, b3.trans a3, b4.trans a4, ?_, ?_, ?_⟩
  · intro ht
    obtain ⟨c1, c2⟩ := a5 ht
    exact ⟨b5.trans c1,
      forall₂_compose (fun _ _ _ hab hbc => by subst hab; exact hbc) _ _ _ c2 hp⟩
  · intro ht tf hl
    obtain ⟨c1, c2⟩ := a6 ht tf hl
    exact ⟨b5.trans c1,
      forall₂_compose (fun _ _ _ hab hbc => by subst hab; exact hbc) _ _ _ c2 hp⟩
  · intro ht hl
    obtain ⟨c1, c2⟩ := a7 ht hl
    exact ⟨b5.trans c1,
      forall₂_compose (fun _ _ _ hab hbc => by subst hab; exact hbc) _ _ _ c2 hp⟩

theorem sameColoring_symm {s t : Plugin} (h : s.sameColoring t) : t.sameColoring s := by
  obtain ⟨e1, e2, e3, e4, e5, e6, e7, e8, e9, e10, e11, e12⟩ := h
  exact ⟨e1.symm, e2.symm, e3.symm, e4.symm, e5.symm, e6.symm, e7.symm, e8.symm, e9.symm,
    e10.symm, e11.symm, e12.symm⟩

/-- With a fixed range, every sample that the inner loop of a recolouring pass
leaves carries the colour that `CalculateColor` gives it under the
configuration of the pass. -/
theorem colorPoints_colors {env : Env} (s0 : Plugin) (hf : s0.fixedRange) :
    ∀ (ps : List StampedPoint) (s s1 : Plugin) (ps1 : List StampedPoint),
      s0.sameColoring s → colorPoints env s ps = .ok (s1, ps1) →
      s0.sameColoring s1 ∧ ∀ p ∈ ps1, ∃ s2, CalculateColor env s0 p = .ok (s2, p.color)
  | [], s, s1, ps1, hst, h => by
    simp [colorPoints] at h
    obtain ⟨h1, h2⟩ := h
    subst h1 h2
    exact ⟨hst, fun p hp => absurd hp (List.not_mem_nil p)⟩
  | p :: ps, s, s1, ps1, hst, h => by
    cases hc : CalculateColor env s p with
    | error e => simp [colorPoints, hc] at h
    | ok r =>
      obtain ⟨s2, c⟩ := r
      cases hr : colorPoints env s2 ps with
      | error e => simp [colorPoints, hc, hr] at h
      | ok r2 =>
        obtain ⟨s3, ps3⟩ := r2
        simp [colorPoints, hc, hr] at h
        obtain ⟨h1, h2⟩ := h
        subst h1 h2
        have hfs : s.fixedRange := fixedRange_of_sameColoring hst hf
        obtain ⟨k1, t1, ht1, _⟩ :=
          @CalculateColor_fixedRange env s s2 s0 p { p with color := c } c hfs
            (sameColoring_symm hst) rfl hc
        obtain ⟨k3, hrest⟩ := colorPoints_colors s0 hf ps s2 s3 ps3
          (sameColoring_trans hst k1) hr
        refine ⟨k3, ?_⟩
        intro q hq
        rcases List.mem_cons.mp hq with hq | hq
        · subst hq
          exact ⟨t1, ht1⟩
        · exact hrest q hq

theorem colorScans_colors {env : Env} (s0 : Plugin) (hf : s0.fixedRange) :
    ∀ (scs : List Scan) (s s1 : Plugin) (scs1 : List Scan),
      s0.sameColoring s → colorScans env s scs = .ok (s1, scs1) →
      s0.sameColoring s1 ∧
        ∀ sc ∈ scs1, ∀ p ∈ sc.points, ∃ s2, CalculateColor env s0 p = .ok (s2, p.color)
  | [], s, s1, scs1, hst, h => by
    simp [colorScans] at h
    obtain ⟨h1, h2⟩ := h
    subst h1 h2
    exact ⟨hst, fun sc hsc => absurd hsc (List.not_mem_nil sc)⟩
  | sc :: scs, s, s1, scs1, hst, h => by
    cases hc : colorPoints env s sc.points with
    | error e => simp [colorScans, hc] at h
    | ok r =>
      obtain ⟨s2, pts⟩ := r
      cases hr : colorScans env s2 scs with
      | error e => simp [colorScans, hc, hr] at h
      | ok r2 =>
        obtain ⟨s3, scs3⟩ := r2
        simp [colorScans, hc, hr] at h
        obtain ⟨h1, h2⟩ := h
        subst h1 h2
        obtain ⟨k1, hpts⟩ := colorPoints_colors s0 hf sc.points s s2 pts hst hc
        obtain ⟨k3, hrest⟩ := colorScans_colors s0 hf scs s2 s3 scs3 k1 hr
        refine ⟨k3, ?_⟩
        intro sc1 hsc1
        rcases List.mem_cons.mp hsc1 with hq | hq
        · subst hq
          exact hpts
        · exact hrest sc1 hq

/-- With a fixed range, every buffered sample carries after a recolouring pass
the colour that `CalculateColor` gives it under the configuration of the pass. -/
theorem UpdateColors_colors {env : Env} {s0 s s1 : Plugin} (hf : s0.fixedRange)
    (hst : s0.sameColoring s) (h : UpdateColors env s = .ok s1) :
    ∀ sc ∈ s1.scans_, ∀ p ∈ sc.points, ∃ s2, CalculateColor env s0 p = .ok (s2, p.color) := by
  unfold UpdateColors at h
  cases hc : colorScans env s s.scans_ with
  | error e => simp [hc] at h
  | ok r =>
    obtain ⟨s2, scs⟩ := r
    simp [hc] at h
    subst h
    exact (colorScans_colors s0 hf s.scans_ s s2 scs hst hc).2

/-- C12, as the code has it: after a pass of `Transform` that returns, the
buffer holds as many scans in the same order, and each is what the
specification says (transformed with every sample's transformed geometry the
transform of its geometry when it was untransformed and its lookup succeeds;
still untransformed when its lookup fails; as it was when it was transformed
already), up to the colours of the samples.  When the colour selector is not
at `COLOR_Z` the pass returns and the colours stay as well.  When it is at
`COLOR_Z`, the pass is the transformation of the scans followed by the
recolouring pass `UpdateColors` over the whole buffer; with a fixed range every
sample of every scan, the scans that were transformed already included, then
carries the colour that `CalculateColor` gives it. -/
theorem C12_transform_pass (env : Env) (COLOR_Z : Int) (s : Plugin) :
    (∀ s1, Transform env COLOR_Z s = .ok s1 →
      List.Forall₂ (transformOutcome env StampedPoint.recolored) s.scans_ s1.scans_) ∧
    (s.color_transformer.currentIndex ≠ COLOR_Z →
      ∃ s1, Transform env COLOR_Z s = .ok s1 ∧
        List.Forall₂ (transformOutcome env Eq) s.scans_ s1.scans_) ∧
    (s.color_transformer.currentIndex = COLOR_Z →
      Transform env COLOR_Z s
        = UpdateColors env { s with scans_ := transformScans env s.scans_ }) ∧
    (s.color_transformer.currentIndex = COLOR_Z → s.fixedRange →
      ∀ s1, Transform env COLOR_Z s = .ok s1 →
        ∀ sc ∈ s1.scans_, ∀ p ∈ sc.points,
          ∃ s2, CalculateColor env s p = .ok (s2, p.color)) := by
  refine ⟨?_, ?_, ?_, ?_⟩
  · intro s1 h
    unfold Transform at h
    simp only at h
    have hrefl : ∀ l : List Scan, List.Forall₂ Scan.recolored l l := by
      intro l
      induction l with
      | nil => exact List.Forall₂.nil
      | cons a l ih =>
        refine List.Forall₂.cons ⟨rfl, ?_⟩ ih
        generalize a.points = ps
        induction ps with
        | nil => exact List.Forall₂.nil
        | cons p ps ihp => exact List.Forall₂.cons rfl ihp
    have hr : List.Forall₂ Scan.recolored (transformScans env s.scans_) s1.scans_ := by
      split at h
      · exact UpdateColors_recolored h
      · injection h with h
        subst h
        exact hrefl _
    exact @forall₂_compose Scan (transformOutcome env Eq) Scan.recolored
      (transformOutcome env StampedPoint.recolored)
      (fun _ _ _ hab hbc => transformOutcome_recolored hab hbc)
      _ _ _ (transformScans_outcome env s.scans_) hr
  · intro hne
    refine ⟨{ s with scans_ := transformScans env s.scans_ }, ?_,
      transformScans_outcome env s.scans_⟩
    unfold Transform
    simp only [hne, if_false]
  · intro he
    unfold Transform
    simp only [he, if_true]
  · intro he hf s1 h
    unfold Transform at h
    simp only [he, if_true] at h
    exact UpdateColors_colors hf
      (⟨rfl, rfl, rfl, rfl, rfl, rfl, rfl, rfl, rfl, rfl, rfl, rfl⟩ :
        s.sameColoring { s with scans_ := transformScans env s.scans_ }) h

/-- Witness of C12: a scan that was received while no transform was available
is transformed by a pass once the lookup succeeds (here with the identity),
and stays untransformed by a pass while the lookup fails; and with the colour
selector at `COLOR_Z` and a fixed range, a pass over a buffer whose colours
date from the range `[0, 100]` gives the two samples of its transformed scan
the colours of the range `[0, 40]` the plugin has now. -/
theorem C12_transform_pass_witness :
    Plugin.untransformed.scans_.map Scan.transformed = [false] ∧
    (∃ s1, Transform Env.sample 3 Plugin.untransformed = .ok s1 ∧
      List.Forall₂ (transformOutcome Env.sample Eq) Plugin.untransformed.scans_ s1.scans_ ∧
      s1.scans_.map Scan.transformed = [true]) ∧
    (∃ s1, Transform Env.noTransform 3 Plugin.untransformed = .ok s1 ∧
      List.Forall₂ (transformOutcome Env.noTransform Eq) Plugin.untransformed.scans_
        s1.scans_ ∧
      s1.scans_.map Scan.transformed = [false]) ∧
    (Plugin.staleColors.color_transformer.currentIndex = 1 ∧ Plugin.staleColors.fixedRange ∧
      Plugin.staleColors.scans_.map Scan.transformed = [true] ∧
      Plugin.staleColors.colors
        = [[QColor.rgb 229 229 229 255, QColor.rgb 178 178 178 255]] ∧
      ∃ s1, Transform Env.sample 1 Plugin.staleColors = .ok s1 ∧
        s1.colors = [[QColor.rgb 191 191 191 255, QColor.rgb 63 63 63 255]] ∧
        ∀ sc ∈ s1.scans_, ∀ p ∈ sc.points,
          ∃ s2, CalculateColor Env.sample Plugin.staleColors p = .ok (s2, p.color)) := by
  refine ⟨by decide!, ?_, ?_, by decide!, by decide!, by decide!, by decide!, ?_⟩
  · obtain ⟨s1, h1, h2⟩ := (C12_transform_pass Env.sample 3 Plugin.untransformed).2.1
      (by decide!)
    refine ⟨s1, h1, h2, ?_⟩
    have : (Transform Env.sample 3 Plugin.untransformed).map
        (fun t => t.scans_.map Scan.transformed) = .ok [true] := by decide!
    rw [h1] at this
    injection this
  · obtain ⟨s1, h1, h2⟩ := (C12_transform_pass Env.noTransform 3 Plugin.untransformed).2.1
      (by decide!)
    refine ⟨s1, h1, h2, ?_⟩
    have : (Transform Env.noTransform 3 Plugin.untransformed).map
        (fun t => t.scans_.map Scan.transformed) = .ok [false] := by decide!
    rw [h1] at this
    injection this
  · cases hrun : Transform Env.sample 1 Plugin.staleColors with
    | error e =>
      have hok : (Transform Env.sample 1 Plugin.staleColors).toBool = true := by decide!
      rw [hrun] at hok
      cases hok
    | ok s1 =>
      have hcol : (Transform Env.sample 1 Plugin.staleColors).map Plugin.colors
          = .ok [[QColor.rgb 191 191 191 255, QColor.rgb 63 63 63 255]] := by decide!
      rw [hrun] at hcol
      refine ⟨s1, rfl, by injection hcol, ?_⟩
      exact (C12_transform_pass Env.sample 1 Plugin.staleColors).2.2.2 (by decide!)
        (by decide!) s1 hrun

/-- C12 fails as stated: the plugin buffers one transformed scan whose two
samples are coloured through the entry at `COLOR_Z` of the colour selector with
auto-range on; a pass of `Transform` leaves the scan transformed and gives its
first sample another colour.  Shown for the values `3` and `1` of `COLOR_Z`. -/
theorem C12_counterexample :
    (Plugin.selectedAuto 3).scans_.map Scan.transformed = [true] ∧
    (Plugin.selectedAuto 3).colors
      = [[QColor.rgb 249 249 249 255, QColor.rgb 0 0 0 255]] ∧
    (Transform Env.sample 3 (Plugin.selectedAuto 3)).map Plugin.colors
      = .ok [[QColor.rgb 0 0 0 255, QColor.rgb 0 0 0 255]] ∧
    (Plugin.selectedAuto 1).scans_.map Scan.transformed = [true] ∧
    (Plugin.selectedAuto 1).colors
      = [[QColor.rgb 229 229 229 255, QColor.rgb 0 0 0 255]] ∧
    (Transform Env.sample 1 (Plugin.selectedAuto 1)).map Plugin.colors
      = .ok [[QColor.rgb 169 169 169 255, QColor.rgb 0 0 0 255]] := by
  refine ⟨by decide!, by decide!, by decide!, by decide!, by decide!, by decide!⟩

/-! ## C14: the colour selector after a topic change -/

theorem removeItem_items (c : QComboBox) (k : Nat) :
    (c.removeItem (k : Int)).1.items = c.items.eraseIdx k := by
  unfold QComboBox.removeItem
  split
  · rename_i h
    have hk : c.items.length ≤ k := by omega
    rw [List.eraseIdx_of_length_le hk]
  · simp only [Int.toNat_ofNat]
    split
    · rfl
    · split <;> rfl

theorem addItem_items (c : QComboBox) (text : String) :
    (c.addItem text).1.items = c.items ++ [text] := by
  unfold QComboBox.addItem
  split
  · rename_i h
    have : c.items = [] := List.length_eq_zero.mp h.1
    simp [this]
  · rfl

theorem take_eraseIdx {α : Type} (l : List α) (k m : Nat) (h : k ≤ m) :
    (l.eraseIdx m).take k = l.take k := by
  by_cases hl : l.length ≤ m
  · rw [List.eraseIdx_of_length_le hl]
  · rw [List.eraseIdx_eq_take_drop_succ, List.take_append_of_le_length (by simp; omega),
      List.take_take]
    congr 1
    omega

theorem drop_eraseIdx {α : Type} (l : List α) (m : Nat) :
    (l.eraseIdx m).drop m = l.drop (m + 1) := by
  by_cases hl : l.length ≤ m
  · rw [List.eraseIdx_of_length_le hl, List.drop_of_length_le hl,
      List.drop_of_length_le (by omega)]
  · rw [List.eraseIdx_eq_take_drop_succ]
    exact List.drop_left' (by simp; omega)

theorem UpdateColors_selector {env : Env} {s s1 : Plugin}
    (h : UpdateColors env s = .ok s1) :
    s1.color_transformer = s.color_transformer ∧ s1.num_of_feats_ = s.num_of_feats_ ∧
      s1.saved_color_transformer_ = s.saved_color_transformer_ := by
  unfold UpdateColors at h
  cases hc : colorScans env s s.scans_ with
  | error e => simp [hc] at h
  | ok r =>
    obtain ⟨s2, scs⟩ := r
    simp [hc] at h
    subst h
    have f : s2 = _ := (colorScans_frame _ _ _ _ hc).1
    refine ⟨?_, ?_, ?_⟩ <;> simp only <;> rw [f]

theorem comboCall_selector {env : Env} {s s1 : Plugin} {r : QComboBox × Bool}
    (h : comboCall env s r = .ok s1) :
    s1.color_transformer = r.1 ∧ s1.num_of_feats_ = s.num_of_feats_ ∧
      s1.saved_color_transformer_ = s.saved_color_transformer_ := by
  unfold comboCall at h
  split at h
  · exact UpdateColors_selector (s := { s with color_transformer := r.1 }) h
  · injection h with h
    subst h
    exact ⟨rfl, rfl, rfl⟩

/-- The entries after the loop of lines 466-470: of the entries `0` to
`num_of_feats_` those from `num_of_feats_ - n + 1` on are gone. -/
theorem removeItems_items {env : Env} :
    ∀ (n : Nat) (s s1 : Plugin), n ≤ s.num_of_feats_ → removeItems env n s = .ok s1 →
      s1.color_transformer.items
        = s.color_transformer.items.take (s.num_of_feats_ - n + 1) ++
          s.color_transformer.items.drop (s.num_of_feats_ + 1)
  | 0, s, s1, _, h => by
    simp [removeItems] at h
    subst h
    simp
  | n + 1, s, s1, hn, h => by
    cases hc : comboCall env s (s.color_transformer.removeItem (s.num_of_feats_ : Int)) with
    | error e => simp [removeItems, hc] at h
    | ok s2 =>
      simp [removeItems, hc] at h
      obtain ⟨k1, k2, _⟩ := comboCall_selector hc
      have ih := removeItems_items n { s2 with num_of_feats_ := s2.num_of_feats_ - 1 } s1
        (by simp only; omega) h
      simp only at ih
      rw [ih, k1, k2, removeItem_items]
      have e1 : s.num_of_feats_ - 1 - n + 1 = s.num_of_feats_ - (n + 1) + 1 := by omega
      have e2 : s.num_of_feats_ - 1 + 1 = s.num_of_feats_ := by omega
      rw [e1, e2, take_eraseIdx _ _ _ (by omega), drop_eraseIdx]

theorem addItems_items {env : Env} :
    ∀ (fs : List (String × FieldInfo)) (label index : Int) (s s1 : Plugin) (index1 : Int),
      addItems env fs label index s = .ok (s1, index1) →
        s1.color_transformer.items = s.color_transformer.items ++ fs.map Prod.fst
  | [], label, index, s, s1, index1, h => by
    simp [addItems] at h
    obtain ⟨h1, _⟩ := h
    subst h1
    simp
  | (field, fi) :: rest, label, index, s, s1, index1, h => by
    unfold addItems at h
    simp only at h
    split at h
    · cases h
    · rename_i s2 hc
      have ih := addItems_items rest _ _ _ s1 index1 h
      obtain ⟨k1, _, _⟩ := comboCall_selector hc
      simp only at ih
      rw [ih, k1, addItem_items]
      have : (if decide (field = s.saved_color_transformer_) = true
          then { s with saved_color_transformer_ := "" } else s).color_transformer
          = s.color_transformer := by
        split <;> rfl
      rw [this]
      simp

theorem rebuildList_items {env : Env} {s s1 : Plugin} {fs : List (String × FieldInfo)}
    (hn : fs.length ≤ s.num_of_feats_) (h : rebuildList env s fs = .ok s1) :
    s1.color_transformer.items
      = s.color_transformer.items.take (s.num_of_feats_ - fs.length + 1) ++
        s.color_transformer.items.drop (s.num_of_feats_ + 1) ++ fs.map Prod.fst := by
  unfold rebuildList at h
  simp only at h
  split at h
  · cases h
  · rename_i s2 h2
    split at h
    · cases h
    · rename_i s3 index h3
      split at h
      · cases h
      · rename_i s4 h4
        injection h with h
        subst h
        obtain ⟨k1, _, _⟩ := comboCall_selector h4
        simp only
        rw [k1]
        have e : (s3.color_transformer.setCurrentIndex index).1.items
            = s3.color_transformer.items := rfl
        rw [e, addItems_items _ _ _ _ _ _ h3, removeItems_items _ _ _ hn h2]

theorem extract_selector {env : Env} {s s3 : Plugin} {scan scan3 : Scan} {msg : PointCloud2}
    {xi yi zi : Int} {tf : Option (TfPoint → TfPoint)}
    (h : extract env s scan msg xi yi zi tf = .ok (s3, scan3)) :
    s3.color_transformer = s.color_transformer := by
  have f : s3 = _ := (extract_spec h).1
  rw [f]

/-- The entries of the colour selector after the delivery of the first message
with geometry that follows a topic change: the entry `0` and the entries from
`n + 1` on stay, `n` being the number of features of the new scan, and the
names of the features are appended. -/
theorem selector_after_rebuild {env : Env} {s s1 : Plugin} {msg : PointCloud2}
    (hg : msg.hasGeometry) (hnt : s.new_topic_ = true) (hnl : s.need_new_list_ = true)
    (h : PointCloud2Callback env s msg = .ok s1) :
    ∃ sc, s1.scans_.getLast? = some sc ∧
      s1.color_transformer.items
        = s.color_transformer.items.take 1 ++
          s.color_transformer.items.drop (sc.new_features.length + 1) ++
          sc.new_features.map Prod.fst := by
  obtain ⟨s2, scan2, s3, scan3, h2, h3, h1⟩ := callback_with_geometry hg h
  have x := extract_spec h3
  have hsel := extract_selector h3
  subst h1
  refine ⟨scan3, List.getLast?_concat _, ?_⟩
  have hf3 : scan3.new_features = scan2.new_features := by
    rw [x.2.1]
  simp only
  rw [hsel, hf3]
  -- the block of lines 441-492
  have hnt' : ({ noteMessage s with scans_ := (recycle s).2 } : Plugin).new_topic_
      = true := by
    simp only
    rw [noteMessage_new_topic, hnt]
  have hnl' : ({ noteMessage s with scans_ := (recycle s).2 } : Plugin).need_new_list_
      = true := by
    simp only
    rw [noteMessage_need_new_list, hnl]
  have hsel0 : (noteMessage s).color_transformer = s.color_transformer := by
    unfold noteMessage
    split <;> rfl
  have hf2 := newTopic_features h2 hnt'
  have a1 : (noteMessage s).new_topic_ = true := by rw [noteMessage_new_topic, hnt]
  have a2 : (noteMessage s).need_new_list_ = true := by rw [noteMessage_need_new_list, hnl]
  unfold newTopic at h2
  simp only [a1, a2, if_true] at h2
  generalize hrb : rebuildList env _ _ = r at h2
  cases r with
  | error e => cases h2
  | ok s4 =>
    injection h2 with h2
    injection h2 with e1 e2
    subst e1
    have hi := rebuildList_items (le_refl _) hrb
    simp only [Nat.sub_self, Nat.zero_add] at hi
    rw [hi, hsel0, hf2]

/-- The colour selector is rebuilt as C14 says when it held no more feature
entries than the new scan has features. -/
theorem selector_rebuilt_when_short {env : Env} {s s1 : Plugin} {msg : PointCloud2}
    (old : List String)
    (hg : msg.hasGeometry) (hnt : s.new_topic_ = true) (hnl : s.need_new_list_ = true)
    (hitems : s.color_transformer.items = "Flat Color" :: old)
    (h : PointCloud2Callback env s msg = .ok s1) :
    ∃ sc, s1.scans_.getLast? = some sc ∧
      (old.length ≤ sc.new_features.length →
        s1.color_transformer.items = "Flat Color" :: sc.new_features.map Prod.fst) := by
  obtain ⟨sc, h1, h2⟩ := selector_after_rebuild hg hnt hnl h
  refine ⟨sc, h1, ?_⟩
  intro hlen
  rw [h2, hitems]
  simp [List.drop_of_length_le hlen]

/-- C14, at the failing input: the first topic had the fields `x`, `y`, `z`,
`ring`, `intensity`, so the colour selector holds `Flat Color` and five feature
entries when the topic changes; the first message of the second topic has the
fields `x`, `y`, `z`.  The loop of lines 466-470 removes the entries `3`, `2`,
`1` and leaves the old entries `y` and `z`, so the selector holds
`Flat Color, y, z, x, y, z` while the features of a sample are the values of
`x`, `y`, `z`: position `1` names `y`, feature `0` is `x`.  When the entry at
position `4` had been chosen, `CalculateColor` indexes the three features of
the sample at `3`. -/
theorem C14_stale_selector_entries :
    Plugin.secondTopic.color_transformer.items
      = ["Flat Color", "intensity", "ring", "x", "y", "z"] ∧
    Plugin.secondTopic.scans_ = [] ∧ Plugin.secondTopic.need_new_list_ = true ∧
    (PointCloud2Callback Env.sample Plugin.secondTopic (PointCloud2.single 2)).map
        (fun s => (s.color_transformer.items,
          s.scans_.map (fun sc => sc.new_features.map Prod.fst), s.features))
      = .ok (["Flat Color", "y", "z", "x", "y", "z"], [["x", "y", "z"]], [[[1, 2, 3]]]) ∧
    PointCloud2Callback Env.sample Plugin.secondTopicByY (PointCloud2.single 2)
      = .error .badIndex := by
  refine ⟨by decide!, by decide!, by decide!, by decide!, by decide!⟩

end mapviz_plugins
